import Mathlib

/-!
Thunk pool geometry and allocation (`ThunksMapping.cpp`).

A shallow embedding of `src/coreclr/nativeaot/Runtime/ThunksMapping.cpp`.

Conventions of the embedding:

* `OS_PAGE_SIZE` is defined outside the file; every definition takes it as a
  parameter of the same name.
* `int` quantities are natural numbers.  All of them are bounded by the mapping
  size, so they are exact whenever the page size is an `int` value.
* `uintptr_t` arithmetic wraps modulo `2 ^ (8 * POINTER_SIZE)`.
* Pointer arithmetic inside an allocated region is plain addition.
-/

namespace ThunksMapping

/-! ## Targets and constants -/

/-- The targets for which the file defines `THUNK_SIZE` and an encoder. -/
inductive Target where
  | AMD64
  | X86
  | ARM
  | ARM64
  | LOONGARCH64
  deriving DecidableEq, Repr

/-- The `THUNK_SIZE` macro, lines 17-29. -/
def THUNK_SIZE : Target → Nat
  | .AMD64 => 20
  | .X86 => 12
  | .ARM => 20
  | .ARM64 => 16
  | .LOONGARCH64 => 16

/-- Modelled from the spec: the `POINTER_SIZE` macro, defined outside the file.
It is the size of a pointer of the target: 8 on the 64-bit targets, 4 on the
32-bit ones. -/
def POINTER_SIZE : Target → Nat
  | .AMD64 => 8
  | .X86 => 4
  | .ARM => 4
  | .ARM64 => 8
  | .LOONGARCH64 => 8

/-- Number of bits of a `uintptr_t` of the target. -/
def wordBits (t : Target) : Nat := 8 * POINTER_SIZE t

/-- The `THUNKS_MAP_SIZE` macro, line 34: 32 K or the OS page. -/
def THUNKS_MAP_SIZE (OS_PAGE_SIZE : Nat) : Nat := max 0x8000 OS_PAGE_SIZE

/-! ## Machine words -/

/-- Bitwise complement of a `w`-bit word. -/
def wordNot (w x : Nat) : Nat := 2 ^ w - 1 - x % 2 ^ w

/-- Wrapping addition of `w`-bit words. -/
def wordAdd (w a b : Nat) : Nat := (a + b) % 2 ^ w

/-- Wrapping subtraction of `w`-bit words. -/
def wordSub (w a b : Nat) : Nat := (a % 2 ^ w + (2 ^ w - b % 2 ^ w)) % 2 ^ w

/-! ## Geometry queries -/

/-- The function `RhpGetNumThunkBlocksPerMapping`, lines 60-65.  The result is
`none` when the assertion of line 62 fails. -/
def RhpGetNumThunkBlocksPerMapping (OS_PAGE_SIZE : Nat) : Option Nat :=
  if THUNKS_MAP_SIZE OS_PAGE_SIZE % OS_PAGE_SIZE = 0 then
    some (THUNKS_MAP_SIZE OS_PAGE_SIZE / OS_PAGE_SIZE)
  else
    none

/-- The function `RhpGetNumThunksPerBlock`, lines 68-74. -/
def RhpGetNumThunksPerBlock (t : Target) (OS_PAGE_SIZE : Nat) : Nat :=
  min (OS_PAGE_SIZE / THUNK_SIZE t)
    ((OS_PAGE_SIZE - POINTER_SIZE t) / (POINTER_SIZE t * 2))

/-- The function `RhpGetThunkSize`, lines 77-80. -/
def RhpGetThunkSize (t : Target) : Nat := THUNK_SIZE t

/-- The function `RhpGetThunkDataBlockAddress`, lines 83-86.  The mask
`~(OS_PAGE_SIZE - 1)` is taken at pointer width. -/
def RhpGetThunkDataBlockAddress (t : Target) (OS_PAGE_SIZE pThunkStubAddress : Nat) : Nat :=
  wordAdd (wordBits t)
    (pThunkStubAddress &&& wordNot (wordBits t) (OS_PAGE_SIZE - 1))
    (THUNKS_MAP_SIZE OS_PAGE_SIZE)

/-- The function `RhpGetThunkStubsBlockAddress`, lines 89-92. -/
def RhpGetThunkStubsBlockAddress (t : Target) (OS_PAGE_SIZE pThunkDataAddress : Nat) : Nat :=
  wordSub (wordBits t)
    (pThunkDataAddress &&& wordNot (wordBits t) (OS_PAGE_SIZE - 1))
    (THUNKS_MAP_SIZE OS_PAGE_SIZE)

/-- The function `RhpGetThunkBlockSize`, lines 95-98. -/
def RhpGetThunkBlockSize (OS_PAGE_SIZE : Nat) : Nat := OS_PAGE_SIZE

/-- Offset of `pCurrentDataAddress` from `pDataBlockAddress`, line 155. -/
def dataSlotOffset (t : Target) (i : Nat) : Nat := i * POINTER_SIZE t * 2

/-- The displacement `OS_PAGE_SIZE - POINTER_SIZE - (i * POINTER_SIZE * 2)` that
every encoder adds to the data slot address (lines 169, 188, 207, 228, 248).
The subtraction does not underflow for a thunk of the loop, `i` below
`RhpGetNumThunksPerBlock` (see `slot_end_le`). -/
def dispatcherDelta (t : Target) (OS_PAGE_SIZE i : Nat) : Nat :=
  OS_PAGE_SIZE - POINTER_SIZE t - (i * POINTER_SIZE t * 2)

/-! ## Layout of a mapping (the fill loop of `RhAllocateThunksMapping`) -/

/-- The pointer `pDataSection`, lines 110 and 124; `pThunksSection` is
`pNewMapping` itself. -/
def pDataSection (OS_PAGE_SIZE pNewMapping : Nat) : Nat :=
  pNewMapping + THUNKS_MAP_SIZE OS_PAGE_SIZE

/-- The pointer `pDataBlockAddress` of block `m`, line 149. -/
def pDataBlockAddress (OS_PAGE_SIZE pNewMapping m : Nat) : Nat :=
  pDataSection OS_PAGE_SIZE pNewMapping + m * OS_PAGE_SIZE

/-- The pointer `pThunkBlockAddress` of block `m`, line 150. -/
def pThunkBlockAddress (OS_PAGE_SIZE pNewMapping m : Nat) : Nat :=
  pNewMapping + m * OS_PAGE_SIZE

/-- The pointer `pCurrentThunkAddress` of thunk `i` of block `m`, line 154. -/
def pCurrentThunkAddress (t : Target) (OS_PAGE_SIZE pNewMapping m i : Nat) : Nat :=
  pThunkBlockAddress OS_PAGE_SIZE pNewMapping m + THUNK_SIZE t * i

/-- The pointer `pCurrentDataAddress` of thunk `i` of block `m`, line 155. -/
def pCurrentDataAddress (t : Target) (OS_PAGE_SIZE pNewMapping m i : Nat) : Nat :=
  pDataBlockAddress OS_PAGE_SIZE pNewMapping m + i * POINTER_SIZE t * 2

/-! ## Memory and stores -/

/-- Byte-addressed memory. -/
abbrev Memory := Nat → Nat

/-- A store of the `size` low-order bytes of `value` at `addr`.  All the targets
are little-endian. -/
structure Store where
  addr : Nat
  size : Nat
  value : Nat
  deriving DecidableEq, Repr

/-- Memory after one store. -/
def Store.apply (s : Store) (mem : Memory) : Memory := fun a =>
  if s.addr ≤ a ∧ a < s.addr + s.size then s.value / 256 ^ (a - s.addr) % 256 else mem a

/-- Memory after a sequence of stores, in program order. -/
def applyStores (mem : Memory) (stores : List Store) : Memory :=
  stores.foldl (fun m s => s.apply m) mem

/-- The `n` bytes of `v`, least significant first. -/
def leBytes (n v : Nat) : List Nat := (List.range n).map fun j => v / 256 ^ j % 256

/-- The value of a little-endian byte string. -/
def ofLeBytes : List Nat → Nat
  | [] => 0
  | b :: bs => b + 256 * ofLeBytes bs

/-- The `n` bytes of memory starting at `addr`. -/
def readBytes (mem : Memory) (addr n : Nat) : List Nat := (List.range n).map fun j => mem (addr + j)

/-! ## Encoders -/

/-- The function `EncodeThumb2Mov16`, lines 40-48: the two halfwords written to
`pCode[0]` and `pCode[1]`. -/
def EncodeThumb2Mov16 (value rDestination : Nat) (topWord : Bool) : Nat × Nat :=
  (((if topWord then 0xf2c0 else 0xf240) |||
      ((value >>> 12) &&& 0x000f) |||
      ((value >>> 1) &&& 0x0400)) % 2 ^ 16,
   (((value <<< 4) &&& 0x7000) |||
      (value &&& 0x00ff) |||
      (rDestination <<< 8)) % 2 ^ 16)

/-- The function `EncodeThumb2Mov32`, lines 53-57: the four halfwords written at
`pCode[0..3]`. -/
def EncodeThumb2Mov32 (value rDestination : Nat) : List Nat :=
  let lo := EncodeThumb2Mov16 ((value &&& 0x0000ffff) % 2 ^ 16) rDestination false
  let hi := EncodeThumb2Mov16 ((value >>> 16) % 2 ^ 16) rDestination true
  [lo.1, lo.2, hi.1, hi.2]

/-- AMD64 encoder, lines 162-175. -/
def emitAMD64 (OS_PAGE_SIZE pThunk pData i : Nat) : List Store :=
  [ ⟨pThunk, 2, 0xba49⟩,
    ⟨pThunk + 2, 8, pData⟩,
    ⟨pThunk + 10, 4, 0x00a2ff41⟩,
    ⟨pThunk + 13, 4, dispatcherDelta .AMD64 OS_PAGE_SIZE i⟩,
    ⟨pThunk + 17, 1, 0x90⟩,
    ⟨pThunk + 18, 1, 0x90⟩,
    ⟨pThunk + 19, 1, 0x90⟩ ]

/-- X86 encoder, lines 182-192. -/
def emitX86 (OS_PAGE_SIZE pThunk pData i : Nat) : List Store :=
  [ ⟨pThunk, 1, 0xb8⟩,
    ⟨pThunk + 1, 4, pData⟩,
    ⟨pThunk + 5, 2, 0xa0ff⟩,
    ⟨pThunk + 7, 4, dispatcherDelta .X86 OS_PAGE_SIZE i⟩,
    ⟨pThunk + 11, 1, 0x90⟩ ]

/-- ARM encoder, lines 201-215. -/
def emitARM (OS_PAGE_SIZE pThunk pData i : Nat) : List Store :=
  let mov := EncodeThumb2Mov32 (pData % 2 ^ 32) 12
  [ ⟨pThunk, 2, mov.getD 0 0⟩,
    ⟨pThunk + 2, 2, mov.getD 1 0⟩,
    ⟨pThunk + 4, 2, mov.getD 2 0⟩,
    ⟨pThunk + 6, 2, mov.getD 3 0⟩,
    ⟨pThunk + 8, 4, 0xcc04f84d⟩,
    ⟨pThunk + 12, 4, 0xc000f8dc ||| (dispatcherDelta .ARM OS_PAGE_SIZE i <<< 16)⟩,
    ⟨pThunk + 16, 2, 0x4760⟩,
    ⟨pThunk + 18, 2, 0xbf00⟩ ]

/-- The 32-bit pattern of `(int)(pCurrentDataAddress - pCurrentThunkAddress)`,
lines 224 and 244. -/
def thunkDelta (pThunk pData : Nat) : Nat := wordSub 32 pData pThunk

/-- First instruction word of the ARM64 encoder, line 225. -/
def arm64Adr (delta : Nat) : Nat :=
  0x10000010 ||| (((delta &&& 0x03) <<< 29) ||| (((delta &&& 0x1FFFFC) >>> 2) <<< 5))

/-- Second instruction word of the ARM64 encoder, line 228. -/
def arm64Ldr (OS_PAGE_SIZE i : Nat) : Nat :=
  0xF9400211 ||| ((dispatcherDelta .ARM64 OS_PAGE_SIZE i / 8) <<< 10)

/-- ARM64 encoder, lines 224-235. -/
def emitARM64 (OS_PAGE_SIZE pThunk pData i : Nat) : List Store :=
  let delta := thunkDelta pThunk pData
  [ ⟨pThunk, 4, arm64Adr delta⟩,
    ⟨pThunk + 4, 4, arm64Ldr OS_PAGE_SIZE i⟩,
    ⟨pThunk + 8, 4, 0xD61F0220⟩,
    ⟨pThunk + 12, 4, 0xD43E0000⟩ ]

/-- LoongArch64 encoder, lines 244-256. -/
def emitLOONGARCH64 (OS_PAGE_SIZE pThunk pData i : Nat) : List Store :=
  let delta := thunkDelta pThunk pData
  let delta2 := wordAdd 32 delta (dispatcherDelta .LOONGARCH64 OS_PAGE_SIZE i - 4)
  [ ⟨pThunk, 4, 0x18000013 ||| (((delta &&& 0x3FFFFC) >>> 2) <<< 5)⟩,
    ⟨pThunk + 4, 4, 0x18000014 ||| (((delta2 &&& 0x3FFFFC) >>> 2) <<< 5)⟩,
    ⟨pThunk + 8, 4, 0x28C00294⟩,
    ⟨pThunk + 12, 4, 0x4C000280⟩ ]

/-- The body of the inner loop, lines 157-262, for each target. -/
def emitThunk (t : Target) (OS_PAGE_SIZE pThunk pData i : Nat) : List Store :=
  match t with
  | .AMD64 => emitAMD64 OS_PAGE_SIZE pThunk pData i
  | .X86 => emitX86 OS_PAGE_SIZE pThunk pData i
  | .ARM => emitARM OS_PAGE_SIZE pThunk pData i
  | .ARM64 => emitARM64 OS_PAGE_SIZE pThunk pData i
  | .LOONGARCH64 => emitLOONGARCH64 OS_PAGE_SIZE pThunk pData i

/-- The two nested loops of lines 147-264: the stores of every thunk of every
block, in program order. -/
def fillThunks (t : Target) (OS_PAGE_SIZE pNewMapping numBlocksPerMap numThunksPerBlock : Nat) :
    List Store :=
  (List.range numBlocksPerMap).flatMap fun m =>
    (List.range numThunksPerBlock).flatMap fun i =>
      emitThunk t OS_PAGE_SIZE
        (pCurrentThunkAddress t OS_PAGE_SIZE pNewMapping m i)
        (pCurrentDataAddress t OS_PAGE_SIZE pNewMapping m i) i

/-- The set of addresses a sequence of stores writes. -/
def writtenBy (stores : List Store) : Set Nat :=
  {a | ∃ s ∈ stores, s.addr ≤ a ∧ a < s.addr + s.size}

/-! ## Instruction decoding

The decoders below follow the architecture manuals, not the source: they give
the meaning of the words the encoders emit. -/

/-- Value of the `bits`-bit two's complement pattern `v`. -/
def signExtend (bits v : Nat) : Int :=
  if v % 2 ^ bits < 2 ^ (bits - 1) then ((v % 2 ^ bits : Nat) : Int)
  else ((v % 2 ^ bits : Nat) : Int) - 2 ^ bits

/-- AMD64 decoding of the code of a thunk: `49 BA imm64` is `mov r10, imm64` and
`41 FF A2 disp32` is `jmp qword ptr [r10 + disp32]`.  The result is the pair of
`imm64` and the sign-extended `disp32`. -/
def decodeAMD64Thunk (code : List Nat) : Option (Nat × Int) :=
  match code with
  | 0x49 :: 0xBA :: rest =>
    match rest.drop 8 with
    | 0x41 :: 0xFF :: 0xA2 :: rest2 =>
      some (ofLeBytes (rest.take 8), signExtend 32 (ofLeBytes (rest2.take 4)))
    | _ => none
  | _ => none

/-- Execution of the code of an AMD64 thunk over the data memory `mem`: the value
left in `r10` and the address control is transferred to. -/
def execAMD64Thunk (code : List Nat) (mem : Memory) : Option (Nat × Nat) :=
  (decodeAMD64Thunk code).map fun d =>
    (d.1, ofLeBytes (readBytes mem (Int.toNat (((d.1 : Int) + d.2) % 2 ^ 64)) 8))

/-- The 32-bit word of memory at `addr`. -/
def readWord32 (mem : Memory) (addr : Nat) : Nat := ofLeBytes (readBytes mem addr 4)

/-- ARM64 `ADR Xd, #imm`: bit 31 is 0, bits 28-24 are `10000`, the immediate is
`immhi:immlo` (bits 23-5 and 30-29) sign-extended from 21 bits.  The result is
`(Rd, imm)`. -/
def decodeArm64Adr (w : Nat) : Option (Nat × Int) :=
  if w / 2 ^ 31 % 2 = 0 ∧ w / 2 ^ 24 % 32 = 0x10 then
    some (w % 32, signExtend 21 (w / 2 ^ 5 % 2 ^ 19 * 4 + w / 2 ^ 29 % 4))
  else none

/-- ARM64 `LDR Xt, [Xn, #pimm]` (64-bit, unsigned offset): bits 31-22 are
`1111100101`, `imm12` is bits 21-10 and the byte offset is `imm12 * 8`.  The
result is `(Rt, Rn, pimm)`. -/
def decodeArm64LdrX (w : Nat) : Option (Nat × Nat × Nat) :=
  if w / 2 ^ 22 = 0x3E5 then some (w % 32, w / 2 ^ 5 % 32, w / 2 ^ 10 % 2 ^ 12 * 8) else none

/-- ARM64 `BR Xn`: `0xD61F0000 | Rn << 5`.  The result is `Rn`. -/
def decodeArm64Br (w : Nat) : Option Nat :=
  if w / 2 ^ 10 = 0x3587C0 ∧ w % 32 = 0 then some (w / 2 ^ 5 % 32) else none

/-- ARM64 `BRK #imm16`: `0xD4200000 | imm16 << 5`.  The result is `imm16`. -/
def decodeArm64Brk (w : Nat) : Option Nat :=
  if w / 2 ^ 21 = 0x6A1 ∧ w % 32 = 0 then some (w / 2 ^ 5 % 2 ^ 16) else none

/-- LoongArch64 `PCADDI rd, si20`: bits 31-25 are `0001100`, `si20` is bits 24-5,
sign-extended; the instruction computes `rd = PC + 4 * si20`.  The result is
`(rd, si20)`. -/
def decodeLoongArchPcaddi (w : Nat) : Option (Nat × Int) :=
  if w / 2 ^ 25 = 0xC then some (w % 32, signExtend 20 (w / 2 ^ 5 % 2 ^ 20)) else none

/-- LoongArch64 `LD.D rd, rj, si12`: bits 31-22 are `0010100011`.  The result is
`(rd, rj, si12)`. -/
def decodeLoongArchLdD (w : Nat) : Option (Nat × Nat × Int) :=
  if w / 2 ^ 22 = 0xA3 then
    some (w % 32, w / 2 ^ 5 % 32, signExtend 12 (w / 2 ^ 10 % 2 ^ 12))
  else none

/-- LoongArch64 `JIRL rd, rj, offs16`: bits 31-26 are `010011`; the jump goes to
`rj + 4 * offs16`.  The result is `(rd, rj, offs16)`. -/
def decodeLoongArchJirl (w : Nat) : Option (Nat × Nat × Int) :=
  if w / 2 ^ 26 = 0x13 then
    some (w % 32, w / 2 ^ 5 % 32, signExtend 16 (w / 2 ^ 10 % 2 ^ 16))
  else none

/-- Thumb-2 `MOVW Rd, #imm16` (encoding T3) and `MOVT Rd, #imm16` (encoding T1).
The first halfword is `11110 i 10 op 100 imm4` with `op = 0` for `MOVW` and
`op = 1` for `MOVT`; the second is `0 imm3 Rd imm8`; the immediate is
`imm4:i:imm3:imm8`.  The result is `(op, Rd, imm16)`. -/
def decodeThumb2Mov16 (hw0 hw1 : Nat) : Option (Bool × Nat × Nat) :=
  if hw0 / 2 ^ 11 = 0x1E ∧ hw0 / 2 ^ 8 % 4 = 2 ∧ hw0 / 2 ^ 4 % 8 = 4 ∧ hw1 / 2 ^ 15 = 0 then
    some (decide (hw0 / 2 ^ 7 % 2 = 1), hw1 / 2 ^ 8 % 16,
      hw0 % 16 * 2 ^ 12 + hw0 / 2 ^ 10 % 2 * 2 ^ 11 + hw1 / 2 ^ 12 % 8 * 2 ^ 8 + hw1 % 256)
  else none

/-- Execution of `MOVW Rd, #lo` followed by `MOVT Rd, #hi`, given as four
halfwords: the register written and the 32-bit value it holds afterwards. -/
def execThumb2MovPair (code : List Nat) : Option (Nat × Nat) :=
  match code with
  | [a, b, c, d] =>
    match decodeThumb2Mov16 a b, decodeThumb2Mov16 c d with
    | some (false, rd1, lo), some (true, rd2, hi) =>
      if rd1 = rd2 then some (rd1, hi * 2 ^ 16 + lo) else none
    | _, _ => none
  | _ => none

/-! ## Platform primitives and traces -/

/-- Page protections passed to the platform layer. -/
inductive Prot where
  | PAGE_READWRITE
  | PAGE_EXECUTE_READ
  | PAGE_EXECUTE_READWRITE
  deriving DecidableEq, Repr

/-- Allocation types passed to `VirtualAlloc`. -/
inductive AllocationType where
  | MEM_RESERVE
  | MEM_COMMIT
  deriving DecidableEq, Repr

/-- The build configurations the preprocessor distinguishes in the
`FEATURE_RX_THUNKS` implementation (lines 103, 133-141, 266-280). -/
inductive Host where
  /-- The macro `WIN32` is defined. -/
  | WIN32
  /-- Neither `WIN32` nor (`HOST_APPLE` and `HOST_ARM64`). -/
  | UNIX
  /-- The macros `HOST_APPLE`, `HOST_ARM64` and `HOST_OSX` are defined. -/
  | OSX_ARM64
  /-- The macros `HOST_APPLE`, `HOST_ARM64` and one of `HOST_MACCATALYST`, `HOST_IOS`,
  `HOST_TVOS` are defined. -/
  | APPLE_MOBILE_ARM64
  deriving DecidableEq, Repr

/-- One observable step of a call: a platform primitive with its arguments and
result, or a store into the mapping. -/
inductive Event where
  | PalVirtualAlloc (size : Nat) (prot : Prot) (result : Nat)
  | PalVirtualProtect (addr size : Nat) (prot : Prot) (result : Bool)
  | PalVirtualFree (addr size : Nat)
  | pthread_jit_write_protect_np (enabled : Nat)
  | store (s : Store)
  | PalFlushInstructionCache (addr size : Nat)
  | RhFailFast
  | VirtualAlloc (addr size : Nat) (type : AllocationType) (prot : Prot) (result : Nat)
  | PalGetModuleHandleFromPointer (pointer result : Nat)
  | PalAllocateThunksFromTemplate (hTemplateModule : Nat) (templateRva : Int)
      (templateSize : Nat) (result : Bool) (newThunksOut : Nat)
  | PalMarkThunksAsValidCallTargets (virtualAddress thunkSize thunksPerBlock thunkBlockSize
      thunkBlocksPerMapping : Nat) (result : Bool)
  | PalFreeThunksFromTemplate (baseAddress size : Nat)
  deriving DecidableEq, Repr

/-- How a call ends. -/
inductive Outcome where
  /-- The call returned the pointer `p`; `0` is `NULL`. -/
  | returned (p : Nat)
  /-- The call ended in `RhFailFast`. -/
  | failFast
  /-- An `ASSERT` of the call failed. -/
  | assertFailed
  deriving DecidableEq, Repr

/-- The results of the virtual-memory primitives during one call of the
`FEATURE_RX_THUNKS` implementation: `PalVirtualAlloc` returns an address or `0`,
`PalVirtualProtect` returns success or failure. -/
structure Pal where
  PalVirtualAlloc : Nat → Prot → Nat
  PalVirtualProtect : Nat → Nat → Prot → Bool

/-- Whether an event is a call of `PalFlushInstructionCache`. -/
def Event.isFlush : Event → Bool
  | .PalFlushInstructionCache _ _ => true
  | _ => false

/-- Whether an event is a call of `PalVirtualProtect`. -/
def Event.isProtect : Event → Bool
  | .PalVirtualProtect _ _ _ _ => true
  | _ => false

/-- Protection of every address after one more event. -/
def protectionStep (p : Nat → Option Prot) (e : Event) : Nat → Option Prot :=
  match e with
  | .PalVirtualAlloc size prot result => fun a =>
    if result ≠ 0 ∧ result ≤ a ∧ a < result + size then some prot else p a
  | .PalVirtualProtect addr size prot result => fun a =>
    if result = true ∧ addr ≤ a ∧ a < addr + size then some prot else p a
  | .PalVirtualFree addr size => fun a =>
    if addr ≤ a ∧ a < addr + size then none else p a
  | _ => p

/-- Protection of every address after a trace; `none` is unmapped. -/
def protectionAfter (trace : List Event) : Nat → Option Prot :=
  trace.foldl protectionStep (fun _ => none)

/-- Every store of the trace is executed in a protection state that satisfies
`ok`, where `p` is the protection state before the trace. -/
def StoresUnder (ok : (Nat → Option Prot) → Prop) (p : Nat → Option Prot) : List Event → Prop
  | [] => True
  | e :: es => ((∃ s, e = Event.store s) → ok p) ∧ StoresUnder ok (protectionStep p e) es

/-! ## Strategy A: `RhAllocateThunksMapping` under `FEATURE_RX_THUNKS` -/

namespace RxThunks

/-- Lines 126-141: the protection changes before the fill loop.  The first
component is the outcome when the call ends here. -/
def protectBeforeFill (host : Host) (mapSize : Nat) (pal : Pal) (pNewMapping : Nat) :
    Option Outcome × List Event :=
  match host with
  | .WIN32 => (none, [])
  | _ =>
    let pThunksSection := pNewMapping
    let pDataSection := pNewMapping + mapSize
    let okData := pal.PalVirtualProtect pDataSection mapSize .PAGE_READWRITE
    if okData = false then
      (some (.returned 0),
        [.PalVirtualProtect pDataSection mapSize .PAGE_READWRITE okData,
         .PalVirtualFree pNewMapping (mapSize * 2)])
    else
      let okThunks := pal.PalVirtualProtect pThunksSection mapSize .PAGE_EXECUTE_READWRITE
      if okThunks = false then
        (some (.returned 0),
          [.PalVirtualProtect pDataSection mapSize .PAGE_READWRITE okData,
           .PalVirtualProtect pThunksSection mapSize .PAGE_EXECUTE_READWRITE okThunks,
           .PalVirtualFree pNewMapping (mapSize * 2)])
      else
        match host with
        | .APPLE_MOBILE_ARM64 =>
          (some .failFast,
            [.PalVirtualProtect pDataSection mapSize .PAGE_READWRITE okData,
             .PalVirtualProtect pThunksSection mapSize .PAGE_EXECUTE_READWRITE okThunks,
             .RhFailFast])
        | .OSX_ARM64 =>
          (none,
            [.PalVirtualProtect pDataSection mapSize .PAGE_READWRITE okData,
             .PalVirtualProtect pThunksSection mapSize .PAGE_EXECUTE_READWRITE okThunks,
             .pthread_jit_write_protect_np 0])
        | _ =>
          (none,
            [.PalVirtualProtect pDataSection mapSize .PAGE_READWRITE okData,
             .PalVirtualProtect pThunksSection mapSize .PAGE_EXECUTE_READWRITE okThunks])

/-- Lines 266-284: what follows the fill loop. -/
def finishMapping (host : Host) (mapSize : Nat) (pal : Pal) (pNewMapping : Nat) :
    Outcome × List Event :=
  let pThunksSection := pNewMapping
  match host with
  | .APPLE_MOBILE_ARM64 => (.failFast, [.RhFailFast])
  | .OSX_ARM64 =>
    (.returned pThunksSection,
      [.pthread_jit_write_protect_np 1, .PalFlushInstructionCache pThunksSection mapSize])
  | _ =>
    let ok := pal.PalVirtualProtect pThunksSection mapSize .PAGE_EXECUTE_READ
    if ok = false then
      (.returned 0,
        [.PalVirtualProtect pThunksSection mapSize .PAGE_EXECUTE_READ ok,
         .PalVirtualFree pNewMapping (mapSize * 2)])
    else
      (.returned pThunksSection,
        [.PalVirtualProtect pThunksSection mapSize .PAGE_EXECUTE_READ ok,
         .PalFlushInstructionCache pThunksSection mapSize])

/-- The function `RhAllocateThunksMapping`, lines 101-285: the outcome of the call
and the trace of its primitives and stores, in program order. -/
def RhAllocateThunksMapping (host : Host) (t : Target) (OS_PAGE_SIZE : Nat) (pal : Pal) :
    Outcome × List Event :=
  let mapSize := THUNKS_MAP_SIZE OS_PAGE_SIZE
  let prot := if host = .WIN32 then Prot.PAGE_READWRITE else Prot.PAGE_EXECUTE_READ
  let pNewMapping := pal.PalVirtualAlloc (mapSize * 2) prot
  let reserve := [Event.PalVirtualAlloc (mapSize * 2) prot pNewMapping]
  if pNewMapping = 0 then (.returned 0, reserve)
  else
    let before := protectBeforeFill host mapSize pal pNewMapping
    match before.1 with
    | some out => (out, reserve ++ before.2)
    | none =>
      match RhpGetNumThunkBlocksPerMapping OS_PAGE_SIZE with
      | none => (.assertFailed, reserve ++ before.2)
      | some numBlocksPerMap =>
        let numThunksPerBlock := RhpGetNumThunksPerBlock t OS_PAGE_SIZE
        let fill :=
          (fillThunks t OS_PAGE_SIZE pNewMapping numBlocksPerMap numThunksPerBlock).map Event.store
        let after := finishMapping host mapSize pal pNewMapping
        (after.1, reserve ++ before.2 ++ fill ++ after.2)

end RxThunks

/-! ## Strategy B: `RhAllocateThunksMapping` under `FEATURE_FIXED_POOL_THUNKS` -/

namespace FixedPool

/-- The functions the fixed-pool implementation only declares (lines 293-297);
they are defined outside the file. -/
structure Env where
  RhpGetThunkBlockCount : Nat
  RhpGetNumThunkBlocksPerMapping : Nat
  RhpGetThunkBlockSize : Nat
  RhpGetThunkDataBlockAddress : Nat → Nat
  RhpGetThunkStubsBlockAddress : Nat → Nat

/-- The process-wide state: the static `nextThunkDataMapping` (line 301) and the
global `g_pThunkStubData` (line 291). -/
structure State where
  nextThunkDataMapping : Nat
  g_pThunkStubData : Nat
  deriving DecidableEq, Repr

/-- The state at process start. -/
def State.initial : State := ⟨0, 0⟩

/-- The results of `VirtualAlloc` during one call: an address, or `0` on
failure. -/
structure Win32 where
  VirtualAlloc : Nat → Nat → AllocationType → Prot → Nat

/-- The function `RhAllocateThunksMapping`, lines 299-342: the outcome, the state
after the call and the trace of its primitives.  The divisions of lines 307 and
310 need `RhpGetNumThunkBlocksPerMapping() > 0`. -/
def RhAllocateThunksMapping (env : Env) (os : Win32) (st : State) :
    Outcome × State × List Event :=
  let thunkBlocksPerMapping := env.RhpGetNumThunkBlocksPerMapping
  let thunkBlockSize := env.RhpGetThunkBlockSize
  let blockCount := env.RhpGetThunkBlockCount
  if blockCount % thunkBlocksPerMapping ≠ 0 then (.assertFailed, st, [])
  else
    let thunkDataMappingSize := thunkBlocksPerMapping * thunkBlockSize
    let thunkDataMappingCount := blockCount / thunkBlocksPerMapping
    if st.nextThunkDataMapping = thunkDataMappingCount then (.returned 0, st, [])
    else
      let thunkDataSize := thunkDataMappingSize * thunkDataMappingCount
      let reserved :=
        if st.g_pThunkStubData = 0 then
          os.VirtualAlloc 0 thunkDataSize .MEM_RESERVE .PAGE_READWRITE
        else st.g_pThunkStubData
      let reserve :=
        if st.g_pThunkStubData = 0 then
          [Event.VirtualAlloc 0 thunkDataSize .MEM_RESERVE .PAGE_READWRITE reserved]
        else []
      let st1 : State := ⟨st.nextThunkDataMapping, reserved⟩
      if reserved = 0 then (.returned 0, st1, reserve)
      else
        let pThunkDataBlock := reserved + st.nextThunkDataMapping * thunkDataMappingSize
        let committed :=
          os.VirtualAlloc pThunkDataBlock thunkDataMappingSize .MEM_COMMIT .PAGE_READWRITE
        let commit :=
          [Event.VirtualAlloc pThunkDataBlock thunkDataMappingSize .MEM_COMMIT .PAGE_READWRITE
            committed]
        if committed = 0 then (.returned 0, st1, reserve ++ commit)
        else
          let st2 : State := ⟨st.nextThunkDataMapping + 1, reserved⟩
          let pThunks := env.RhpGetThunkStubsBlockAddress pThunkDataBlock
          if env.RhpGetThunkDataBlockAddress pThunks ≠ pThunkDataBlock then
            (.assertFailed, st2, reserve ++ commit)
          else (.returned pThunks, st2, reserve ++ commit)

/-- The state after a sequence of calls, one `Win32` behaviour per call. -/
def stateAfter (env : Env) (st : State) (calls : List Win32) : State :=
  calls.foldl (fun s os => (RhAllocateThunksMapping env os s).2.1) st

end FixedPool

/-! ## Strategy C: `RhAllocateThunksMapping` by template cloning -/

/-- The value of `(int)x`: `x` reduced to 32 bits, two's complement. -/
def toInt32 (x : Int) : Int := (x + 2 ^ 31) % 2 ^ 32 - 2 ^ 31

namespace TemplateThunks

/-- The functions the template implementation only declares (lines 346-350);
they are defined outside the file. -/
structure Env where
  RhpGetThunksBase : Nat
  RhpGetNumThunkBlocksPerMapping : Nat
  RhpGetNumThunksPerBlock : Nat
  RhpGetThunkSize : Nat
  RhpGetThunkBlockSize : Nat

/-- The process-wide state: the static `pThunksTemplateAddress` (line 354). -/
structure State where
  pThunksTemplateAddress : Nat
  deriving DecidableEq, Repr

/-- The state at process start. -/
def State.initial : State := ⟨0⟩

/-- The results of the platform primitives during one call.
`PalAllocateThunksFromTemplate` gives its return value and the pointer it stores
through `newThunksOut`. -/
structure Pal where
  PalGetModuleHandleFromPointer : Nat → Nat
  PalAllocateThunksFromTemplate : Nat → Int → Nat → Bool × Nat
  PalMarkThunksAsValidCallTargets : Nat → Nat → Nat → Nat → Nat → Bool

/-- Lines 362-383: how the call obtains `pThunkMap`.  The first component is
`none` when the call returns `NULL` here, else `pThunkMap`; the second is the
state.  The directive of line 362 tests `TARGET_APPLE` only (a preprocessor
reads one name after `ifndef`). -/
def obtainMapping (TARGET_APPLE : Bool) (env : Env) (pal : Pal) (st : State) :
    Option Nat × State × List Event :=
  if TARGET_APPLE = false ∧ st.pThunksTemplateAddress = 0 then
    (some env.RhpGetThunksBase, ⟨env.RhpGetThunksBase⟩, [])
  else
    let templateSize := env.RhpGetNumThunkBlocksPerMapping * env.RhpGetThunkBlockSize
    let pModuleBase := pal.PalGetModuleHandleFromPointer env.RhpGetThunksBase
    let templateRva := toInt32 ((env.RhpGetThunksBase : Int) - (pModuleBase : Int))
    let cloned := pal.PalAllocateThunksFromTemplate pModuleBase templateRva templateSize
    let events :=
      [Event.PalGetModuleHandleFromPointer env.RhpGetThunksBase pModuleBase,
       Event.PalAllocateThunksFromTemplate pModuleBase templateRva templateSize cloned.1 cloned.2]
    if cloned.1 = false then (none, st, events) else (some cloned.2, st, events)

/-- The function `RhAllocateThunksMapping`, lines 352-399: the outcome, the state
after the call and the trace of its primitives. -/
def RhAllocateThunksMapping (TARGET_APPLE : Bool) (env : Env) (pal : Pal) (st : State) :
    Outcome × State × List Event :=
  let thunkBlocksPerMapping := env.RhpGetNumThunkBlocksPerMapping
  let thunkBlockSize := env.RhpGetThunkBlockSize
  let templateSize := thunkBlocksPerMapping * thunkBlockSize
  let obtained := obtainMapping TARGET_APPLE env pal st
  match obtained.1 with
  | none => (.returned 0, obtained.2.1, obtained.2.2)
  | some pThunkMap =>
    let marked := pal.PalMarkThunksAsValidCallTargets pThunkMap env.RhpGetThunkSize
      env.RhpGetNumThunksPerBlock thunkBlockSize thunkBlocksPerMapping
    let mark := [Event.PalMarkThunksAsValidCallTargets pThunkMap env.RhpGetThunkSize
      env.RhpGetNumThunksPerBlock thunkBlockSize thunkBlocksPerMapping marked]
    if marked = false then
      if pThunkMap ≠ obtained.2.1.pThunksTemplateAddress then
        (.returned 0, obtained.2.1,
          obtained.2.2 ++ mark ++ [Event.PalFreeThunksFromTemplate pThunkMap templateSize])
      else (.returned 0, obtained.2.1, obtained.2.2 ++ mark)
    else (.returned pThunkMap, obtained.2.1, obtained.2.2 ++ mark)

/-- The state after a sequence of calls, one `Pal` behaviour per call. -/
def stateAfter (TARGET_APPLE : Bool) (env : Env) (st : State) (calls : List Pal) : State :=
  calls.foldl (fun s pal => (RhAllocateThunksMapping TARGET_APPLE env pal s).2.1) st

/-- The traces of a sequence of calls, concatenated in call order. -/
def traceOf (TARGET_APPLE : Bool) (env : Env) (st : State) : List Pal → List Event
  | [] => []
  | pal :: rest =>
    (RhAllocateThunksMapping TARGET_APPLE env pal st).2.2 ++
      traceOf TARGET_APPLE env (RhAllocateThunksMapping TARGET_APPLE env pal st).2.1 rest

end TemplateThunks

/-- Whether an event is a call of `PalFreeThunksFromTemplate`. -/
def Event.isFreeThunks : Event → Bool
  | .PalFreeThunksFromTemplate _ _ => true
  | _ => false

/-- Whether an event is a call of `PalAllocateThunksFromTemplate`. -/
def Event.isClone : Event → Bool
  | .PalAllocateThunksFromTemplate _ _ _ _ _ => true
  | _ => false

/-! ## Strategy B: sequences of calls -/

namespace FixedPool

/-- The local `thunkDataMappingSize` of `RhAllocateThunksMapping`, line 309. -/
def thunkDataMappingSize (env : Env) : Nat :=
  env.RhpGetNumThunkBlocksPerMapping * env.RhpGetThunkBlockSize

/-- The local `thunkDataMappingCount` of `RhAllocateThunksMapping`, line 310. -/
def thunkDataMappingCount (env : Env) : Nat :=
  env.RhpGetThunkBlockCount / env.RhpGetNumThunkBlocksPerMapping

/-- What the reserve of lines 319-323 returns under the behaviour `os`. -/
def reserveResult (env : Env) (os : Win32) : Nat :=
  os.VirtualAlloc 0 (thunkDataMappingSize env * thunkDataMappingCount env)
    .MEM_RESERVE .PAGE_READWRITE

/-- One call of a sequence: the state it starts from, its outcome, the state it
leaves and the primitives it invoked. -/
structure Call where
  before : State
  outcome : Outcome
  after : State
  events : List Event

/-- A sequence of calls of `RhAllocateThunksMapping`, one `Win32` behaviour per
call; each call starts from the state the previous one left. -/
def run (env : Env) : State → List Win32 → List Call
  | _, [] => []
  | st, os :: rest =>
    ⟨st, (RhAllocateThunksMapping env os st).1, (RhAllocateThunksMapping env os st).2.1,
      (RhAllocateThunksMapping env os st).2.2⟩ ::
      run env (RhAllocateThunksMapping env os st).2.1 rest

end FixedPool

/-- Whether an event is a `VirtualAlloc` with `MEM_RESERVE`. -/
def Event.isReserve : Event → Bool
  | .VirtualAlloc _ _ .MEM_RESERVE _ _ => true
  | _ => false

/-- Whether an event is a `VirtualAlloc` with `MEM_RESERVE` that did not return
`NULL`. -/
def Event.isReserved : Event → Bool
  | .VirtualAlloc _ _ .MEM_RESERVE _ result => result != 0
  | _ => false

/-- Whether an event is a `VirtualAlloc` with `MEM_COMMIT`. -/
def Event.isCommit : Event → Bool
  | .VirtualAlloc _ _ .MEM_COMMIT _ _ => true
  | _ => false

/-- Whether an event is a `VirtualAlloc` with `MEM_COMMIT` that did not return
`NULL`. -/
def Event.isCommitted : Event → Bool
  | .VirtualAlloc _ _ .MEM_COMMIT _ result => result != 0
  | _ => false

/-- Whether a call returned a non-null pointer. -/
def Outcome.isNonNull : Outcome → Bool
  | .returned p => p != 0
  | _ => false

/-- Whether the commit of lines 328-331 succeeded during a call. -/
def FixedPool.Call.committed (c : FixedPool.Call) : Bool :=
  c.events.any Event.isCommitted

/-- The fixed pool whose geometry queries are the ones this file defines for the
code-generating configuration (lines 60-98): `blocks_per_mapping` blocks of one
page, `RhpGetThunkDataBlockAddress` and `RhpGetThunkStubsBlockAddress`.  The block
count stays a parameter. -/
def FixedPool.geometryEnv (t : Target) (OS_PAGE_SIZE blockCount thunkBlocksPerMapping : Nat) :
    FixedPool.Env :=
  ⟨blockCount, thunkBlocksPerMapping, RhpGetThunkBlockSize OS_PAGE_SIZE,
    RhpGetThunkDataBlockAddress t OS_PAGE_SIZE, RhpGetThunkStubsBlockAddress t OS_PAGE_SIZE⟩

/-! ## Arithmetic lemmas -/

theorem two_pow_dvd_map_size (k : Nat) : 2 ^ k ∣ THUNKS_MAP_SIZE (2 ^ k) := by
  unfold THUNKS_MAP_SIZE
  rcases Nat.le_total k 15 with h | h
  · have h1 : 2 ^ k ≤ 2 ^ 15 := Nat.pow_le_pow_right (by norm_num) h
    have h2 : max 0x8000 (2 ^ k) = 2 ^ 15 := by
      rw [max_eq_left (by simpa using h1)]; norm_num
    rw [h2]
    exact Nat.pow_dvd_pow 2 h
  · have h1 : 2 ^ 15 ≤ 2 ^ k := Nat.pow_le_pow_right (by norm_num) h
    rw [max_eq_right (by simpa using h1)]

theorem pointer_size_cases (t : Target) : POINTER_SIZE t = 4 ∨ POINTER_SIZE t = 8 := by
  cases t <;> simp [POINTER_SIZE]

theorem thunk_size_pos (t : Target) : 0 < THUNK_SIZE t := by
  cases t <;> simp [THUNK_SIZE]

theorem thunks_mul_size_le (t : Target) (OS_PAGE_SIZE : Nat) :
    RhpGetNumThunksPerBlock t OS_PAGE_SIZE * THUNK_SIZE t ≤ OS_PAGE_SIZE := by
  unfold RhpGetNumThunksPerBlock
  calc min (OS_PAGE_SIZE / THUNK_SIZE t)
          ((OS_PAGE_SIZE - POINTER_SIZE t) / (POINTER_SIZE t * 2)) * THUNK_SIZE t
      ≤ OS_PAGE_SIZE / THUNK_SIZE t * THUNK_SIZE t :=
        Nat.mul_le_mul_right _ (min_le_left _ _)
    _ ≤ OS_PAGE_SIZE := Nat.div_mul_le_self _ _

theorem slot_end_le (t : Target) (OS_PAGE_SIZE i : Nat)
    (hi : i < RhpGetNumThunksPerBlock t OS_PAGE_SIZE) :
    dataSlotOffset t i + 2 * POINTER_SIZE t ≤ OS_PAGE_SIZE - POINTER_SIZE t := by
  unfold RhpGetNumThunksPerBlock at hi
  have h1 : i + 1 ≤ (OS_PAGE_SIZE - POINTER_SIZE t) / (POINTER_SIZE t * 2) :=
    Nat.succ_le_of_lt (lt_of_lt_of_le hi (min_le_right _ _))
  have h2 : (i + 1) * (POINTER_SIZE t * 2) ≤ OS_PAGE_SIZE - POINTER_SIZE t :=
    le_trans (Nat.mul_le_mul_right _ h1) (Nat.div_mul_le_self _ _)
  have h3 : dataSlotOffset t i + 2 * POINTER_SIZE t = (i + 1) * (POINTER_SIZE t * 2) := by
    unfold dataSlotOffset; ring
  omega

/-! ## Machine-word lemmas -/

theorem and_wordNot_mask (w k x : Nat) (hk : k ≤ w) :
    x &&& wordNot w (2 ^ k - 1) = 2 ^ k * (x % 2 ^ w / 2 ^ k) := by
  have hlt : 2 ^ k - 1 < 2 ^ w :=
    lt_of_lt_of_le (Nat.sub_lt (Nat.two_pow_pos k) one_pos)
      (Nat.pow_le_pow_right (by norm_num) hk)
  have hnot : wordNot w (2 ^ k - 1) = 2 ^ w - ((2 ^ k - 1) + 1) := by
    unfold wordNot
    rw [Nat.mod_eq_of_lt hlt]
    omega
  apply Nat.eq_of_testBit_eq
  intro i
  rw [Nat.testBit_and, hnot, Nat.testBit_two_pow_sub_succ hlt, Nat.testBit_two_pow_sub_one,
    Nat.testBit_mul_pow_two, ← Nat.shiftRight_eq_div_pow, Nat.testBit_shiftRight,
    Nat.testBit_mod_two_pow]
  by_cases h1 : i < k
  · have h2 : ¬ i ≥ k := by omega
    simp [h1, h2]
  · have h2 : i ≥ k := by omega
    have h3 : k + (i - k) = i := by omega
    simp [h1, h2, h3]
    exact Bool.and_comm _ _

theorem wordSub_wordAdd (w a b : Nat) (ha : a < 2 ^ w) :
    wordSub w (wordAdd w a b) b = a := by
  unfold wordSub wordAdd
  have hNpos : 0 < 2 ^ w := Nat.two_pow_pos w
  have hr : b % 2 ^ w < 2 ^ w := Nat.mod_lt _ hNpos
  have h1 : (a + b) % 2 ^ w = (a + b % 2 ^ w) % 2 ^ w := by rw [Nat.add_mod_mod]
  rw [Nat.mod_mod, h1]
  generalize b % 2 ^ w = r at hr ⊢
  generalize 2 ^ w = N at *
  by_cases h : a + r < N
  · rw [Nat.mod_eq_of_lt h]
    have h2 : a + r + (N - r) = a + N := by omega
    rw [h2, Nat.add_mod_right, Nat.mod_eq_of_lt ha]
  · have h2 : (a + r) % N = a + r - N := by
      rw [Nat.mod_eq_sub_mod (by omega), Nat.mod_eq_of_lt (by omega)]
    have h3 : a + r - N + (N - r) = a := by omega
    rw [h2, h3, Nat.mod_eq_of_lt ha]

theorem wordAdd_wordSub (w a b : Nat) (ha : a < 2 ^ w) :
    wordAdd w (wordSub w a b) b = a := by
  unfold wordSub wordAdd
  have hNpos : 0 < 2 ^ w := Nat.two_pow_pos w
  have hr : b % 2 ^ w < 2 ^ w := Nat.mod_lt _ hNpos
  have h1 : ∀ x, (x + b) % 2 ^ w = (x + b % 2 ^ w) % 2 ^ w := by
    intro x; rw [Nat.add_mod_mod]
  rw [h1, Nat.mod_eq_of_lt ha]
  generalize b % 2 ^ w = r at hr ⊢
  generalize 2 ^ w = N at *
  by_cases h : r ≤ a
  · have h2 : a + (N - r) = (a - r) + N := by omega
    rw [h2, Nat.add_mod_right, Nat.mod_eq_of_lt (by omega : a - r < N)]
    have h3 : a - r + r = a := by omega
    rw [h3, Nat.mod_eq_of_lt ha]
  · rw [Nat.mod_eq_of_lt (by omega : a + (N - r) < N)]
    have h3 : a + (N - r) + r = a + N := by omega
    rw [h3, Nat.add_mod_right, Nat.mod_eq_of_lt ha]

/-- The page base `p & ~(2^k - 1)` is the address rounded down to the page. -/
theorem and_wordNot_eq_sub_mod (w k x : Nat) (hk : k ≤ w) (hx : x < 2 ^ w) :
    x &&& wordNot w (2 ^ k - 1) = x - x % 2 ^ k := by
  rw [and_wordNot_mask w k x hk, Nat.mod_eq_of_lt hx]
  have := Nat.div_add_mod x (2 ^ k)
  omega

theorem and_wordNot_of_dvd (w k x : Nat) (hk : k ≤ w) (hx : x < 2 ^ w) (hd : 2 ^ k ∣ x) :
    x &&& wordNot w (2 ^ k - 1) = x := by
  rw [and_wordNot_eq_sub_mod w k x hk hx, Nat.mod_eq_zero_of_dvd hd]
  rfl

theorem and_wordNot_lt (w k x : Nat) (hk : k ≤ w) : x &&& wordNot w (2 ^ k - 1) < 2 ^ w := by
  rw [and_wordNot_mask w k x hk]
  exact lt_of_le_of_lt (Nat.mul_div_le _ _) (Nat.mod_lt _ (Nat.two_pow_pos w))

theorem and_wordNot_dvd (w k x : Nat) (hk : k ≤ w) : 2 ^ k ∣ x &&& wordNot w (2 ^ k - 1) := by
  rw [and_wordNot_mask w k x hk]
  exact Dvd.intro _ rfl

theorem wordAdd_lt (w a b : Nat) : wordAdd w a b < 2 ^ w := Nat.mod_lt _ (Nat.two_pow_pos w)

theorem wordSub_lt (w a b : Nat) : wordSub w a b < 2 ^ w := Nat.mod_lt _ (Nat.two_pow_pos w)

theorem wordAdd_dvd (w k a b : Nat) (hk : k ≤ w) (ha : 2 ^ k ∣ a) (hb : 2 ^ k ∣ b) :
    2 ^ k ∣ wordAdd w a b := by
  unfold wordAdd
  exact (Nat.dvd_mod_iff (Nat.pow_dvd_pow 2 hk)).2 (Nat.dvd_add ha hb)

theorem wordSub_dvd (w k a b : Nat) (hk : k ≤ w) (ha : 2 ^ k ∣ a) (hb : 2 ^ k ∣ b) :
    2 ^ k ∣ wordSub w a b := by
  unfold wordSub
  have hw : 2 ^ k ∣ 2 ^ w := Nat.pow_dvd_pow 2 hk
  refine (Nat.dvd_mod_iff hw).2 (Nat.dvd_add ((Nat.dvd_mod_iff hw).2 ha) ?_)
  exact Nat.dvd_sub' hw ((Nat.dvd_mod_iff hw).2 hb)

theorem stubs_of_data (t : Target) (k s : Nat) (hk : k ≤ wordBits t) :
    RhpGetThunkStubsBlockAddress t (2 ^ k) (RhpGetThunkDataBlockAddress t (2 ^ k) s) =
      s &&& wordNot (wordBits t) (2 ^ k - 1) := by
  unfold RhpGetThunkStubsBlockAddress RhpGetThunkDataBlockAddress
  rw [and_wordNot_of_dvd _ k _ hk (wordAdd_lt _ _ _)
    (wordAdd_dvd _ k _ _ hk (and_wordNot_dvd _ k s hk) (two_pow_dvd_map_size k))]
  exact wordSub_wordAdd _ _ _ (and_wordNot_lt _ k s hk)

theorem data_of_stubs (t : Target) (k d : Nat) (hk : k ≤ wordBits t) :
    RhpGetThunkDataBlockAddress t (2 ^ k) (RhpGetThunkStubsBlockAddress t (2 ^ k) d) =
      d &&& wordNot (wordBits t) (2 ^ k - 1) := by
  unfold RhpGetThunkStubsBlockAddress RhpGetThunkDataBlockAddress
  rw [and_wordNot_of_dvd _ k _ hk (wordSub_lt _ _ _)
    (wordSub_dvd _ k _ _ hk (and_wordNot_dvd _ k d hk) (two_pow_dvd_map_size k))]
  exact wordAdd_wordSub _ _ _ (and_wordNot_lt _ k d hk)

/-! ## Geometry theorems -/

/-- C1: for every supported target and every power-of-two page size of at least
4096 bytes, the thunk size is a multiple of 4, the thunks of a block fit in one
page, and the number of thunks per block is the minimum of the two truncating
quotients. -/
theorem thunk_size_aligned_and_block_fits (t : Target) (OS_PAGE_SIZE k : Nat)
    (hpow : OS_PAGE_SIZE = 2 ^ k) (hmin : 4096 ≤ OS_PAGE_SIZE) :
    (RhpGetThunkSize .AMD64 = 20 ∧ RhpGetThunkSize .X86 = 12 ∧ RhpGetThunkSize .ARM = 20 ∧
      RhpGetThunkSize .ARM64 = 16 ∧ RhpGetThunkSize .LOONGARCH64 = 16) ∧
    (POINTER_SIZE t = 4 ∨ POINTER_SIZE t = 8) ∧
    RhpGetThunkSize t % 4 = 0 ∧
    RhpGetNumThunksPerBlock t OS_PAGE_SIZE * RhpGetThunkSize t ≤ OS_PAGE_SIZE ∧
    RhpGetNumThunksPerBlock t OS_PAGE_SIZE =
      min (OS_PAGE_SIZE / RhpGetThunkSize t)
        ((OS_PAGE_SIZE - POINTER_SIZE t) / (2 * POINTER_SIZE t)) := by
  refine ⟨by simp [RhpGetThunkSize, THUNK_SIZE], pointer_size_cases t, ?_, ?_, ?_⟩
  · cases t <;> simp [RhpGetThunkSize, THUNK_SIZE]
  · exact thunks_mul_size_le t OS_PAGE_SIZE
  · simp [RhpGetNumThunksPerBlock, RhpGetThunkSize, Nat.mul_comm]

theorem thunk_size_aligned_and_block_fits_witness :
    (RhpGetThunkSize .AMD64 = 20 ∧ RhpGetThunkSize .X86 = 12 ∧ RhpGetThunkSize .ARM = 20 ∧
      RhpGetThunkSize .ARM64 = 16 ∧ RhpGetThunkSize .LOONGARCH64 = 16) ∧
    (POINTER_SIZE .X86 = 4 ∨ POINTER_SIZE .X86 = 8) ∧
    RhpGetThunkSize .X86 % 4 = 0 ∧
    RhpGetNumThunksPerBlock .X86 4096 * RhpGetThunkSize .X86 ≤ 4096 ∧
    RhpGetNumThunksPerBlock .X86 4096 =
      min (4096 / RhpGetThunkSize .X86) ((4096 - POINTER_SIZE .X86) / (2 * POINTER_SIZE .X86)) :=
  thunk_size_aligned_and_block_fits .X86 4096 12 (by norm_num) (by norm_num)

/-- C4: the data pair of thunk `i` occupies bytes `[i*2p, i*2p + 2p)` of its data
page, ends at or before `page_size - p`, and is therefore disjoint from the
dispatcher cell `[page_size - p, page_size)` (the cell every encoder reaches by
adding its displacement to the slot offset) and from the pair of every other
thunk of the block. -/
theorem dispatcher_cell_not_shared (t : Target) (OS_PAGE_SIZE k i : Nat)
    (hpow : OS_PAGE_SIZE = 2 ^ k) (hmin : 4096 ≤ OS_PAGE_SIZE)
    (hi : i < RhpGetNumThunksPerBlock t OS_PAGE_SIZE) :
    (POINTER_SIZE t = 4 ∨ POINTER_SIZE t = 8) ∧
    dataSlotOffset t i = i * (2 * POINTER_SIZE t) ∧
    dataSlotOffset t i + 2 * POINTER_SIZE t ≤ OS_PAGE_SIZE - POINTER_SIZE t ∧
    dataSlotOffset t i + dispatcherDelta t OS_PAGE_SIZE i = OS_PAGE_SIZE - POINTER_SIZE t ∧
    Disjoint (Set.Ico (dataSlotOffset t i) (dataSlotOffset t i + 2 * POINTER_SIZE t))
      (Set.Ico (OS_PAGE_SIZE - POINTER_SIZE t) OS_PAGE_SIZE) ∧
    ∀ j, j < RhpGetNumThunksPerBlock t OS_PAGE_SIZE → j ≠ i →
      Disjoint (Set.Ico (dataSlotOffset t i) (dataSlotOffset t i + 2 * POINTER_SIZE t))
        (Set.Ico (dataSlotOffset t j) (dataSlotOffset t j + 2 * POINTER_SIZE t)) := by
  have hend := slot_end_le t OS_PAGE_SIZE i hi
  have hp := pointer_size_cases t
  refine ⟨hp, by unfold dataSlotOffset; ring, hend, ?_, ?_, ?_⟩
  · unfold dispatcherDelta
    unfold dataSlotOffset at hend ⊢
    omega
  · rw [Set.Ico_disjoint_Ico]
    simp only [le_max_iff, min_le_iff]
    omega
  · intro j _ hji
    rw [Set.Ico_disjoint_Ico]
    simp only [le_max_iff, min_le_iff]
    unfold dataSlotOffset
    rcases Nat.lt_or_gt_of_ne hji with h | h
    · left; right
      have h1 : (j + 1) * (POINTER_SIZE t * 2) ≤ i * (POINTER_SIZE t * 2) :=
        Nat.mul_le_mul_right _ h
      calc j * POINTER_SIZE t * 2 + 2 * POINTER_SIZE t
          = (j + 1) * (POINTER_SIZE t * 2) := by ring
        _ ≤ i * (POINTER_SIZE t * 2) := h1
        _ = i * POINTER_SIZE t * 2 := by ring
    · right; left
      have h1 : (i + 1) * (POINTER_SIZE t * 2) ≤ j * (POINTER_SIZE t * 2) :=
        Nat.mul_le_mul_right _ h
      calc i * POINTER_SIZE t * 2 + 2 * POINTER_SIZE t
          = (i + 1) * (POINTER_SIZE t * 2) := by ring
        _ ≤ j * (POINTER_SIZE t * 2) := h1
        _ = j * POINTER_SIZE t * 2 := by ring

theorem dispatcher_cell_not_shared_witness :
    (POINTER_SIZE .AMD64 = 4 ∨ POINTER_SIZE .AMD64 = 8) ∧
    dataSlotOffset .AMD64 203 = 203 * (2 * POINTER_SIZE .AMD64) ∧
    dataSlotOffset .AMD64 203 + 2 * POINTER_SIZE .AMD64 ≤ 4096 - POINTER_SIZE .AMD64 ∧
    dataSlotOffset .AMD64 203 + dispatcherDelta .AMD64 4096 203 = 4096 - POINTER_SIZE .AMD64 ∧
    Disjoint (Set.Ico (dataSlotOffset .AMD64 203) (dataSlotOffset .AMD64 203 + 2 * POINTER_SIZE .AMD64))
      (Set.Ico (4096 - POINTER_SIZE .AMD64) 4096) ∧
    ∀ j, j < RhpGetNumThunksPerBlock .AMD64 4096 → j ≠ 203 →
      Disjoint (Set.Ico (dataSlotOffset .AMD64 203) (dataSlotOffset .AMD64 203 + 2 * POINTER_SIZE .AMD64))
        (Set.Ico (dataSlotOffset .AMD64 j) (dataSlotOffset .AMD64 j + 2 * POINTER_SIZE .AMD64)) :=
  dispatcher_cell_not_shared .AMD64 4096 12 203 (by norm_num) (by norm_num) (by decide)

/-- C5: `RhpGetNumThunkBlocksPerMapping` returns `max(0x8000, page_size) / page_size`;
for a power-of-two page size its assertion holds, and the number of blocks times
`RhpGetThunkBlockSize() = page_size` is exactly the mapping size. -/
theorem blocks_per_mapping_exact (OS_PAGE_SIZE k : Nat) (hpow : OS_PAGE_SIZE = 2 ^ k) :
    THUNKS_MAP_SIZE OS_PAGE_SIZE = max 0x8000 OS_PAGE_SIZE ∧
    THUNKS_MAP_SIZE OS_PAGE_SIZE % OS_PAGE_SIZE = 0 ∧
    RhpGetNumThunkBlocksPerMapping OS_PAGE_SIZE = some (max 0x8000 OS_PAGE_SIZE / OS_PAGE_SIZE) ∧
    RhpGetThunkBlockSize OS_PAGE_SIZE = OS_PAGE_SIZE ∧
    max 0x8000 OS_PAGE_SIZE / OS_PAGE_SIZE * RhpGetThunkBlockSize OS_PAGE_SIZE =
      max 0x8000 OS_PAGE_SIZE := by
  subst hpow
  have hd := two_pow_dvd_map_size k
  have hm : THUNKS_MAP_SIZE (2 ^ k) % 2 ^ k = 0 := Nat.mod_eq_zero_of_dvd hd
  refine ⟨rfl, hm, ?_, rfl, ?_⟩
  · unfold RhpGetNumThunkBlocksPerMapping
    rw [if_pos hm]; rfl
  · exact Nat.div_mul_cancel hd

theorem blocks_per_mapping_exact_witness :
    THUNKS_MAP_SIZE 16384 = max 0x8000 16384 ∧
    THUNKS_MAP_SIZE 16384 % 16384 = 0 ∧
    RhpGetNumThunkBlocksPerMapping 16384 = some (max 0x8000 16384 / 16384) ∧
    RhpGetThunkBlockSize 16384 = 16384 ∧
    max 0x8000 16384 / 16384 * RhpGetThunkBlockSize 16384 = max 0x8000 16384 :=
  blocks_per_mapping_exact 16384 14 (by norm_num)

/-- C2: block-address round trip in machine-word arithmetic.  For a power-of-two
page size, `RhpGetThunkStubsBlockAddress (RhpGetThunkDataBlockAddress s)` is
`s & ~(page_size - 1)`, the page-aligned block address containing `s`; it equals
`s` exactly when `s` is page-aligned.  The symmetric statement holds for a data
address `d`. -/
theorem block_address_round_trip (t : Target) (OS_PAGE_SIZE k s d : Nat)
    (hpow : OS_PAGE_SIZE = 2 ^ k) (hpage : OS_PAGE_SIZE < 2 ^ wordBits t)
    (hs : s < 2 ^ wordBits t) (hd : d < 2 ^ wordBits t) :
    (RhpGetThunkStubsBlockAddress t OS_PAGE_SIZE (RhpGetThunkDataBlockAddress t OS_PAGE_SIZE s) =
        s &&& wordNot (wordBits t) (OS_PAGE_SIZE - 1) ∧
      s &&& wordNot (wordBits t) (OS_PAGE_SIZE - 1) = s - s % OS_PAGE_SIZE ∧
      (RhpGetThunkStubsBlockAddress t OS_PAGE_SIZE (RhpGetThunkDataBlockAddress t OS_PAGE_SIZE s) = s ↔
        s % OS_PAGE_SIZE = 0)) ∧
    (RhpGetThunkDataBlockAddress t OS_PAGE_SIZE (RhpGetThunkStubsBlockAddress t OS_PAGE_SIZE d) =
        d &&& wordNot (wordBits t) (OS_PAGE_SIZE - 1) ∧
      d &&& wordNot (wordBits t) (OS_PAGE_SIZE - 1) = d - d % OS_PAGE_SIZE ∧
      (RhpGetThunkDataBlockAddress t OS_PAGE_SIZE (RhpGetThunkStubsBlockAddress t OS_PAGE_SIZE d) = d ↔
        d % OS_PAGE_SIZE = 0)) := by
  subst hpow
  have hk : k ≤ wordBits t :=
    le_of_lt ((Nat.pow_lt_pow_iff_right (by norm_num)).1 hpage)
  have key : ∀ x, x < 2 ^ wordBits t → (x - x % 2 ^ k = x ↔ x % 2 ^ k = 0) := by
    intro x _
    have := Nat.mod_le x (2 ^ k)
    omega
  refine ⟨⟨stubs_of_data t k s hk, and_wordNot_eq_sub_mod _ k s hk hs, ?_⟩,
    ⟨data_of_stubs t k d hk, and_wordNot_eq_sub_mod _ k d hk hd, ?_⟩⟩
  · rw [stubs_of_data t k s hk, and_wordNot_eq_sub_mod _ k s hk hs]
    exact key s hs
  · rw [data_of_stubs t k d hk, and_wordNot_eq_sub_mod _ k d hk hd]
    exact key d hd

theorem block_address_round_trip_witness :
    (RhpGetThunkStubsBlockAddress .AMD64 4096 (RhpGetThunkDataBlockAddress .AMD64 4096 0x7f0012345) =
        0x7f0012345 &&& wordNot (wordBits .AMD64) (4096 - 1) ∧
      0x7f0012345 &&& wordNot (wordBits .AMD64) (4096 - 1) = 0x7f0012345 - 0x7f0012345 % 4096 ∧
      (RhpGetThunkStubsBlockAddress .AMD64 4096 (RhpGetThunkDataBlockAddress .AMD64 4096 0x7f0012345) =
        0x7f0012345 ↔ 0x7f0012345 % 4096 = 0)) ∧
    (RhpGetThunkDataBlockAddress .AMD64 4096 (RhpGetThunkStubsBlockAddress .AMD64 4096 0x7f001a000) =
        0x7f001a000 &&& wordNot (wordBits .AMD64) (4096 - 1) ∧
      0x7f001a000 &&& wordNot (wordBits .AMD64) (4096 - 1) = 0x7f001a000 - 0x7f001a000 % 4096 ∧
      (RhpGetThunkDataBlockAddress .AMD64 4096 (RhpGetThunkStubsBlockAddress .AMD64 4096 0x7f001a000) =
        0x7f001a000 ↔ 0x7f001a000 % 4096 = 0)) :=
  block_address_round_trip .AMD64 4096 12 0x7f0012345 0x7f001a000 (by norm_num)
    (by norm_num [wordBits, POINTER_SIZE]) (by norm_num [wordBits, POINTER_SIZE])
    (by norm_num [wordBits, POINTER_SIZE])

/-! ## Layout lemmas -/

theorem blocks_per_mapping_some (k n : Nat)
    (hn : RhpGetNumThunkBlocksPerMapping (2 ^ k) = some n) :
    n * 2 ^ k = THUNKS_MAP_SIZE (2 ^ k) := by
  have hd := two_pow_dvd_map_size k
  unfold RhpGetNumThunkBlocksPerMapping at hn
  rw [if_pos (Nat.mod_eq_zero_of_dvd hd)] at hn
  cases hn
  exact Nat.div_mul_cancel hd

theorem block_end_le (k n m : Nat) (hn : RhpGetNumThunkBlocksPerMapping (2 ^ k) = some n)
    (hm : m < n) : m * 2 ^ k + 2 ^ k ≤ THUNKS_MAP_SIZE (2 ^ k) := by
  rw [← blocks_per_mapping_some k n hn]
  calc m * 2 ^ k + 2 ^ k = (m + 1) * 2 ^ k := by ring
    _ ≤ n * 2 ^ k := Nat.mul_le_mul_right _ hm

theorem thunk_end_le (t : Target) (OS_PAGE_SIZE i : Nat)
    (hi : i < RhpGetNumThunksPerBlock t OS_PAGE_SIZE) :
    THUNK_SIZE t * i + THUNK_SIZE t ≤ OS_PAGE_SIZE := by
  have h1 := thunks_mul_size_le t OS_PAGE_SIZE
  have h2 : (i + 1) * THUNK_SIZE t ≤ RhpGetNumThunksPerBlock t OS_PAGE_SIZE * THUNK_SIZE t :=
    Nat.mul_le_mul_right _ hi
  calc THUNK_SIZE t * i + THUNK_SIZE t = (i + 1) * THUNK_SIZE t := by ring
    _ ≤ OS_PAGE_SIZE := le_trans h2 h1

/-- The data block address computed from any thunk address of block `m`. -/
theorem data_block_of_thunk (t : Target) (k B m i n : Nat)
    (hB : B % 2 ^ k = 0) (hfit : B + 2 * THUNKS_MAP_SIZE (2 ^ k) ≤ 2 ^ wordBits t)
    (hn : RhpGetNumThunkBlocksPerMapping (2 ^ k) = some n) (hm : m < n)
    (hi : i < RhpGetNumThunksPerBlock t (2 ^ k)) :
    RhpGetThunkDataBlockAddress t (2 ^ k) (pCurrentThunkAddress t (2 ^ k) B m i) =
      pDataBlockAddress (2 ^ k) B m := by
  have hblk := block_end_le k n m hn hm
  have hth := thunk_end_le t (2 ^ k) i hi
  have htp := thunk_size_pos t
  have hMle : 2 ^ k ≤ THUNKS_MAP_SIZE (2 ^ k) := le_max_right _ _
  have hkw : k ≤ wordBits t := by
    have : 2 ^ k < 2 ^ wordBits t := by omega
    exact le_of_lt ((Nat.pow_lt_pow_iff_right (by norm_num)).1 this)
  unfold RhpGetThunkDataBlockAddress pCurrentThunkAddress pThunkBlockAddress pDataBlockAddress
    pDataSection
  have hA : B + m * 2 ^ k + THUNK_SIZE t * i < 2 ^ wordBits t := by omega
  have hmod : (B + m * 2 ^ k + THUNK_SIZE t * i) % 2 ^ k = THUNK_SIZE t * i := by
    obtain ⟨c, hc⟩ := Nat.dvd_of_mod_eq_zero hB
    have e : B + m * 2 ^ k + THUNK_SIZE t * i = THUNK_SIZE t * i + 2 ^ k * (c + m) := by
      rw [hc]; ring
    rw [e, Nat.add_mul_mod_self_left, Nat.mod_eq_of_lt (by omega)]
  rw [and_wordNot_eq_sub_mod _ k _ hkw hA, hmod]
  unfold wordAdd
  rw [Nat.mod_eq_of_lt (by omega)]
  omega

/-- C3: the geometry queries agree with the layout the fill loop generates.  For
a page-aligned reserved base `B`, a block `m` and a thunk `i`, the thunk address
`A = B + m*page_size + i*thunk_size` is mapped by `RhpGetThunkDataBlockAddress`
to `B + mapping_size + m*page_size`, which is the `pDataBlockAddress` the loop
pairs with the thunk, and the data slot wired into the thunk is that address
plus `i*2*pointer_size`. -/
theorem geometry_agrees_with_fill_loop (t : Target) (OS_PAGE_SIZE k B m i n : Nat)
    (hpow : OS_PAGE_SIZE = 2 ^ k) (hB : B % OS_PAGE_SIZE = 0)
    (hfit : B + 2 * THUNKS_MAP_SIZE OS_PAGE_SIZE ≤ 2 ^ wordBits t)
    (hn : RhpGetNumThunkBlocksPerMapping OS_PAGE_SIZE = some n) (hm : m < n)
    (hi : i < RhpGetNumThunksPerBlock t OS_PAGE_SIZE) :
    pCurrentThunkAddress t OS_PAGE_SIZE B m i = B + m * OS_PAGE_SIZE + i * RhpGetThunkSize t ∧
    RhpGetThunkDataBlockAddress t OS_PAGE_SIZE (pCurrentThunkAddress t OS_PAGE_SIZE B m i) =
      B + THUNKS_MAP_SIZE OS_PAGE_SIZE + m * OS_PAGE_SIZE ∧
    RhpGetThunkDataBlockAddress t OS_PAGE_SIZE (pCurrentThunkAddress t OS_PAGE_SIZE B m i) =
      pDataBlockAddress OS_PAGE_SIZE B m ∧
    pCurrentDataAddress t OS_PAGE_SIZE B m i =
      RhpGetThunkDataBlockAddress t OS_PAGE_SIZE (pCurrentThunkAddress t OS_PAGE_SIZE B m i) +
        i * 2 * POINTER_SIZE t := by
  subst hpow
  have h := data_block_of_thunk t k B m i n hB hfit hn hm hi
  refine ⟨?_, ?_, h, ?_⟩
  · unfold pCurrentThunkAddress pThunkBlockAddress RhpGetThunkSize; ring
  · rw [h]; rfl
  · rw [h]; unfold pCurrentDataAddress; ring

theorem geometry_agrees_with_fill_loop_witness :
    pCurrentThunkAddress .AMD64 4096 0x7f0000000000 7 203 =
      0x7f0000000000 + 7 * 4096 + 203 * RhpGetThunkSize .AMD64 ∧
    RhpGetThunkDataBlockAddress .AMD64 4096 (pCurrentThunkAddress .AMD64 4096 0x7f0000000000 7 203) =
      0x7f0000000000 + THUNKS_MAP_SIZE 4096 + 7 * 4096 ∧
    RhpGetThunkDataBlockAddress .AMD64 4096 (pCurrentThunkAddress .AMD64 4096 0x7f0000000000 7 203) =
      pDataBlockAddress 4096 0x7f0000000000 7 ∧
    pCurrentDataAddress .AMD64 4096 0x7f0000000000 7 203 =
      RhpGetThunkDataBlockAddress .AMD64 4096 (pCurrentThunkAddress .AMD64 4096 0x7f0000000000 7 203) +
        203 * 2 * POINTER_SIZE .AMD64 :=
  geometry_agrees_with_fill_loop .AMD64 4096 12 0x7f0000000000 7 203 8 (by norm_num)
    (by norm_num) (by norm_num [wordBits, POINTER_SIZE, THUNKS_MAP_SIZE]) (by decide)
    (by norm_num) (by decide)

/-! ## Encoder lemmas -/

theorem range_twenty :
    List.range 20 = [0, 1, 2, 3, 4, 5, 6, 7, 8, 9, 10, 11, 12, 13, 14, 15, 16, 17, 18, 19] := by
  decide

theorem range_eight : List.range 8 = [0, 1, 2, 3, 4, 5, 6, 7] := by decide

theorem range_four : List.range 4 = [0, 1, 2, 3] := by decide

/-- The 20 bytes of an AMD64 thunk after its seven stores. -/
theorem amd64_bytes (mem : Memory) (OS_PAGE_SIZE T A i : Nat) :
    readBytes (applyStores mem (emitAMD64 OS_PAGE_SIZE T A i)) T 20 =
      [0x49, 0xBA] ++ leBytes 8 A ++ [0x41, 0xFF, 0xA2] ++
        leBytes 4 (dispatcherDelta .AMD64 OS_PAGE_SIZE i) ++ [0x90, 0x90, 0x90] := by
  simp only [readBytes, leBytes, range_twenty, range_eight, range_four, List.map, emitAMD64,
    applyStores, List.foldl, Store.apply]
  simp

theorem ofLeBytes_leBytes_eight (v : Nat) (hv : v < 2 ^ 64) : ofLeBytes (leBytes 8 v) = v := by
  simp only [leBytes, range_eight, List.map, ofLeBytes]
  norm_num at hv ⊢
  omega

theorem ofLeBytes_leBytes_four (v : Nat) (hv : v < 2 ^ 32) : ofLeBytes (leBytes 4 v) = v := by
  simp only [leBytes, range_four, List.map, ofLeBytes]
  norm_num at hv ⊢
  omega

/-- Decoding the bytes of an AMD64 thunk. -/
theorem decode_amd64_bytes (A D : Nat) (hA : A < 2 ^ 64) (hD : D < 2 ^ 31) :
    decodeAMD64Thunk
        ([0x49, 0xBA] ++ leBytes 8 A ++ [0x41, 0xFF, 0xA2] ++ leBytes 4 D ++ [0x90, 0x90, 0x90]) =
      some (A, (D : Int)) := by
  have h8 := ofLeBytes_leBytes_eight A hA
  have h4 := ofLeBytes_leBytes_four D (by omega)
  have hs : signExtend 32 D = (D : Int) := by
    unfold signExtend
    have : D % 2 ^ 32 = D := Nat.mod_eq_of_lt (by omega)
    rw [this, if_pos (by simpa using hD)]
  simp only [leBytes, range_eight, range_four, List.map] at h8 h4 ⊢
  simp only [decodeAMD64Thunk, List.cons_append, List.nil_append, List.drop, List.take]
  rw [h8, h4, hs]

/-- C6: AMD64 thunk semantics.  For a page-aligned mapping base, a block `m` and
a thunk `i` below the number of thunks per block, the 20 bytes left at the thunk
are `49 BA <A, 8 bytes LE> 41 FF A2 <D, 4 bytes LE> 90 90 90`, that is
`mov r10, A ; jmp qword ptr [r10 + D] ; nop ; nop ; nop`, where `A` is the data slot
of thunk `i` (`data_block_base + 16*i`) and `D = page_size - 8 - 16*i`, with
`0 <= D < 2^31` and `A + D = data_block_base + page_size - 8`.  Executing the
thunk leaves `A` in `r10` and transfers control to the address stored in the
dispatcher cell of the block, the same cell for every `i`. -/
theorem amd64_thunk_semantics (OS_PAGE_SIZE k B m i n : Nat) (mem dataMem : Memory)
    (hpow : OS_PAGE_SIZE = 2 ^ k) (hint : OS_PAGE_SIZE ≤ 2 ^ 31)
    (hB : B % OS_PAGE_SIZE = 0)
    (hfit : B + 2 * THUNKS_MAP_SIZE OS_PAGE_SIZE ≤ 2 ^ wordBits .AMD64)
    (hn : RhpGetNumThunkBlocksPerMapping OS_PAGE_SIZE = some n) (hm : m < n)
    (hi : i < RhpGetNumThunksPerBlock .AMD64 OS_PAGE_SIZE) :
    (let T := pCurrentThunkAddress .AMD64 OS_PAGE_SIZE B m i
    let A := pCurrentDataAddress .AMD64 OS_PAGE_SIZE B m i
    let D := dispatcherDelta .AMD64 OS_PAGE_SIZE i
    let base := pDataBlockAddress OS_PAGE_SIZE B m
    let code := readBytes (applyStores mem (emitThunk .AMD64 OS_PAGE_SIZE T A i)) T 20
    code = [0x49, 0xBA] ++ leBytes 8 A ++ [0x41, 0xFF, 0xA2] ++ leBytes 4 D ++ [0x90, 0x90, 0x90] ∧
    ofLeBytes (leBytes 8 A) = A ∧ ofLeBytes (leBytes 4 D) = D ∧
    base = RhpGetThunkDataBlockAddress .AMD64 OS_PAGE_SIZE T ∧
    A = base + 16 * i ∧
    D + 16 * i + 8 = OS_PAGE_SIZE ∧
    D < 2 ^ 31 ∧
    A + D = base + OS_PAGE_SIZE - 8 ∧
    decodeAMD64Thunk code = some (A, (D : Int)) ∧
    execAMD64Thunk code dataMem =
      some (A, ofLeBytes (readBytes dataMem (base + OS_PAGE_SIZE - 8) 8))) := by
  intro T A D base code
  subst hpow
  have hslot := slot_end_le .AMD64 (2 ^ k) i hi
  have hblk := block_end_le k n m hn hm
  have hgeo := data_block_of_thunk .AMD64 k B m i n hB hfit hn hm hi
  have hA : A = base + 16 * i := by
    show pCurrentDataAddress .AMD64 (2 ^ k) B m i = pDataBlockAddress (2 ^ k) B m + 16 * i
    unfold pCurrentDataAddress
    simp only [POINTER_SIZE]
    omega
  have hD : D + 16 * i + 8 = 2 ^ k := by
    show dispatcherDelta .AMD64 (2 ^ k) i + 16 * i + 8 = 2 ^ k
    unfold dispatcherDelta
    unfold dataSlotOffset at hslot
    simp only [POINTER_SIZE] at hslot ⊢
    omega
  have hbase : base + 2 ^ k ≤ 2 ^ 64 := by
    show pDataBlockAddress (2 ^ k) B m + 2 ^ k ≤ 2 ^ 64
    unfold pDataBlockAddress pDataSection
    simp only [wordBits, POINTER_SIZE] at hfit
    omega
  have hA64 : A < 2 ^ 64 := by omega
  have hD31 : D < 2 ^ 31 := by omega
  have hcode : code =
      [0x49, 0xBA] ++ leBytes 8 A ++ [0x41, 0xFF, 0xA2] ++ leBytes 4 D ++ [0x90, 0x90, 0x90] :=
    amd64_bytes mem (2 ^ k) T A i
  have hdec := decode_amd64_bytes A D hA64 hD31
  refine ⟨hcode, ofLeBytes_leBytes_eight A hA64, ofLeBytes_leBytes_four D (by omega), hgeo.symm,
    hA, hD, hD31, by omega, by rw [hcode]; exact hdec, ?_⟩
  unfold execAMD64Thunk
  rw [hcode, hdec]
  simp only [Option.map_some']
  have e : (((A : Int) + (D : Int)) % 2 ^ 64).toNat = base + 2 ^ k - 8 := by
    have h1 : ((A : Int) + (D : Int)) = ((A + D : Nat) : Int) := by push_cast; rfl
    have h2 : ((2 : Int) ^ 64) = ((2 ^ 64 : Nat) : Int) := by norm_num
    rw [h1, h2, ← Int.natCast_mod, Int.toNat_natCast, Nat.mod_eq_of_lt (by omega)]
    omega
  rw [e]

theorem amd64_thunk_semantics_witness :
    (let T := pCurrentThunkAddress .AMD64 4096 0x7f0000000000 7 203
    let A := pCurrentDataAddress .AMD64 4096 0x7f0000000000 7 203
    let D := dispatcherDelta .AMD64 4096 203
    let base := pDataBlockAddress 4096 0x7f0000000000 7
    let code := readBytes (applyStores (fun _ => 0) (emitThunk .AMD64 4096 T A 203)) T 20
    code = [0x49, 0xBA] ++ leBytes 8 A ++ [0x41, 0xFF, 0xA2] ++ leBytes 4 D ++ [0x90, 0x90, 0x90] ∧
    ofLeBytes (leBytes 8 A) = A ∧ ofLeBytes (leBytes 4 D) = D ∧
    base = RhpGetThunkDataBlockAddress .AMD64 4096 T ∧
    A = base + 16 * 203 ∧
    D + 16 * 203 + 8 = 4096 ∧
    D < 2 ^ 31 ∧
    A + D = base + 4096 - 8 ∧
    decodeAMD64Thunk code = some (A, (D : Int)) ∧
    execAMD64Thunk code (fun a => a % 256) =
      some (A, ofLeBytes (readBytes (fun a => a % 256) (base + 4096 - 8) 8))) :=
  amd64_thunk_semantics 4096 12 0x7f0000000000 7 203 8 (fun _ => 0) (fun a => a % 256)
    (by norm_num) (by norm_num) (by norm_num)
    (by norm_num [wordBits, POINTER_SIZE, THUNKS_MAP_SIZE]) (by decide) (by norm_num) (by decide)

/-- OR-ing a shifted field into a word whose bits at the field are zero. -/
theorem lor_shiftLeft_field (hi lo x s n : Nat) (hlo : lo < 2 ^ s) (hx : x < 2 ^ n) :
    (2 ^ (s + n) * hi + lo) ||| (x <<< s) = 2 ^ (s + n) * hi + 2 ^ s * x + lo := by
  have h1 : lo < 2 ^ (s + n) :=
    lt_of_lt_of_le hlo (Nat.pow_le_pow_right (by norm_num) (Nat.le_add_right s n))
  have h2 : 2 ^ s * x + lo < 2 ^ (s + n) := by
    have h3 : 2 ^ s * (x + 1) ≤ 2 ^ s * 2 ^ n := Nat.mul_le_mul_left _ hx
    rw [← pow_add] at h3
    have e : 2 ^ s * (x + 1) = 2 ^ s * x + 2 ^ s := by ring
    omega
  rw [Nat.shiftLeft_eq, Nat.mul_add_lt_is_or h1, Nat.add_assoc, Nat.mul_add_lt_is_or h2,
    Nat.mul_add_lt_is_or hlo, Nat.mul_comm x, Nat.or_assoc, Nat.or_comm lo]

theorem wordSub_add_left (w a b : Nat) (hb : b < 2 ^ w) : wordSub w (a + b) a = b := by
  have h := wordSub_wordAdd w b a hb
  unfold wordSub wordAdd at h
  unfold wordSub
  rw [Nat.mod_mod, Nat.add_comm b a] at h
  exact h

theorem arm64Ldr_eq (OS_PAGE_SIZE i : Nat)
    (h : dispatcherDelta .ARM64 OS_PAGE_SIZE i / 8 < 2 ^ 12) :
    arm64Ldr OS_PAGE_SIZE i = 0xF9400211 + 1024 * (dispatcherDelta .ARM64 OS_PAGE_SIZE i / 8) := by
  unfold arm64Ldr
  have h1 := lor_shiftLeft_field 0x3E5 0x211 (dispatcherDelta .ARM64 OS_PAGE_SIZE i / 8) 10 12
    (by norm_num) h
  norm_num at h1 ⊢
  rw [h1]; ring

/-- The four words of an ARM64 thunk after its four stores. -/
theorem arm64_words (mem : Memory) (OS_PAGE_SIZE T A i : Nat) :
    (let mem1 := applyStores mem (emitARM64 OS_PAGE_SIZE T A i)
    readWord32 mem1 T = arm64Adr (thunkDelta T A) % 2 ^ 32 ∧
    readWord32 mem1 (T + 4) = arm64Ldr OS_PAGE_SIZE i % 2 ^ 32 ∧
    readWord32 mem1 (T + 8) = 0xD61F0220 ∧
    readWord32 mem1 (T + 12) = 0xD43E0000) := by
  simp only [readWord32, readBytes, range_four, List.map, emitARM64, applyStores, List.foldl,
    Store.apply, ofLeBytes]
  simp
  constructor <;> omega

/-- C7 at 64 KiB pages: on ARM64 with a page size of 65536 the thunk 0 of block 0
needs the offset `65528` to reach the dispatcher cell, `65528 / 8 = 8191` does
not fit the 12-bit `imm12` field, and the word stored for the second instruction
is `0xF97FFE11`, which decodes as `ldr x17, [x16, #32760]`: the jump goes through
`data_block_base + 32760`, not through the dispatcher cell at
`data_block_base + 65528`. -/
theorem arm64_ldr_immediate_overflows_at_64k :
    (let T := pCurrentThunkAddress .ARM64 65536 0x7f0000000000 0 0
    let A := pCurrentDataAddress .ARM64 65536 0x7f0000000000 0 0
    let base := pDataBlockAddress 65536 0x7f0000000000 0
    let mem1 := applyStores (fun _ => 0) (emitThunk .ARM64 65536 T A 0)
    RhpGetNumThunkBlocksPerMapping 65536 = some 1 ∧
    RhpGetNumThunksPerBlock .ARM64 65536 = 4095 ∧
    A = base ∧
    dispatcherDelta .ARM64 65536 0 = 65528 ∧
    ¬ dispatcherDelta .ARM64 65536 0 / 8 < 2 ^ 12 ∧
    readWord32 mem1 (T + 4) = 0xF97FFE11 ∧
    decodeArm64LdrX (readWord32 mem1 (T + 4)) = some (17, 16, 32760) ∧
    A + 32760 ≠ base + 65536 - 8) := by
  decide

/-- ARM64 thunk semantics for a page size of at most 32 KiB (the mapping size is
then 32 KiB): the four words decode as `adr x16, #0x8000 ; ldr x17, [x16, #o] ;
br x17 ; brk #0xf000` with `o` the displacement to the dispatcher cell. -/
theorem arm64_thunk_small_page (OS_PAGE_SIZE B m i : Nat) (mem : Memory)
    (hM : THUNKS_MAP_SIZE OS_PAGE_SIZE = 0x8000) (h8 : OS_PAGE_SIZE % 8 = 0)
    (hP : OS_PAGE_SIZE ≤ 0x8000)
    (hi : i < RhpGetNumThunksPerBlock .ARM64 OS_PAGE_SIZE) :
    (let T := pCurrentThunkAddress .ARM64 OS_PAGE_SIZE B m i
    let A := pCurrentDataAddress .ARM64 OS_PAGE_SIZE B m i
    let base := pDataBlockAddress OS_PAGE_SIZE B m
    let mem1 := applyStores mem (emitThunk .ARM64 OS_PAGE_SIZE T A i)
    decodeArm64Adr (readWord32 mem1 T) = some (16, 0x8000) ∧
    decodeArm64LdrX (readWord32 mem1 (T + 4)) =
      some (17, 16, dispatcherDelta .ARM64 OS_PAGE_SIZE i) ∧
    decodeArm64Br (readWord32 mem1 (T + 8)) = some 17 ∧
    decodeArm64Brk (readWord32 mem1 (T + 12)) = some 0xf000 ∧
    T + 0x8000 = A ∧
    A = base + 16 * i ∧
    dispatcherDelta .ARM64 OS_PAGE_SIZE i + 16 * i + 8 = OS_PAGE_SIZE ∧
    dispatcherDelta .ARM64 OS_PAGE_SIZE i / 8 < 2 ^ 12 ∧
    A + dispatcherDelta .ARM64 OS_PAGE_SIZE i = base + OS_PAGE_SIZE - 8) := by
  intro T A base mem1
  have hslot := slot_end_le .ARM64 OS_PAGE_SIZE i hi
  have hTA : T + 0x8000 = A := by
    show pCurrentThunkAddress .ARM64 OS_PAGE_SIZE B m i + 0x8000 =
      pCurrentDataAddress .ARM64 OS_PAGE_SIZE B m i
    unfold pCurrentThunkAddress pCurrentDataAddress pThunkBlockAddress pDataBlockAddress
      pDataSection
    rw [hM]
    simp only [THUNK_SIZE, POINTER_SIZE]
    omega
  have hA : A = base + 16 * i := by
    show pCurrentDataAddress .ARM64 OS_PAGE_SIZE B m i = pDataBlockAddress OS_PAGE_SIZE B m + 16 * i
    unfold pCurrentDataAddress
    simp only [POINTER_SIZE]
    omega
  have hD : dispatcherDelta .ARM64 OS_PAGE_SIZE i + 16 * i + 8 = OS_PAGE_SIZE := by
    unfold dispatcherDelta
    unfold dataSlotOffset at hslot
    simp only [POINTER_SIZE] at hslot ⊢
    omega
  have hlt : dispatcherDelta .ARM64 OS_PAGE_SIZE i / 8 < 2 ^ 12 := by
    norm_num
    omega
  have hdelta : thunkDelta T A = 0x8000 := by
    rw [← hTA]
    exact wordSub_add_left 32 T 0x8000 (by norm_num)
  obtain ⟨w0, w1, w2, w3⟩ := arm64_words mem OS_PAGE_SIZE T A i
  have hw0 : readWord32 mem1 T = 0x10040010 := by
    rw [show readWord32 mem1 T = _ from w0, hdelta]; decide
  have hw1 : readWord32 mem1 (T + 4) =
      0xF9400211 + 1024 * (dispatcherDelta .ARM64 OS_PAGE_SIZE i / 8) := by
    rw [show readWord32 mem1 (T + 4) = _ from w1, arm64Ldr_eq _ _ hlt]
    norm_num at hlt ⊢
    omega
  refine ⟨by rw [hw0]; decide, ?_, by rw [show readWord32 mem1 (T + 8) = _ from w2]; decide,
    by rw [show readWord32 mem1 (T + 12) = _ from w3]; decide, hTA, hA, hD, hlt, by omega⟩
  rw [hw1]
  unfold decodeArm64LdrX
  norm_num at hlt
  have e1 : (0xF9400211 + 1024 * (dispatcherDelta .ARM64 OS_PAGE_SIZE i / 8)) / 2 ^ 22 = 0x3E5 := by
    omega
  rw [if_pos e1]
  have e2 : (0xF9400211 + 1024 * (dispatcherDelta .ARM64 OS_PAGE_SIZE i / 8)) % 32 = 17 := by omega
  have e3 : (0xF9400211 + 1024 * (dispatcherDelta .ARM64 OS_PAGE_SIZE i / 8)) / 2 ^ 5 % 32 = 16 := by
    omega
  have e4 : (0xF9400211 + 1024 * (dispatcherDelta .ARM64 OS_PAGE_SIZE i / 8)) / 2 ^ 10 % 2 ^ 12 * 8
      = dispatcherDelta .ARM64 OS_PAGE_SIZE i := by omega
  rw [e2, e3, e4]

/-- ARM64 thunk semantics for every power-of-two page size from 4 KiB to 32 KiB. -/
theorem arm64_thunk_semantics_upto_32k (k B m i : Nat) (mem : Memory)
    (hk1 : 12 ≤ k) (hk2 : k ≤ 15) (hi : i < RhpGetNumThunksPerBlock .ARM64 (2 ^ k)) :
    (let T := pCurrentThunkAddress .ARM64 (2 ^ k) B m i
    let A := pCurrentDataAddress .ARM64 (2 ^ k) B m i
    let base := pDataBlockAddress (2 ^ k) B m
    let mem1 := applyStores mem (emitThunk .ARM64 (2 ^ k) T A i)
    decodeArm64Adr (readWord32 mem1 T) = some (16, 0x8000) ∧
    decodeArm64LdrX (readWord32 mem1 (T + 4)) =
      some (17, 16, dispatcherDelta .ARM64 (2 ^ k) i) ∧
    decodeArm64Br (readWord32 mem1 (T + 8)) = some 17 ∧
    decodeArm64Brk (readWord32 mem1 (T + 12)) = some 0xf000 ∧
    T + 0x8000 = A ∧
    A = base + 16 * i ∧
    dispatcherDelta .ARM64 (2 ^ k) i + 16 * i + 8 = 2 ^ k ∧
    dispatcherDelta .ARM64 (2 ^ k) i / 8 < 2 ^ 12 ∧
    A + dispatcherDelta .ARM64 (2 ^ k) i = base + 2 ^ k - 8) := by
  have h1 : 2 ^ k ≤ 2 ^ 15 := Nat.pow_le_pow_right (by norm_num) hk2
  have hM : THUNKS_MAP_SIZE (2 ^ k) = 0x8000 := by
    unfold THUNKS_MAP_SIZE
    exact max_eq_left (by simpa using h1)
  have h8 : 2 ^ k % 8 = 0 :=
    Nat.mod_eq_zero_of_dvd (by
      have : (2 : Nat) ^ 3 ∣ 2 ^ k := Nat.pow_dvd_pow 2 (by omega)
      simpa using this)
  exact arm64_thunk_small_page (2 ^ k) B m i mem hM h8 (by simpa using h1) hi

/-! ## Strategy A lemmas -/

/-- The call on the non-Windows, non-Apple path, case by case. -/
theorem rx_unix_cases (t : Target) (k : Nat) (pal : Pal) :
    (let mapSize := THUNKS_MAP_SIZE (2 ^ k)
    let base := pal.PalVirtualAlloc (mapSize * 2) .PAGE_EXECUTE_READ
    let okData := pal.PalVirtualProtect (base + mapSize) mapSize .PAGE_READWRITE
    let okCode := pal.PalVirtualProtect base mapSize .PAGE_EXECUTE_READWRITE
    let okFinal := pal.PalVirtualProtect base mapSize .PAGE_EXECUTE_READ
    let fill := (fillThunks t (2 ^ k) base (mapSize / 2 ^ k)
      (RhpGetNumThunksPerBlock t (2 ^ k))).map Event.store
    RxThunks.RhAllocateThunksMapping .UNIX t (2 ^ k) pal =
      if base = 0 then
        (.returned 0, [.PalVirtualAlloc (mapSize * 2) .PAGE_EXECUTE_READ base])
      else if okData = false then
        (.returned 0,
          [.PalVirtualAlloc (mapSize * 2) .PAGE_EXECUTE_READ base,
           .PalVirtualProtect (base + mapSize) mapSize .PAGE_READWRITE false,
           .PalVirtualFree base (mapSize * 2)])
      else if okCode = false then
        (.returned 0,
          [.PalVirtualAlloc (mapSize * 2) .PAGE_EXECUTE_READ base,
           .PalVirtualProtect (base + mapSize) mapSize .PAGE_READWRITE true,
           .PalVirtualProtect base mapSize .PAGE_EXECUTE_READWRITE false,
           .PalVirtualFree base (mapSize * 2)])
      else if okFinal = false then
        (.returned 0,
          [.PalVirtualAlloc (mapSize * 2) .PAGE_EXECUTE_READ base,
           .PalVirtualProtect (base + mapSize) mapSize .PAGE_READWRITE true,
           .PalVirtualProtect base mapSize .PAGE_EXECUTE_READWRITE true] ++ fill ++
          [.PalVirtualProtect base mapSize .PAGE_EXECUTE_READ false,
           .PalVirtualFree base (mapSize * 2)])
      else
        (.returned base,
          [.PalVirtualAlloc (mapSize * 2) .PAGE_EXECUTE_READ base,
           .PalVirtualProtect (base + mapSize) mapSize .PAGE_READWRITE true,
           .PalVirtualProtect base mapSize .PAGE_EXECUTE_READWRITE true] ++ fill ++
          [.PalVirtualProtect base mapSize .PAGE_EXECUTE_READ true,
           .PalFlushInstructionCache base mapSize])) := by
  have hn : RhpGetNumThunkBlocksPerMapping (2 ^ k) = some (THUNKS_MAP_SIZE (2 ^ k) / 2 ^ k) :=
    (blocks_per_mapping_exact (2 ^ k) k rfl).2.2.1
  simp only [RxThunks.RhAllocateThunksMapping, RxThunks.protectBeforeFill,
    RxThunks.finishMapping, hn, show (Host.UNIX = Host.WIN32) = False from by simp, if_false]
  generalize pal.PalVirtualAlloc (THUNKS_MAP_SIZE (2 ^ k) * 2) Prot.PAGE_EXECUTE_READ = base
  generalize pal.PalVirtualProtect (base + THUNKS_MAP_SIZE (2 ^ k)) (THUNKS_MAP_SIZE (2 ^ k))
    Prot.PAGE_READWRITE = okData
  generalize pal.PalVirtualProtect base (THUNKS_MAP_SIZE (2 ^ k)) Prot.PAGE_EXECUTE_READWRITE = okCode
  generalize pal.PalVirtualProtect base (THUNKS_MAP_SIZE (2 ^ k)) Prot.PAGE_EXECUTE_READ = okFinal
  by_cases h0 : base = 0
  · simp [h0]
  · cases okData <;> cases okCode <;> cases okFinal <;> simp [h0]

theorem foldl_protectionStep_stores (p : Nat → Option Prot) (l : List Store) :
    (l.map Event.store).foldl protectionStep p = p := by
  induction l with
  | nil => rfl
  | cons s l ih => simpa [protectionStep] using ih

theorem storesUnder_stores_append (ok : (Nat → Option Prot) → Prop) (p : Nat → Option Prot)
    (l : List Store) (rest : List Event) (hok : ok p) (hrest : StoresUnder ok p rest) :
    StoresUnder ok p (l.map Event.store ++ rest) := by
  induction l with
  | nil => simpa using hrest
  | cons s l ih => exact ⟨fun _ => hok, by simpa [protectionStep] using ih⟩

/-- The protection state machine of Strategy A on the Unix hosts other than
Apple ARM64.  On a successful call the dual region of `2 * mapping_size` bytes
is reserved as
execute+read, the data half is then set to read-write, the stub half is set to
read-write-execute before the first store and back to execute+read after the
last store; the address returned is the reserved base.  Every store is executed
while the stub half is read-write-execute, and at return the stub half is
execute+read and the data half is read-write. -/
theorem rx_protection_state_machine (t : Target) (OS_PAGE_SIZE k p : Nat) (pal : Pal)
    (hpow : OS_PAGE_SIZE = 2 ^ k)
    (hret : (RxThunks.RhAllocateThunksMapping .UNIX t OS_PAGE_SIZE pal).1 = .returned p)
    (hp : p ≠ 0) :
    (let mapSize := THUNKS_MAP_SIZE OS_PAGE_SIZE
    let base := pal.PalVirtualAlloc (mapSize * 2) .PAGE_EXECUTE_READ
    let trace := (RxThunks.RhAllocateThunksMapping .UNIX t OS_PAGE_SIZE pal).2
    p = base ∧
    trace =
      [.PalVirtualAlloc (mapSize * 2) .PAGE_EXECUTE_READ base,
       .PalVirtualProtect (base + mapSize) mapSize .PAGE_READWRITE true,
       .PalVirtualProtect base mapSize .PAGE_EXECUTE_READWRITE true] ++
      (fillThunks t OS_PAGE_SIZE base (mapSize / OS_PAGE_SIZE)
        (RhpGetNumThunksPerBlock t OS_PAGE_SIZE)).map Event.store ++
      [.PalVirtualProtect base mapSize .PAGE_EXECUTE_READ true,
       .PalFlushInstructionCache base mapSize] ∧
    StoresUnder
      (fun prot => ∀ a, base ≤ a → a < base + mapSize → prot a = some .PAGE_EXECUTE_READWRITE)
      (fun _ => none) trace ∧
    (∀ a, base ≤ a → a < base + mapSize →
      protectionAfter trace a = some .PAGE_EXECUTE_READ) ∧
    (∀ a, base + mapSize ≤ a → a < base + 2 * mapSize →
      protectionAfter trace a = some .PAGE_READWRITE)) := by
  subst hpow
  have h := rx_unix_cases t k pal
  simp only at h hret ⊢
  rw [h] at hret ⊢
  clear h
  generalize pal.PalVirtualAlloc (THUNKS_MAP_SIZE (2 ^ k) * 2) Prot.PAGE_EXECUTE_READ = base at *
  generalize pal.PalVirtualProtect (base + THUNKS_MAP_SIZE (2 ^ k)) (THUNKS_MAP_SIZE (2 ^ k))
    Prot.PAGE_READWRITE = okData at *
  generalize pal.PalVirtualProtect base (THUNKS_MAP_SIZE (2 ^ k)) Prot.PAGE_EXECUTE_READWRITE =
    okCode at *
  generalize pal.PalVirtualProtect base (THUNKS_MAP_SIZE (2 ^ k)) Prot.PAGE_EXECUTE_READ =
    okFinal at *
  generalize THUNKS_MAP_SIZE (2 ^ k) = M at *
  by_cases h0 : base = 0
  · simp [h0] at hret
    exact absurd hret.symm hp
  · cases okData <;> cases okCode <;> cases okFinal <;> simp [h0] at hret <;>
      first
        | exact absurd hret.symm hp
        | skip
    subst hret
    simp only [h0, if_false, Bool.true_eq_false, true_and]
    refine ⟨?_, ?_, ?_⟩
    · simp only [List.cons_append, List.nil_append, StoresUnder]
      refine ⟨by simp, by simp, by simp, ?_⟩
      apply storesUnder_stores_append
      · intro a h1 h2
        simp only [protectionStep]
        rw [if_pos ⟨trivial, h1, h2⟩]
      · simp [StoresUnder]
    · intro a h1 h2
      simp only [protectionAfter, List.foldl_append, foldl_protectionStep_stores]
      simp only [List.foldl, protectionStep]
      rw [if_pos ⟨trivial, h1, h2⟩]
    · intro a h1 h2
      simp only [protectionAfter, List.foldl_append, foldl_protectionStep_stores]
      simp only [List.foldl, protectionStep]
      rw [if_neg (by omega), if_neg (by omega), if_pos ⟨trivial, h1, by omega⟩]

theorem rx_protection_state_machine_witness :
    (let pal : Pal := ⟨fun _ _ => 0x10000, fun _ _ _ => true⟩
    let mapSize := THUNKS_MAP_SIZE 4096
    let base := pal.PalVirtualAlloc (mapSize * 2) .PAGE_EXECUTE_READ
    let trace := (RxThunks.RhAllocateThunksMapping .UNIX .AMD64 4096 pal).2
    0x10000 = base ∧
    trace =
      [.PalVirtualAlloc (mapSize * 2) .PAGE_EXECUTE_READ base,
       .PalVirtualProtect (base + mapSize) mapSize .PAGE_READWRITE true,
       .PalVirtualProtect base mapSize .PAGE_EXECUTE_READWRITE true] ++
      (fillThunks .AMD64 4096 base (mapSize / 4096)
        (RhpGetNumThunksPerBlock .AMD64 4096)).map Event.store ++
      [.PalVirtualProtect base mapSize .PAGE_EXECUTE_READ true,
       .PalFlushInstructionCache base mapSize] ∧
    StoresUnder
      (fun prot => ∀ a, base ≤ a → a < base + mapSize → prot a = some .PAGE_EXECUTE_READWRITE)
      (fun _ => none) trace ∧
    (∀ a, base ≤ a → a < base + mapSize →
      protectionAfter trace a = some .PAGE_EXECUTE_READ) ∧
    (∀ a, base + mapSize ≤ a → a < base + 2 * mapSize →
      protectionAfter trace a = some .PAGE_READWRITE)) :=
  rx_protection_state_machine .AMD64 4096 12 0x10000 ⟨fun _ _ => 0x10000, fun _ _ _ => true⟩
    (by norm_num) (by decide) (by decide)

/-! ## Strategy B lemmas -/

theorem pool_count (env : FixedPool.Env) (count : Nat)
    (hbpm : 0 < env.RhpGetNumThunkBlocksPerMapping)
    (hcount : env.RhpGetThunkBlockCount = count * env.RhpGetNumThunkBlocksPerMapping) :
    env.RhpGetThunkBlockCount % env.RhpGetNumThunkBlocksPerMapping = 0 ∧
    env.RhpGetThunkBlockCount / env.RhpGetNumThunkBlocksPerMapping = count := by
  rw [hcount]
  exact ⟨Nat.mul_mod_left _ _, Nat.mul_div_cancel _ hbpm⟩

/-- A call on an exhausted pool. -/
theorem pool_step_exhausted (env : FixedPool.Env) (os : FixedPool.Win32) (st : FixedPool.State)
    (count : Nat) (hbpm : 0 < env.RhpGetNumThunkBlocksPerMapping)
    (hcount : env.RhpGetThunkBlockCount = count * env.RhpGetNumThunkBlocksPerMapping)
    (hst : st.nextThunkDataMapping = count) :
    FixedPool.RhAllocateThunksMapping env os st = (.returned 0, st, []) := by
  obtain ⟨h1, h2⟩ := pool_count env count hbpm hcount
  simp [FixedPool.RhAllocateThunksMapping, h1, h2, hst]

/-- A successful call; `base` is the reserved address the call works with. -/
theorem pool_step_success (env : FixedPool.Env) (os : FixedPool.Win32) (st : FixedPool.State)
    (count base : Nat) (hbpm : 0 < env.RhpGetNumThunkBlocksPerMapping)
    (hcount : env.RhpGetThunkBlockCount = count * env.RhpGetNumThunkBlocksPerMapping)
    (hst : st.nextThunkDataMapping < count)
    (hos : ∀ a sz ty pr, os.VirtualAlloc a sz ty pr ≠ 0)
    (hbase : base = if st.g_pThunkStubData = 0 then
        os.VirtualAlloc 0
          (env.RhpGetNumThunkBlocksPerMapping * env.RhpGetThunkBlockSize * count)
          .MEM_RESERVE .PAGE_READWRITE
      else st.g_pThunkStubData)
    (hgeo : env.RhpGetThunkDataBlockAddress (env.RhpGetThunkStubsBlockAddress
        (base + st.nextThunkDataMapping *
          (env.RhpGetNumThunkBlocksPerMapping * env.RhpGetThunkBlockSize))) =
      base + st.nextThunkDataMapping *
        (env.RhpGetNumThunkBlocksPerMapping * env.RhpGetThunkBlockSize)) :
    (FixedPool.RhAllocateThunksMapping env os st).1 =
      .returned (env.RhpGetThunkStubsBlockAddress (base + st.nextThunkDataMapping *
        (env.RhpGetNumThunkBlocksPerMapping * env.RhpGetThunkBlockSize))) ∧
    (FixedPool.RhAllocateThunksMapping env os st).2.1 = ⟨st.nextThunkDataMapping + 1, base⟩ := by
  obtain ⟨h1, h2⟩ := pool_count env count hbpm hcount
  have hne : st.nextThunkDataMapping ≠ count := Nat.ne_of_lt hst
  have hb0 : base ≠ 0 := by
    rw [hbase]
    split
    · exact hos _ _ _ _
    · assumption
  simp only [FixedPool.RhAllocateThunksMapping, h1, h2, hne, ← hbase, hb0, hos, hgeo]
  simp

theorem pool_state_empty (env : FixedPool.Env) (calls : List FixedPool.Win32)
    (hbpm : 0 < env.RhpGetNumThunkBlocksPerMapping)
    (hcount : env.RhpGetThunkBlockCount = 0 * env.RhpGetNumThunkBlocksPerMapping) :
    FixedPool.stateAfter env .initial calls = .initial := by
  induction calls using List.reverseRecOn with
  | nil => rfl
  | append_singleton l os ih =>
    unfold FixedPool.stateAfter at ih ⊢
    rw [List.foldl_append, ih]
    simp only [List.foldl]
    rw [pool_step_exhausted env os .initial 0 hbpm hcount rfl]

/-- The state after `j + 1` calls that all find the primitives succeeding. -/
theorem pool_state_after (env : FixedPool.Env) (count : Nat) (os0 : FixedPool.Win32)
    (rest : List FixedPool.Win32) (hbpm : 0 < env.RhpGetNumThunkBlocksPerMapping)
    (hcount : env.RhpGetThunkBlockCount = count * env.RhpGetNumThunkBlocksPerMapping)
    (hpos : 0 < count)
    (hall : ∀ os ∈ os0 :: rest, ∀ a sz ty pr, os.VirtualAlloc a sz ty pr ≠ 0)
    (hgeo : ∀ j, j < count →
      env.RhpGetThunkDataBlockAddress (env.RhpGetThunkStubsBlockAddress
        (os0.VirtualAlloc 0
            (env.RhpGetNumThunkBlocksPerMapping * env.RhpGetThunkBlockSize * count)
            .MEM_RESERVE .PAGE_READWRITE +
          j * (env.RhpGetNumThunkBlocksPerMapping * env.RhpGetThunkBlockSize))) =
      os0.VirtualAlloc 0
          (env.RhpGetNumThunkBlocksPerMapping * env.RhpGetThunkBlockSize * count)
          .MEM_RESERVE .PAGE_READWRITE +
        j * (env.RhpGetNumThunkBlocksPerMapping * env.RhpGetThunkBlockSize))
    (j : Nat) (hj : j < (os0 :: rest).length) :
    FixedPool.stateAfter env .initial ((os0 :: rest).take (j + 1)) =
      ⟨min (j + 1) count,
        os0.VirtualAlloc 0
          (env.RhpGetNumThunkBlocksPerMapping * env.RhpGetThunkBlockSize * count)
          .MEM_RESERVE .PAGE_READWRITE⟩ := by
  induction j with
  | zero =>
    have h := pool_step_success env os0 .initial count _ hbpm hcount hpos
      (hall os0 (List.mem_cons_self _ _)) rfl
      (by simpa [FixedPool.State.initial] using hgeo 0 hpos)
    simp only [FixedPool.State.initial, if_true] at h
    simp only [List.take, FixedPool.stateAfter, List.foldl, FixedPool.State.initial]
    rw [h.2, min_eq_left (by omega)]
  | succ j ih =>
    have hj1 : j < (os0 :: rest).length := by omega
    have ih1 := ih hj1
    have hmem : (os0 :: rest)[j + 1] ∈ os0 :: rest := List.getElem_mem _
    rw [List.take_succ, List.getElem?_eq_getElem hj]
    unfold FixedPool.stateAfter at ih1 ⊢
    rw [List.foldl_append, ih1]
    simp only [Option.toList, List.foldl_cons, List.foldl_nil]
    by_cases hlt : j + 1 < count
    · have h := pool_step_success env ((os0 :: rest)[j + 1])
        ⟨min (j + 1) count, os0.VirtualAlloc 0
          (env.RhpGetNumThunkBlocksPerMapping * env.RhpGetThunkBlockSize * count)
          .MEM_RESERVE .PAGE_READWRITE⟩ count
        (os0.VirtualAlloc 0
          (env.RhpGetNumThunkBlocksPerMapping * env.RhpGetThunkBlockSize * count)
          .MEM_RESERVE .PAGE_READWRITE) hbpm hcount
        (by simp only [min_eq_left (le_of_lt hlt)]; exact hlt) (hall _ hmem)
        (by simp only [if_neg (hall os0 (List.mem_cons_self _ _) _ _ _ _)])
        (by simp only [min_eq_left (le_of_lt hlt)]; exact hgeo (j + 1) hlt)
      rw [h.2]
      simp only [min_eq_left (le_of_lt hlt), min_eq_left (show j + 1 + 1 ≤ count by omega)]
    · have hmin : min (j + 1) count = count := min_eq_right (by omega)
      rw [pool_step_exhausted env _ _ count hbpm hcount (by simpa using hmin)]
      simp only [hmin, min_eq_right (show count ≤ j + 1 + 1 by omega)]

/-- C10: exhaustion of the fixed pool.  With `block_count = mapping_count *
blocks_per_mapping`, every `VirtualAlloc` succeeding and the external geometry
queries mapping each data sub-region to a non-null stub address and back, the
calls numbered `0 .. mapping_count - 1` from the initial state each return a
non-null address, and every later call returns `NULL`, invokes no primitive and
leaves the state (next index and reserved base) unchanged. -/
theorem pool_exhaustion (env : FixedPool.Env) (count : Nat) (os0 : FixedPool.Win32)
    (rest : List FixedPool.Win32) (hbpm : 0 < env.RhpGetNumThunkBlocksPerMapping)
    (hcount : env.RhpGetThunkBlockCount = count * env.RhpGetNumThunkBlocksPerMapping)
    (hall : ∀ os ∈ os0 :: rest, ∀ a sz ty pr, os.VirtualAlloc a sz ty pr ≠ 0)
    (hstub : ∀ j, j < count →
      env.RhpGetThunkStubsBlockAddress
        (os0.VirtualAlloc 0
            (env.RhpGetNumThunkBlocksPerMapping * env.RhpGetThunkBlockSize * count)
            .MEM_RESERVE .PAGE_READWRITE +
          j * (env.RhpGetNumThunkBlocksPerMapping * env.RhpGetThunkBlockSize)) ≠ 0)
    (hgeo : ∀ j, j < count →
      env.RhpGetThunkDataBlockAddress (env.RhpGetThunkStubsBlockAddress
        (os0.VirtualAlloc 0
            (env.RhpGetNumThunkBlocksPerMapping * env.RhpGetThunkBlockSize * count)
            .MEM_RESERVE .PAGE_READWRITE +
          j * (env.RhpGetNumThunkBlocksPerMapping * env.RhpGetThunkBlockSize))) =
      os0.VirtualAlloc 0
          (env.RhpGetNumThunkBlocksPerMapping * env.RhpGetThunkBlockSize * count)
          .MEM_RESERVE .PAGE_READWRITE +
        j * (env.RhpGetNumThunkBlocksPerMapping * env.RhpGetThunkBlockSize))
    (j : Nat) (hj : j < (os0 :: rest).length) :
    (let st := FixedPool.stateAfter env .initial ((os0 :: rest).take j)
    let r := FixedPool.RhAllocateThunksMapping env ((os0 :: rest)[j]) st
    (j < count → ∃ p, p ≠ 0 ∧ r.1 = .returned p) ∧
    (count ≤ j → r.1 = .returned 0 ∧ r.2.2 = [] ∧ r.2.1 = st)) := by
  intro st r
  have hmem : (os0 :: rest)[j] ∈ os0 :: rest := List.getElem_mem _
  have hst : st.nextThunkDataMapping = min j count ∧
      (st.g_pThunkStubData = 0 → j = 0 ∨ count = 0) ∧
      (st.g_pThunkStubData ≠ 0 → st.g_pThunkStubData = os0.VirtualAlloc 0
          (env.RhpGetNumThunkBlocksPerMapping * env.RhpGetThunkBlockSize * count)
          .MEM_RESERVE .PAGE_READWRITE) := by
    rcases Nat.eq_zero_or_pos count with hc | hc
    · subst hc
      have : st = .initial := pool_state_empty env _ hbpm hcount
      rw [this]
      simp [FixedPool.State.initial]
    · cases j with
      | zero => simp [st, FixedPool.stateAfter, FixedPool.State.initial]
      | succ j =>
        have := pool_state_after env count os0 rest hbpm hcount hc hall hgeo j (by omega)
        have hs : st = _ := this
        rw [hs]
        refine ⟨rfl, ?_, fun _ => rfl⟩
        intro h0
        exact absurd h0 (hall os0 (List.mem_cons_self _ _) _ _ _ _)
  constructor
  · intro hlt
    have hnext : st.nextThunkDataMapping = j := by rw [hst.1]; exact min_eq_left (le_of_lt hlt)
    have hbase : os0.VirtualAlloc 0
          (env.RhpGetNumThunkBlocksPerMapping * env.RhpGetThunkBlockSize * count)
          .MEM_RESERVE .PAGE_READWRITE =
        if st.g_pThunkStubData = 0 then
          ((os0 :: rest)[j]).VirtualAlloc 0
            (env.RhpGetNumThunkBlocksPerMapping * env.RhpGetThunkBlockSize * count)
            .MEM_RESERVE .PAGE_READWRITE
        else st.g_pThunkStubData := by
      by_cases h0 : st.g_pThunkStubData = 0
      · rw [if_pos h0]
        rcases hst.2.1 h0 with hj0 | hc0
        · subst hj0; rfl
        · omega
      · rw [if_neg h0]
        exact (hst.2.2 h0).symm
    have h := pool_step_success env ((os0 :: rest)[j]) st count _ hbpm hcount
      (by omega) (hall _ hmem) hbase (by rw [hnext]; exact hgeo j hlt)
    exact ⟨_, by rw [hnext]; exact hstub j hlt, h.1⟩
  · intro hge
    have hnext : st.nextThunkDataMapping = count := by rw [hst.1]; exact min_eq_right hge
    have h := pool_step_exhausted env ((os0 :: rest)[j]) st count hbpm hcount hnext
    have hr : r = (Outcome.returned 0, st, []) := h
    exact ⟨congrArg Prod.fst hr, congrArg (fun x => x.2.2) hr, congrArg (fun x => x.2.1) hr⟩

theorem pool_exhaustion_witness :
    (let env : FixedPool.Env := ⟨6, 2, 4096, fun a => a + 0x8000, fun a => a - 0x8000⟩
    let os : FixedPool.Win32 := ⟨fun a _ _ _ => if a = 0 then 0x100000 else a⟩
    let st := FixedPool.stateAfter env .initial ([os, os, os, os].take 3)
    let r := FixedPool.RhAllocateThunksMapping env ([os, os, os, os][3]) st
    (3 < 3 → ∃ p, p ≠ 0 ∧ r.1 = .returned p) ∧
    (3 ≤ 3 → r.1 = .returned 0 ∧ r.2.2 = [] ∧ r.2.1 = st)) := by
  intro env os
  exact pool_exhaustion env 3 os [os, os, os] (by decide) (by decide)
    (by
      intro o ho a sz ty pr
      have ho1 : o = os := by simpa using ho
      subst ho1
      show (if a = 0 then 0x100000 else a) ≠ 0
      split <;> omega)
    (by
      intro j hj
      show (if (0 : Nat) = 0 then 0x100000 else 0) + j * (2 * 4096) - 0x8000 ≠ 0
      simp only [if_true]
      omega)
    (by
      intro j hj
      show (if (0 : Nat) = 0 then 0x100000 else 0) + j * (2 * 4096) - 0x8000 + 0x8000 =
        (if (0 : Nat) = 0 then 0x100000 else 0) + j * (2 * 4096)
      simp only [if_true]
      omega)
    3 (by decide)

/-! ## Strategy C lemmas -/

theorem toInt32_of_lt (a b : Nat) (hle : b ≤ a) (hlt : a - b < 2 ^ 31) :
    toInt32 ((a : Int) - (b : Int)) = ((a - b : Nat) : Int) := by
  unfold toInt32
  rw [← Nat.cast_sub hle]
  generalize a - b = d at hlt ⊢
  norm_num at hlt ⊢
  omega

/-- The state after one call on a non-Apple target. -/
theorem template_state_step (env : TemplateThunks.Env) (pal : TemplateThunks.Pal)
    (st : TemplateThunks.State) :
    (TemplateThunks.RhAllocateThunksMapping false env pal st).2.1 =
      ⟨if st.pThunksTemplateAddress = 0 then env.RhpGetThunksBase
        else st.pThunksTemplateAddress⟩ := by
  unfold TemplateThunks.RhAllocateThunksMapping TemplateThunks.obtainMapping
  by_cases h : st.pThunksTemplateAddress = 0
  · simp only [h, and_self, if_true]
    split_ifs <;> rfl
  · simp only [h, and_false, if_false]
    cases hc : (pal.PalAllocateThunksFromTemplate
      (pal.PalGetModuleHandleFromPointer env.RhpGetThunksBase)
      (toInt32 ((env.RhpGetThunksBase : Int) -
        (pal.PalGetModuleHandleFromPointer env.RhpGetThunksBase : Int)))
      (env.RhpGetNumThunkBlocksPerMapping * env.RhpGetThunkBlockSize)).1
    · simp
    · simp only [Bool.true_eq_false, if_false]
      split_ifs <;> rfl

/-- Once a call was made on a non-Apple target the template is consumed. -/
theorem template_state_after (env : TemplateThunks.Env) (calls : List TemplateThunks.Pal)
    (hbase : env.RhpGetThunksBase ≠ 0) (hne : calls ≠ []) :
    TemplateThunks.stateAfter false env .initial calls = ⟨env.RhpGetThunksBase⟩ := by
  induction calls using List.reverseRecOn with
  | nil => exact absurd rfl hne
  | append_singleton l pal ih =>
    unfold TemplateThunks.stateAfter at ih ⊢
    rw [List.foldl_append]
    simp only [List.foldl_cons, List.foldl_nil]
    rw [template_state_step]
    by_cases hl : l = []
    · subst hl
      simp [TemplateThunks.State.initial]
    · rw [ih hl]
      simp [hbase]

/-- C11: call sequence of Strategy C on a non-Apple target.  From the initial
state the first call does not invoke the clone primitive and, when marking
succeeds, returns `RhpGetThunksBase()`.  Every later call invokes
`PalAllocateThunksFromTemplate` once, with the module handle of the template, the
module-relative offset `RhpGetThunksBase() - module_base` and the size
`blocks_per_mapping * block_size`; when the clone and the marking succeed it
returns the address the clone primitive produced. -/
theorem template_call_sequence (env : TemplateThunks.Env) (pal : TemplateThunks.Pal)
    (earlier : List TemplateThunks.Pal)
    (hbase : env.RhpGetThunksBase ≠ 0)
    (hmod : pal.PalGetModuleHandleFromPointer env.RhpGetThunksBase ≤ env.RhpGetThunksBase)
    (hrva : env.RhpGetThunksBase - pal.PalGetModuleHandleFromPointer env.RhpGetThunksBase <
      2 ^ 31) :
    (let first := TemplateThunks.RhAllocateThunksMapping false env pal .initial
    let later := TemplateThunks.RhAllocateThunksMapping false env pal
      (TemplateThunks.stateAfter false env .initial earlier)
    let hModule := pal.PalGetModuleHandleFromPointer env.RhpGetThunksBase
    let rva : Int := ((env.RhpGetThunksBase - hModule : Nat) : Int)
    let size := env.RhpGetNumThunkBlocksPerMapping * env.RhpGetThunkBlockSize
    let cloned := pal.PalAllocateThunksFromTemplate hModule rva size
    (first.2.2.filter Event.isClone = [] ∧
      (pal.PalMarkThunksAsValidCallTargets env.RhpGetThunksBase env.RhpGetThunkSize
          env.RhpGetNumThunksPerBlock env.RhpGetThunkBlockSize
          env.RhpGetNumThunkBlocksPerMapping = true →
        first.1 = .returned env.RhpGetThunksBase)) ∧
    (earlier ≠ [] →
      later.2.2.filter Event.isClone =
        [.PalAllocateThunksFromTemplate hModule rva size cloned.1 cloned.2] ∧
      (cloned.1 = true →
        pal.PalMarkThunksAsValidCallTargets cloned.2 env.RhpGetThunkSize
          env.RhpGetNumThunksPerBlock env.RhpGetThunkBlockSize
          env.RhpGetNumThunkBlocksPerMapping = true →
        later.1 = .returned cloned.2))) := by
  have hr := toInt32_of_lt _ _ hmod hrva
  refine ⟨⟨?_, ?_⟩, ?_⟩
  · simp only [TemplateThunks.RhAllocateThunksMapping, TemplateThunks.obtainMapping,
      TemplateThunks.State.initial, and_self, if_true]
    split_ifs <;> simp [Event.isClone]
  · intro hmark
    simp [TemplateThunks.RhAllocateThunksMapping, TemplateThunks.obtainMapping,
      TemplateThunks.State.initial, hmark]
  · intro hne
    rw [template_state_after env earlier hbase hne]
    simp only [TemplateThunks.RhAllocateThunksMapping, TemplateThunks.obtainMapping, hbase,
      and_false, if_false, hr]
    generalize pal.PalAllocateThunksFromTemplate
      (pal.PalGetModuleHandleFromPointer env.RhpGetThunksBase)
      ((env.RhpGetThunksBase - pal.PalGetModuleHandleFromPointer env.RhpGetThunksBase : Nat) : Int)
      (env.RhpGetNumThunkBlocksPerMapping * env.RhpGetThunkBlockSize) = cloned
    obtain ⟨ok, out⟩ := cloned
    cases ok
    · simp [Event.isClone]
    · simp only [Bool.true_eq_false, if_false]
      constructor
      · split_ifs <;> simp [Event.isClone]
      · intro _ hmark
        simp [hmark]

theorem template_call_sequence_witness :
    (let env : TemplateThunks.Env := ⟨0x401000, 8, 204, 20, 4096⟩
    let pal : TemplateThunks.Pal :=
      ⟨fun _ => 0x400000, fun _ _ _ => (true, 0x7f0000), fun _ _ _ _ _ => true⟩
    let first := TemplateThunks.RhAllocateThunksMapping false env pal .initial
    let later := TemplateThunks.RhAllocateThunksMapping false env pal
      (TemplateThunks.stateAfter false env .initial [pal])
    let hModule := pal.PalGetModuleHandleFromPointer env.RhpGetThunksBase
    let rva : Int := ((env.RhpGetThunksBase - hModule : Nat) : Int)
    let size := env.RhpGetNumThunkBlocksPerMapping * env.RhpGetThunkBlockSize
    let cloned := pal.PalAllocateThunksFromTemplate hModule rva size
    (first.2.2.filter Event.isClone = [] ∧
      (pal.PalMarkThunksAsValidCallTargets env.RhpGetThunksBase env.RhpGetThunkSize
          env.RhpGetNumThunksPerBlock env.RhpGetThunkBlockSize
          env.RhpGetNumThunkBlocksPerMapping = true →
        first.1 = .returned env.RhpGetThunksBase)) ∧
    ([pal] ≠ [] →
      later.2.2.filter Event.isClone =
        [.PalAllocateThunksFromTemplate hModule rva size cloned.1 cloned.2] ∧
      (cloned.1 = true →
        pal.PalMarkThunksAsValidCallTargets cloned.2 env.RhpGetThunkSize
          env.RhpGetNumThunksPerBlock env.RhpGetThunkBlockSize
          env.RhpGetNumThunkBlocksPerMapping = true →
        later.1 = .returned cloned.2))) :=
  template_call_sequence ⟨0x401000, 8, 204, 20, 4096⟩
    ⟨fun _ => 0x400000, fun _ _ _ => (true, 0x7f0000), fun _ _ _ _ _ => true⟩
    [⟨fun _ => 0x400000, fun _ _ _ => (true, 0x7f0000), fun _ _ _ _ _ => true⟩]
    (by decide) (by decide) (by decide)

/-- The state after a call is the state `obtainMapping` leaves. -/
theorem template_state_obtain (TARGET_APPLE : Bool) (env : TemplateThunks.Env)
    (pal : TemplateThunks.Pal) (st : TemplateThunks.State) :
    (TemplateThunks.RhAllocateThunksMapping TARGET_APPLE env pal st).2.1 =
      (TemplateThunks.obtainMapping TARGET_APPLE env pal st).2.1 := by
  unfold TemplateThunks.RhAllocateThunksMapping
  generalize TemplateThunks.obtainMapping TARGET_APPLE env pal st = obtained
  obtain ⟨m, st1, ev⟩ := obtained
  cases m with
  | none => rfl
  | some p =>
    simp only
    split_ifs <;> rfl

/-- On an Apple target the static is never assigned. -/
theorem template_state_apple (env : TemplateThunks.Env) (pal : TemplateThunks.Pal)
    (st : TemplateThunks.State) :
    (TemplateThunks.RhAllocateThunksMapping true env pal st).2.1 = st := by
  rw [template_state_obtain]
  simp only [TemplateThunks.obtainMapping, Bool.true_eq_false, false_and, if_false]
  split_ifs <;> rfl

/-- The static is `NULL` or the address of the built-in template, and stays
`NULL` on an Apple target. -/
theorem template_state_invariant (TARGET_APPLE : Bool) (env : TemplateThunks.Env)
    (calls : List TemplateThunks.Pal) :
    (TARGET_APPLE = true →
      (TemplateThunks.stateAfter TARGET_APPLE env .initial calls).pThunksTemplateAddress = 0) ∧
    ((TemplateThunks.stateAfter TARGET_APPLE env .initial calls).pThunksTemplateAddress = 0 ∨
      (TemplateThunks.stateAfter TARGET_APPLE env .initial calls).pThunksTemplateAddress =
        env.RhpGetThunksBase) := by
  induction calls using List.reverseRecOn with
  | nil => simp [TemplateThunks.stateAfter, TemplateThunks.State.initial]
  | append_singleton l pal ih =>
    unfold TemplateThunks.stateAfter at ih ⊢
    rw [List.foldl_append]
    simp only [List.foldl_cons, List.foldl_nil]
    cases TARGET_APPLE
    · rw [template_state_step]
      refine ⟨by simp, ?_⟩
      rcases ih.2 with h | h
      · simp [h]
      · by_cases h0 : env.RhpGetThunksBase = 0
        · left; simp [h, h0]
        · right; simp [h, h0]
    · rw [template_state_apple]
      exact ih

/-- Every free of a call is the free of a mapping a successful clone of that call
produced. -/
theorem template_free_is_clone (TARGET_APPLE : Bool) (env : TemplateThunks.Env)
    (pal : TemplateThunks.Pal) (st : TemplateThunks.State) (b sz : Nat)
    (hmem : Event.PalFreeThunksFromTemplate b sz ∈
      (TemplateThunks.RhAllocateThunksMapping TARGET_APPLE env pal st).2.2) :
    ∃ h rva s, (pal.PalAllocateThunksFromTemplate h rva s).1 = true ∧
      b = (pal.PalAllocateThunksFromTemplate h rva s).2 := by
  simp only [TemplateThunks.RhAllocateThunksMapping, TemplateThunks.obtainMapping] at hmem
  by_cases h1 : TARGET_APPLE = false ∧ st.pThunksTemplateAddress = 0
  · simp only [h1, and_self, if_true] at hmem
    split_ifs at hmem <;> simp at hmem
    contradiction
  · simp only [h1, if_false] at hmem
    refine ⟨pal.PalGetModuleHandleFromPointer env.RhpGetThunksBase,
      toInt32 ((env.RhpGetThunksBase : Int) -
        (pal.PalGetModuleHandleFromPointer env.RhpGetThunksBase : Int)),
      env.RhpGetNumThunkBlocksPerMapping * env.RhpGetThunkBlockSize, ?_⟩
    generalize pal.PalAllocateThunksFromTemplate
      (pal.PalGetModuleHandleFromPointer env.RhpGetThunksBase)
      (toInt32 ((env.RhpGetThunksBase : Int) -
        (pal.PalGetModuleHandleFromPointer env.RhpGetThunksBase : Int)))
      (env.RhpGetNumThunkBlocksPerMapping * env.RhpGetThunkBlockSize) = cloned at hmem ⊢
    obtain ⟨ok, out⟩ := cloned
    cases ok
    · simp at hmem
    · simp only [Bool.true_eq_false, if_false] at hmem
      split_ifs at hmem <;> simp at hmem
      exact ⟨rfl, hmem.1⟩

theorem template_trace_frees (TARGET_APPLE : Bool) (env : TemplateThunks.Env)
    (calls : List TemplateThunks.Pal) (st : TemplateThunks.State) (b sz : Nat)
    (hclone : ∀ q ∈ calls, ∀ h rva s, (q.PalAllocateThunksFromTemplate h rva s).1 = true →
      (q.PalAllocateThunksFromTemplate h rva s).2 ≠ env.RhpGetThunksBase)
    (hmem : Event.PalFreeThunksFromTemplate b sz ∈
      TemplateThunks.traceOf TARGET_APPLE env st calls) :
    b ≠ env.RhpGetThunksBase := by
  induction calls generalizing st with
  | nil => simp [TemplateThunks.traceOf] at hmem
  | cons pal rest ih =>
    simp only [TemplateThunks.traceOf, List.mem_append] at hmem
    rcases hmem with h | h
    · obtain ⟨hm, rva, s, hok, hb⟩ := template_free_is_clone TARGET_APPLE env pal st b sz h
      rw [hb]
      exact hclone pal (List.mem_cons_self _ _) hm rva s hok
    · exact ih _ (fun q hq => hclone q (List.mem_cons_of_mem _ hq)) h

/-- C12: marking failure in Strategy C.  In a call where
`PalMarkThunksAsValidCallTargets` fails the result is `NULL`; when the mapping
was obtained by cloning, `PalFreeThunksFromTemplate` is called exactly once, on
that mapping, with size `blocks_per_mapping * block_size`; when the mapping was
the built-in template itself, no free primitive is called.  Over the whole
sequence of calls the address of the built-in template is never passed to
`PalFreeThunksFromTemplate`.  A successful clone is assumed to produce neither
the template address nor `NULL`. -/
theorem template_marking_failure (TARGET_APPLE : Bool) (env : TemplateThunks.Env)
    (earlier later : List TemplateThunks.Pal) (pal : TemplateThunks.Pal)
    (a ts tpb bs bpm : Nat)
    (hclone : ∀ q ∈ earlier ++ pal :: later, ∀ h rva s,
      (q.PalAllocateThunksFromTemplate h rva s).1 = true →
        (q.PalAllocateThunksFromTemplate h rva s).2 ≠ env.RhpGetThunksBase ∧
        (q.PalAllocateThunksFromTemplate h rva s).2 ≠ 0)
    (hmark : Event.PalMarkThunksAsValidCallTargets a ts tpb bs bpm false ∈
      (TemplateThunks.RhAllocateThunksMapping TARGET_APPLE env pal
        (TemplateThunks.stateAfter TARGET_APPLE env .initial earlier)).2.2) :
    (let r := TemplateThunks.RhAllocateThunksMapping TARGET_APPLE env pal
      (TemplateThunks.stateAfter TARGET_APPLE env .initial earlier)
    r.1 = .returned 0 ∧
    (r.2.2.filter Event.isClone ≠ [] →
      r.2.2.filter Event.isFreeThunks =
        [.PalFreeThunksFromTemplate a
          (env.RhpGetNumThunkBlocksPerMapping * env.RhpGetThunkBlockSize)]) ∧
    (r.2.2.filter Event.isClone = [] →
      a = env.RhpGetThunksBase ∧ r.2.2.filter Event.isFreeThunks = []) ∧
    (∀ b sz, Event.PalFreeThunksFromTemplate b sz ∈
        TemplateThunks.traceOf TARGET_APPLE env .initial (earlier ++ pal :: later) →
      b ≠ env.RhpGetThunksBase)) := by
  have hinv := template_state_invariant TARGET_APPLE env earlier
  have hpal := hclone pal (by simp)
  have hseq : ∀ b sz, Event.PalFreeThunksFromTemplate b sz ∈
      TemplateThunks.traceOf TARGET_APPLE env .initial (earlier ++ pal :: later) →
      b ≠ env.RhpGetThunksBase := fun b sz hb =>
    template_trace_frees TARGET_APPLE env _ _ b sz (fun q hq h rva s hok =>
      (hclone q hq h rva s hok).1) hb
  refine ⟨?_, ?_, ?_, hseq⟩ <;> clear hseq hclone
  all_goals
    generalize TemplateThunks.stateAfter TARGET_APPLE env .initial earlier = st at hinv hmark ⊢
    simp only [TemplateThunks.RhAllocateThunksMapping, TemplateThunks.obtainMapping] at hmark ⊢
    have hc := hpal (pal.PalGetModuleHandleFromPointer env.RhpGetThunksBase)
      (toInt32 ((env.RhpGetThunksBase : Int) -
        (pal.PalGetModuleHandleFromPointer env.RhpGetThunksBase : Int)))
      (env.RhpGetNumThunkBlocksPerMapping * env.RhpGetThunkBlockSize)
    generalize pal.PalAllocateThunksFromTemplate
      (pal.PalGetModuleHandleFromPointer env.RhpGetThunksBase)
      (toInt32 ((env.RhpGetThunksBase : Int) -
        (pal.PalGetModuleHandleFromPointer env.RhpGetThunksBase : Int)))
      (env.RhpGetNumThunkBlocksPerMapping * env.RhpGetThunkBlockSize) = cloned at hmark hc ⊢
    obtain ⟨ok, out⟩ := cloned
    by_cases h1 : TARGET_APPLE = false ∧ st.pThunksTemplateAddress = 0
    · simp only [h1, and_self, if_true] at hmark ⊢
      split_ifs at hmark ⊢ <;> simp_all [Event.isClone, Event.isFreeThunks]
    · simp only [h1, if_false] at hmark ⊢
      cases ok
      · simp at hmark
      · simp only [Bool.true_eq_false, if_false] at hmark ⊢
        split_ifs at hmark ⊢ <;> simp_all [Event.isClone, Event.isFreeThunks]

theorem template_marking_failure_witness :
    (let env : TemplateThunks.Env := ⟨0x401000, 8, 204, 20, 4096⟩
    let ok : TemplateThunks.Pal :=
      ⟨fun _ => 0x400000, fun _ _ _ => (true, 0x7f0000), fun _ _ _ _ _ => true⟩
    let pal : TemplateThunks.Pal :=
      ⟨fun _ => 0x400000, fun _ _ _ => (true, 0x7f0000), fun _ _ _ _ _ => false⟩
    let r := TemplateThunks.RhAllocateThunksMapping false env pal
      (TemplateThunks.stateAfter false env .initial [ok])
    r.1 = .returned 0 ∧
    (r.2.2.filter Event.isClone ≠ [] →
      r.2.2.filter Event.isFreeThunks =
        [.PalFreeThunksFromTemplate 0x7f0000
          (env.RhpGetNumThunkBlocksPerMapping * env.RhpGetThunkBlockSize)]) ∧
    (r.2.2.filter Event.isClone = [] →
      0x7f0000 = env.RhpGetThunksBase ∧ r.2.2.filter Event.isFreeThunks = []) ∧
    (∀ b sz, Event.PalFreeThunksFromTemplate b sz ∈
        TemplateThunks.traceOf false env .initial ([ok] ++ pal :: []) →
      b ≠ env.RhpGetThunksBase)) :=
  template_marking_failure false ⟨0x401000, 8, 204, 20, 4096⟩
    [⟨fun _ => 0x400000, fun _ _ _ => (true, 0x7f0000), fun _ _ _ _ _ => true⟩] []
    ⟨fun _ => 0x400000, fun _ _ _ => (true, 0x7f0000), fun _ _ _ _ _ => false⟩
    0x7f0000 20 204 4096 8
    (by
      intro q hq h rva s _
      simp only [List.cons_append, List.nil_append, List.mem_cons, List.mem_singleton,
        List.not_mem_nil, or_false] at hq
      rcases hq with rfl | rfl <;> exact ⟨by simp, by simp⟩)
    (by decide)

/-! ## Bit-field lemmas -/

/-- Masking a field of `n` bits at position `s`. -/
theorem and_field (x s n : Nat) : x &&& (2 ^ s * (2 ^ n - 1)) = 2 ^ s * (x / 2 ^ s % 2 ^ n) := by
  apply Nat.eq_of_testBit_eq
  intro j
  rw [Nat.testBit_and, Nat.testBit_mul_pow_two, Nat.testBit_mul_pow_two,
    Nat.testBit_two_pow_sub_one, Nat.testBit_mod_two_pow, ← Nat.shiftRight_eq_div_pow,
    Nat.testBit_shiftRight]
  by_cases h : j ≥ s
  · have e : s + (j - s) = j := by omega
    simp only [h, e, decide_True, Bool.true_and]
    exact Bool.and_comm _ _
  · simp [h]

theorem and_field_shiftRight (x s n : Nat) :
    (x &&& (2 ^ s * (2 ^ n - 1))) >>> s = x / 2 ^ s % 2 ^ n := by
  rw [and_field, Nat.shiftRight_eq_div_pow, Nat.mul_div_cancel_left _ (Nat.two_pow_pos s)]

/-- A `PCADDI` word as the encoder builds it. -/
theorem pcaddi_word (rd x : Nat) (hrd : rd < 32) (hx : x < 2 ^ 22) :
    (0x18000000 + rd) ||| (((x &&& 0x3FFFFC) >>> 2) <<< 5) = 0x18000000 + rd + 32 * (x / 4) := by
  have h1 : (x &&& 0x3FFFFC) >>> 2 = x / 4 := by
    have h := and_field_shiftRight x 2 20
    norm_num at h
    rw [h]
    norm_num at hx
    omega
  have h2 := lor_shiftLeft_field 0xC rd (x / 4) 5 20 (by simpa using hrd)
    (by norm_num at hx ⊢; omega)
  rw [h1]
  norm_num at h2 ⊢
  rw [h2]
  ring

theorem decode_pcaddi_word (rd q : Nat) (hrd : rd < 32) (hq : q < 2 ^ 19) :
    decodeLoongArchPcaddi (0x18000000 + rd + 32 * q) = some (rd, (q : Int)) := by
  have hq1 : q < 524288 := by simpa using hq
  have e1 : (0x18000000 + rd + 32 * q) / 2 ^ 25 = 0xC := by norm_num; omega
  have e2 : (0x18000000 + rd + 32 * q) % 32 = rd := by omega
  have e3 : (0x18000000 + rd + 32 * q) / 2 ^ 5 % 2 ^ 20 = q := by norm_num; omega
  have e4 : q % 2 ^ 20 = q := Nat.mod_eq_of_lt (by norm_num; omega)
  unfold decodeLoongArchPcaddi signExtend
  rw [if_pos e1, e2, e3, e4, if_pos (by simpa using hq)]

/-- The four words of a LoongArch64 thunk after its four stores. -/
theorem loongarch_words (mem : Memory) (OS_PAGE_SIZE T A i : Nat) :
    (let mem1 := applyStores mem (emitLOONGARCH64 OS_PAGE_SIZE T A i)
    let delta := thunkDelta T A
    let delta2 := wordAdd 32 delta (dispatcherDelta .LOONGARCH64 OS_PAGE_SIZE i - 4)
    readWord32 mem1 T = (0x18000013 ||| (((delta &&& 0x3FFFFC) >>> 2) <<< 5)) % 2 ^ 32 ∧
    readWord32 mem1 (T + 4) = (0x18000014 ||| (((delta2 &&& 0x3FFFFC) >>> 2) <<< 5)) % 2 ^ 32 ∧
    readWord32 mem1 (T + 8) = 0x28C00294 ∧
    readWord32 mem1 (T + 12) = 0x4C000280) := by
  simp only [readWord32, readBytes, range_four, List.map, emitLOONGARCH64, applyStores,
    List.foldl, Store.apply, ofLeBytes]
  simp
  constructor <;> omega

/-- C13: LoongArch64 thunk semantics and PC-relative bias.  For every power-of-two
page size from 4 KiB to 64 KiB, every block `m` and every thunk `i` below the
number of thunks per block, the four words decode as `pcaddi $t7, s1 ;
pcaddi $t8, s2 ; ld.d $t8, $t8, 0 ; jirl $r0, $t8, 0`; both immediates are in
the signed 20-bit range, `thunk_address + 4*s1` is the data slot of thunk `i`
(`data_block_base + 16*i`) and `(thunk_address + 4) + 4*s2` is the dispatcher
cell `data_block_base + page_size - 8`: the second `pcaddi` is biased by the
4 bytes that separate it from the start of the thunk. -/
theorem loongarch_pc_relative_bias (OS_PAGE_SIZE k B m i : Nat) (mem : Memory)
    (hpow : OS_PAGE_SIZE = 2 ^ k) (hk1 : 12 ≤ k) (hk2 : k ≤ 16)
    (hi : i < RhpGetNumThunksPerBlock .LOONGARCH64 OS_PAGE_SIZE) :
    (let T := pCurrentThunkAddress .LOONGARCH64 OS_PAGE_SIZE B m i
    let A := pCurrentDataAddress .LOONGARCH64 OS_PAGE_SIZE B m i
    let base := pDataBlockAddress OS_PAGE_SIZE B m
    let mem1 := applyStores mem (emitThunk .LOONGARCH64 OS_PAGE_SIZE T A i)
    let s1 := THUNKS_MAP_SIZE OS_PAGE_SIZE / 4
    let s2 := (THUNKS_MAP_SIZE OS_PAGE_SIZE + OS_PAGE_SIZE - 12 - 16 * i) / 4
    decodeLoongArchPcaddi (readWord32 mem1 T) = some (19, (s1 : Int)) ∧
    decodeLoongArchPcaddi (readWord32 mem1 (T + 4)) = some (20, (s2 : Int)) ∧
    decodeLoongArchLdD (readWord32 mem1 (T + 8)) = some (20, 20, 0) ∧
    decodeLoongArchJirl (readWord32 mem1 (T + 12)) = some (0, 20, 0) ∧
    s1 < 2 ^ 19 ∧ s2 < 2 ^ 19 ∧
    T + 4 * s1 = A ∧
    A = base + 16 * i ∧
    (T + 4) + 4 * s2 = base + OS_PAGE_SIZE - 8) := by
  subst hpow
  intro T A base mem1 s1 s2
  have hslot := slot_end_le .LOONGARCH64 (2 ^ k) i hi
  have hdvd : 2 ^ k % 4 = 0 :=
    Nat.mod_eq_zero_of_dvd (by
      have : (2 : Nat) ^ 2 ∣ 2 ^ k := Nat.pow_dvd_pow 2 (by omega)
      simpa using this)
  have hP16 : 2 ^ k ≤ 65536 :=
    le_trans (Nat.pow_le_pow_right (by norm_num) hk2) (by norm_num)
  have hP12 : 4096 ≤ 2 ^ k :=
    le_trans (by norm_num) (Nat.pow_le_pow_right (by norm_num) hk1)
  have hM : THUNKS_MAP_SIZE (2 ^ k) = 0x8000 ∨ THUNKS_MAP_SIZE (2 ^ k) = 2 ^ k := by
    unfold THUNKS_MAP_SIZE
    rcases le_total (2 ^ k) 0x8000 with h | h
    · left; exact max_eq_left h
    · right; exact max_eq_right h
  have hMle : THUNKS_MAP_SIZE (2 ^ k) ≤ 0x10000 := by
    rcases hM with h | h <;> omega
  have hM4 : THUNKS_MAP_SIZE (2 ^ k) % 4 = 0 := by
    rcases hM with h | h <;> omega
  have hTA : T + THUNKS_MAP_SIZE (2 ^ k) = A := by
    show pCurrentThunkAddress .LOONGARCH64 (2 ^ k) B m i + THUNKS_MAP_SIZE (2 ^ k) =
      pCurrentDataAddress .LOONGARCH64 (2 ^ k) B m i
    unfold pCurrentThunkAddress pCurrentDataAddress pThunkBlockAddress pDataBlockAddress
      pDataSection
    simp only [THUNK_SIZE, POINTER_SIZE]
    omega
  have hA : A = base + 16 * i := by
    show pCurrentDataAddress .LOONGARCH64 (2 ^ k) B m i = pDataBlockAddress (2 ^ k) B m + 16 * i
    unfold pCurrentDataAddress
    simp only [POINTER_SIZE]
    omega
  have hD : dispatcherDelta .LOONGARCH64 (2 ^ k) i + 16 * i + 8 = 2 ^ k := by
    unfold dispatcherDelta
    unfold dataSlotOffset at hslot
    simp only [POINTER_SIZE] at hslot ⊢
    omega
  have hD16 : 16 ≤ dispatcherDelta .LOONGARCH64 (2 ^ k) i := by
    unfold dispatcherDelta
    unfold dataSlotOffset at hslot
    simp only [POINTER_SIZE] at hslot ⊢
    omega
  have hdelta : thunkDelta T A = THUNKS_MAP_SIZE (2 ^ k) := by
    rw [← hTA]
    exact wordSub_add_left 32 T _ (by norm_num; omega)
  have hdelta2 : wordAdd 32 (THUNKS_MAP_SIZE (2 ^ k)) (dispatcherDelta .LOONGARCH64 (2 ^ k) i - 4) =
      THUNKS_MAP_SIZE (2 ^ k) + 2 ^ k - 12 - 16 * i := by
    unfold wordAdd
    rw [Nat.mod_eq_of_lt (by norm_num; omega)]
    omega
  obtain ⟨w0, w1, w2, w3⟩ := loongarch_words mem (2 ^ k) T A i
  rw [hdelta] at w0
  rw [hdelta, hdelta2] at w1
  have hs1 : s1 < 2 ^ 19 := by
    show THUNKS_MAP_SIZE (2 ^ k) / 4 < 2 ^ 19
    norm_num
    omega
  have hs2 : s2 < 2 ^ 19 := by
    show (THUNKS_MAP_SIZE (2 ^ k) + 2 ^ k - 12 - 16 * i) / 4 < 2 ^ 19
    norm_num
    omega
  have hw0 : readWord32 mem1 T = 0x18000000 + 19 + 32 * s1 := by
    rw [show readWord32 mem1 T = _ from w0,
      show (0x18000013 : Nat) = 0x18000000 + 19 from rfl,
      pcaddi_word 19 _ (by norm_num) (by norm_num; omega)]
    norm_num at hs1 ⊢
    omega
  have hw1 : readWord32 mem1 (T + 4) = 0x18000000 + 20 + 32 * s2 := by
    rw [show readWord32 mem1 (T + 4) = _ from w1,
      show (0x18000014 : Nat) = 0x18000000 + 20 from rfl,
      pcaddi_word 20 _ (by norm_num) (by norm_num; omega)]
    norm_num at hs2 ⊢
    omega
  refine ⟨by rw [hw0]; exact decode_pcaddi_word 19 s1 (by norm_num) hs1,
    by rw [hw1]; exact decode_pcaddi_word 20 s2 (by norm_num) hs2,
    by rw [show readWord32 mem1 (T + 8) = _ from w2]; decide,
    by rw [show readWord32 mem1 (T + 12) = _ from w3]; decide,
    hs1, hs2, ?_, hA, ?_⟩
  · show T + 4 * (THUNKS_MAP_SIZE (2 ^ k) / 4) = A
    omega
  · show T + 4 + 4 * ((THUNKS_MAP_SIZE (2 ^ k) + 2 ^ k - 12 - 16 * i) / 4) = base + 2 ^ k - 8
    omega

theorem loongarch_pc_relative_bias_witness :
    (let T := pCurrentThunkAddress .LOONGARCH64 16384 0x7f0000000000 1 5
    let A := pCurrentDataAddress .LOONGARCH64 16384 0x7f0000000000 1 5
    let base := pDataBlockAddress 16384 0x7f0000000000 1
    let mem1 := applyStores (fun _ => 0) (emitThunk .LOONGARCH64 16384 T A 5)
    let s1 := THUNKS_MAP_SIZE 16384 / 4
    let s2 := (THUNKS_MAP_SIZE 16384 + 16384 - 12 - 16 * 5) / 4
    decodeLoongArchPcaddi (readWord32 mem1 T) = some (19, (s1 : Int)) ∧
    decodeLoongArchPcaddi (readWord32 mem1 (T + 4)) = some (20, (s2 : Int)) ∧
    decodeLoongArchLdD (readWord32 mem1 (T + 8)) = some (20, 20, 0) ∧
    decodeLoongArchJirl (readWord32 mem1 (T + 12)) = some (0, 20, 0) ∧
    s1 < 2 ^ 19 ∧ s2 < 2 ^ 19 ∧
    T + 4 * s1 = A ∧
    A = base + 16 * 5 ∧
    (T + 4) + 4 * s2 = base + 16384 - 8) :=
  loongarch_pc_relative_bias 16384 14 0x7f0000000000 1 5 (fun _ => 0) (by norm_num)
    (by norm_num) (by norm_num) (by decide)

/-- The first halfword of `EncodeThumb2Mov16` as a sum of its fields. -/
theorem thumb2_first_halfword (v rd : Nat) (topWord : Bool) (hv : v < 2 ^ 16) :
    (EncodeThumb2Mov16 v rd topWord).1 =
      0xF000 + 1024 * (v / 2048 % 2) + (if topWord then 0x2c0 else 0x240) + v / 4096 := by
  have hv1 : v < 65536 := by simpa using hv
  have h1 : (v >>> 12) &&& 0x000f = v / 4096 := by
    have h := Nat.and_pow_two_sub_one_eq_mod (v >>> 12) 4
    rw [Nat.shiftRight_eq_div_pow] at h ⊢
    norm_num at h ⊢
    rw [h]
    omega
  have h2 : (v >>> 1) &&& 0x0400 = (v / 2048 % 2) <<< 10 := by
    have h := and_field (v >>> 1) 10 1
    rw [Nat.shiftRight_eq_div_pow, Nat.shiftLeft_eq] at *
    norm_num at h ⊢
    rw [h]
    omega
  have h3 : ∀ c, c < 64 → (0xF000 + 16 * c) ||| v / 4096 = 0xF000 + 16 * c + v / 4096 := by
    intro c _
    have h := Nat.mul_add_lt_is_or (show v / 4096 < 2 ^ 4 by norm_num; omega) (0xF00 + c)
    have e : 0xF000 + 16 * c = 2 ^ 4 * (0xF00 + c) := by ring
    rw [e, ← h]
  have h4 : ∀ lo, lo < 1024 →
      (0xF000 + lo) ||| ((v / 2048 % 2) <<< 10) = 0xF000 + 1024 * (v / 2048 % 2) + lo := by
    intro lo hlo
    have h := lor_shiftLeft_field 0x1E lo (v / 2048 % 2) 10 1 (by simpa using hlo)
      (by norm_num; omega)
    norm_num at h ⊢
    exact h
  unfold EncodeThumb2Mov16
  simp only [h1, h2]
  cases topWord
  · have e : (0xf240 : Nat) = 0xF000 + 16 * 0x24 := rfl
    simp only [Bool.false_eq_true, if_false]
    rw [e, h3 0x24 (by norm_num), Nat.add_assoc 0xF000, h4 _ (by omega)]
    omega
  · have e : (0xf2c0 : Nat) = 0xF000 + 16 * 0x2c := rfl
    simp only [if_true]
    rw [e, h3 0x2c (by norm_num), Nat.add_assoc 0xF000, h4 _ (by omega)]
    omega

/-- The second halfword of `EncodeThumb2Mov16` as a sum of its fields. -/
theorem thumb2_second_halfword (v rd : Nat) (topWord : Bool) (hv : v < 2 ^ 16) (hrd : rd ≤ 15) :
    (EncodeThumb2Mov16 v rd topWord).2 = 4096 * (v / 256 % 8) + 256 * rd + v % 256 := by
  have hv1 : v < 65536 := by simpa using hv
  have h1 : (v <<< 4) &&& 0x7000 = 4096 * (v / 256 % 8) := by
    have h := and_field (v <<< 4) 12 3
    rw [Nat.shiftLeft_eq] at *
    norm_num at h ⊢
    rw [h]
    omega
  have h2 : v &&& 0x00ff = v % 256 := by
    have h := Nat.and_pow_two_sub_one_eq_mod v 8
    norm_num at h ⊢
    exact h
  have h3 : 4096 * (v / 256 % 8) ||| v % 256 = 4096 * (v / 256 % 8) + v % 256 := by
    have h := Nat.mul_add_lt_is_or (show v % 256 < 2 ^ 12 by norm_num; omega) (v / 256 % 8)
    norm_num at h ⊢
    exact h.symm
  have h4 : (4096 * (v / 256 % 8) + v % 256) ||| (rd <<< 8) =
      4096 * (v / 256 % 8) + 256 * rd + v % 256 := by
    have h := lor_shiftLeft_field (v / 256 % 8) (v % 256) rd 8 4 (by norm_num; omega)
      (by norm_num; omega)
    norm_num at h ⊢
    exact h
  unfold EncodeThumb2Mov16
  simp only [h1, h2, h3, h4]
  omega

/-- Decoding halfwords given as sums of their fields; `op` is 0 for `MOVW` and 1
for `MOVT`. -/
theorem decode_thumb2_fields (imm4 i imm3 imm8 rd op : Nat) (h4 : imm4 < 16) (h1 : i < 2)
    (h3 : imm3 < 8) (h8 : imm8 < 256) (hrd : rd ≤ 15) (hop : op < 2) :
    decodeThumb2Mov16 (0xF000 + 1024 * i + (0x240 + 128 * op) + imm4)
        (4096 * imm3 + 256 * rd + imm8) =
      some (decide (op = 1), rd, imm4 * 2 ^ 12 + i * 2 ^ 11 + imm3 * 2 ^ 8 + imm8) := by
  have q11 : (0xF000 + 1024 * i + (0x240 + 128 * op) + imm4) / 2 ^ 11 = 0x1E := by
    show _ / 2048 = 30
    omega
  have q8 : (0xF000 + 1024 * i + (0x240 + 128 * op) + imm4) / 2 ^ 8 % 4 = 2 := by
    have q : (0xF000 + 1024 * i + (0x240 + 128 * op) + imm4) / 256 = 242 + 4 * i := by omega
    show _ / 256 % 4 = 2
    rw [q]; omega
  have q4 : (0xF000 + 1024 * i + (0x240 + 128 * op) + imm4) / 2 ^ 4 % 8 = 4 := by
    have q : (0xF000 + 1024 * i + (0x240 + 128 * op) + imm4) / 16 = 3876 + 64 * i + 8 * op := by
      omega
    show _ / 16 % 8 = 4
    rw [q]; omega
  have q7 : (0xF000 + 1024 * i + (0x240 + 128 * op) + imm4) / 2 ^ 7 % 2 = op := by
    have q : (0xF000 + 1024 * i + (0x240 + 128 * op) + imm4) / 128 = 484 + 8 * i + op := by
      omega
    show _ / 128 % 2 = op
    rw [q]; omega
  have q10 : (0xF000 + 1024 * i + (0x240 + 128 * op) + imm4) / 2 ^ 10 % 2 = i := by
    have q : (0xF000 + 1024 * i + (0x240 + 128 * op) + imm4) / 1024 = 60 + i := by omega
    show _ / 1024 % 2 = i
    rw [q]; omega
  have q0 : (0xF000 + 1024 * i + (0x240 + 128 * op) + imm4) % 16 = imm4 := by omega
  have r15 : (4096 * imm3 + 256 * rd + imm8) / 2 ^ 15 = 0 := by
    show _ / 32768 = 0
    omega
  have r8 : (4096 * imm3 + 256 * rd + imm8) / 2 ^ 8 % 16 = rd := by
    have q : (4096 * imm3 + 256 * rd + imm8) / 256 = 16 * imm3 + rd := by omega
    show _ / 256 % 16 = rd
    rw [q]; omega
  have r12 : (4096 * imm3 + 256 * rd + imm8) / 2 ^ 12 % 8 = imm3 := by
    have q : (4096 * imm3 + 256 * rd + imm8) / 4096 = imm3 := by omega
    show _ / 4096 % 8 = imm3
    rw [q]; omega
  have r0 : (4096 * imm3 + 256 * rd + imm8) % 256 = imm8 := by omega
  unfold decodeThumb2Mov16
  rw [if_pos ⟨q11, q8, q4, r15⟩, q7, q10, q0, r8, r12, r0]

/-- Decoding what `EncodeThumb2Mov16` writes. -/
theorem decode_thumb2_mov16 (v rd : Nat) (topWord : Bool) (hv : v < 2 ^ 16) (hrd : rd ≤ 15) :
    decodeThumb2Mov16 (EncodeThumb2Mov16 v rd topWord).1 (EncodeThumb2Mov16 v rd topWord).2 =
      some (topWord, rd, v) := by
  have hv1 : v < 65536 := by simpa using hv
  rw [thumb2_first_halfword v rd topWord hv, thumb2_second_halfword v rd topWord hv hrd]
  have hsplit : v / 4096 * 2 ^ 12 + v / 2048 % 2 * 2 ^ 11 + v / 256 % 8 * 2 ^ 8 + v % 256 = v := by
    show v / 4096 * 4096 + v / 2048 % 2 * 2048 + v / 256 % 8 * 256 + v % 256 = v
    omega
  cases topWord
  · have h := decode_thumb2_fields (v / 4096) (v / 2048 % 2) (v / 256 % 8) (v % 256) rd 0
      (by omega) (by omega) (by omega) (by omega) hrd (by omega)
    rw [hsplit] at h
    simpa using h
  · have h := decode_thumb2_fields (v / 4096) (v / 2048 % 2) (v / 256 % 8) (v % 256) rd 1
      (by omega) (by omega) (by omega) (by omega) hrd (by omega)
    rw [hsplit] at h
    simpa using h

/-- C14: Thumb-2 immediate move encoding round trip.  For every 16-bit value
`v`, every register `rd` in `[0, 15]` and both values of `topWord`, the two
halfwords of `EncodeThumb2Mov16` are the base `0xf240` (`MOVW`) or `0xf2c0`
(`MOVT`) plus the fields `imm4` and `i`, and `0 imm3 Rd imm8`; decoded, the
fields `imm4:i:imm3:imm8` give back `v` and the `Rd` field is `rd`.  For every
32-bit value `w`, `EncodeThumb2Mov32` emits `MOVW rd, #(w & 0xffff)` followed by
`MOVT rd, #(w >> 16)`, which together load `w` into `rd`. -/
theorem thumb2_mov_round_trip (v rd w : Nat) (topWord : Bool)
    (hv : v < 2 ^ 16) (hrd : rd ≤ 15) (hw : w < 2 ^ 32) :
    ((EncodeThumb2Mov16 v rd topWord).1 =
        (if topWord then 0xf2c0 else 0xf240) + v / 4096 + 1024 * (v / 2048 % 2) ∧
      (EncodeThumb2Mov16 v rd topWord).2 = 4096 * (v / 256 % 8) + 256 * rd + v % 256 ∧
      decodeThumb2Mov16 (EncodeThumb2Mov16 v rd topWord).1 (EncodeThumb2Mov16 v rd topWord).2 =
        some (topWord, rd, v)) ∧
    (EncodeThumb2Mov32 w rd =
        [(EncodeThumb2Mov16 (w % 65536) rd false).1, (EncodeThumb2Mov16 (w % 65536) rd false).2,
         (EncodeThumb2Mov16 (w / 65536) rd true).1, (EncodeThumb2Mov16 (w / 65536) rd true).2] ∧
      w % 65536 = w &&& 0xffff ∧ w / 65536 = w >>> 16 ∧
      decodeThumb2Mov16 ((EncodeThumb2Mov32 w rd).getD 0 0) ((EncodeThumb2Mov32 w rd).getD 1 0) =
        some (false, rd, w % 65536) ∧
      decodeThumb2Mov16 ((EncodeThumb2Mov32 w rd).getD 2 0) ((EncodeThumb2Mov32 w rd).getD 3 0) =
        some (true, rd, w / 65536) ∧
      execThumb2MovPair (EncodeThumb2Mov32 w rd) = some (rd, w)) := by
  have hw1 : w < 4294967296 := by simpa using hw
  have hlo : w % 65536 < 2 ^ 16 := by norm_num; omega
  have hhi : w / 65536 < 2 ^ 16 := by norm_num; omega
  have hand : w &&& 0xffff = w % 65536 := by
    have h := Nat.and_pow_two_sub_one_eq_mod w 16
    norm_num at h ⊢
    exact h
  have hshift : w >>> 16 = w / 65536 := by
    rw [Nat.shiftRight_eq_div_pow]
  have henc : EncodeThumb2Mov32 w rd =
      [(EncodeThumb2Mov16 (w % 65536) rd false).1, (EncodeThumb2Mov16 (w % 65536) rd false).2,
       (EncodeThumb2Mov16 (w / 65536) rd true).1, (EncodeThumb2Mov16 (w / 65536) rd true).2] := by
    unfold EncodeThumb2Mov32
    have e1 : w % 65536 % 2 ^ 16 = w % 65536 := Nat.mod_eq_of_lt hlo
    have e2 : w / 65536 % 2 ^ 16 = w / 65536 := Nat.mod_eq_of_lt hhi
    simp only [hand, hshift, e1, e2]
  have hdlo := decode_thumb2_mov16 (w % 65536) rd false hlo hrd
  have hdhi := decode_thumb2_mov16 (w / 65536) rd true hhi hrd
  refine ⟨⟨?_, ?_, decode_thumb2_mov16 v rd topWord hv hrd⟩,
    ⟨henc, hand.symm, hshift.symm, ?_, ?_, ?_⟩⟩
  · rw [thumb2_first_halfword v rd topWord hv]
    cases topWord
    · simp only [Bool.false_eq_true, if_false]; omega
    · simp only [if_true]; omega
  · rw [thumb2_second_halfword v rd topWord hv hrd]
  · rw [henc]; exact hdlo
  · rw [henc]; exact hdhi
  · rw [henc]
    unfold execThumb2MovPair
    simp only [hdlo, hdhi, if_true]
    have := Nat.div_add_mod w 65536
    simp only [Option.some.injEq, Prod.mk.injEq, true_and]
    omega

theorem thumb2_mov_round_trip_witness :
    ((EncodeThumb2Mov16 0xABCD 12 true).1 =
        (if true then 0xf2c0 else 0xf240) + 0xABCD / 4096 + 1024 * (0xABCD / 2048 % 2) ∧
      (EncodeThumb2Mov16 0xABCD 12 true).2 = 4096 * (0xABCD / 256 % 8) + 256 * 12 + 0xABCD % 256 ∧
      decodeThumb2Mov16 (EncodeThumb2Mov16 0xABCD 12 true).1 (EncodeThumb2Mov16 0xABCD 12 true).2 =
        some (true, 12, 0xABCD)) ∧
    (EncodeThumb2Mov32 0x12345678 12 =
        [(EncodeThumb2Mov16 (0x12345678 % 65536) 12 false).1,
         (EncodeThumb2Mov16 (0x12345678 % 65536) 12 false).2,
         (EncodeThumb2Mov16 (0x12345678 / 65536) 12 true).1,
         (EncodeThumb2Mov16 (0x12345678 / 65536) 12 true).2] ∧
      0x12345678 % 65536 = 0x12345678 &&& 0xffff ∧ 0x12345678 / 65536 = 0x12345678 >>> 16 ∧
      decodeThumb2Mov16 ((EncodeThumb2Mov32 0x12345678 12).getD 0 0)
          ((EncodeThumb2Mov32 0x12345678 12).getD 1 0) =
        some (false, 12, 0x12345678 % 65536) ∧
      decodeThumb2Mov16 ((EncodeThumb2Mov32 0x12345678 12).getD 2 0)
          ((EncodeThumb2Mov32 0x12345678 12).getD 3 0) =
        some (true, 12, 0x12345678 / 65536) ∧
      execThumb2MovPair (EncodeThumb2Mov32 0x12345678 12) = some (12, 0x12345678)) :=
  thumb2_mov_round_trip 0xABCD 12 0x12345678 true (by norm_num) (by norm_num) (by norm_num)

/-! ## Confinement of the stores -/

/-- The stores of one thunk write exactly the `THUNK_SIZE` bytes of the thunk. -/
theorem thunk_writes (t : Target) (OS_PAGE_SIZE T A i : Nat) :
    writtenBy (emitThunk t OS_PAGE_SIZE T A i) = Set.Ico T (T + THUNK_SIZE t) := by
  ext a
  cases t <;>
    simp only [writtenBy, emitThunk, emitAMD64, emitX86, emitARM, emitARM64, emitLOONGARCH64,
      THUNK_SIZE, Set.mem_setOf_eq, Set.mem_Ico, List.mem_cons, List.mem_singleton,
      List.not_mem_nil, or_false, exists_eq_or_imp, exists_eq_left] <;>
    omega

/-- Every store of one thunk lies inside the thunk. -/
theorem thunk_store_bounds (t : Target) (OS_PAGE_SIZE T A i : Nat) :
    ∀ s ∈ emitThunk t OS_PAGE_SIZE T A i, T ≤ s.addr ∧ s.addr + s.size ≤ T + THUNK_SIZE t := by
  cases t <;>
    simp only [emitThunk, emitAMD64, emitX86, emitARM, emitARM64, emitLOONGARCH64,
      List.mem_cons, List.mem_singleton, List.not_mem_nil, or_false, forall_eq_or_imp,
      forall_eq, THUNK_SIZE] <;>
    omega

/-- The thunk `(m, i)` ends inside the stub region. -/
theorem thunk_in_stub_region (t : Target) (k n m i : Nat)
    (hn : RhpGetNumThunkBlocksPerMapping (2 ^ k) = some n) (hm : m < n)
    (hi : i < RhpGetNumThunksPerBlock t (2 ^ k)) :
    m * 2 ^ k + (THUNK_SIZE t * i + THUNK_SIZE t) ≤ THUNKS_MAP_SIZE (2 ^ k) := by
  have h1 := block_end_le k n m hn hm
  have h2 := thunk_end_le t (2 ^ k) i hi
  omega

/-- The stores of one element are a contiguous segment of the stores of the
whole list. -/
theorem flatMap_segment {α β : Type} (l : List α) (f : α → List β) (x : α) (hx : x ∈ l) :
    ∃ before after, l.flatMap f = before ++ f x ++ after := by
  obtain ⟨s, t, rfl⟩ := List.append_of_mem hx
  exact ⟨s.flatMap f, t.flatMap f, by simp⟩

/-- The fill loop emits the stores of thunk `(m, i)`, with the addresses of lines
149-155, as one contiguous segment. -/
theorem fill_emits_thunk (t : Target) (OS_PAGE_SIZE B n tpb m i : Nat) (hm : m < n)
    (hi : i < tpb) :
    ∃ before after, fillThunks t OS_PAGE_SIZE B n tpb =
      before ++ emitThunk t OS_PAGE_SIZE (pCurrentThunkAddress t OS_PAGE_SIZE B m i)
        (pCurrentDataAddress t OS_PAGE_SIZE B m i) i ++ after := by
  obtain ⟨b1, a1, h1⟩ := flatMap_segment (List.range n)
    (fun m => (List.range tpb).flatMap fun i =>
      emitThunk t OS_PAGE_SIZE (pCurrentThunkAddress t OS_PAGE_SIZE B m i)
        (pCurrentDataAddress t OS_PAGE_SIZE B m i) i) m (List.mem_range.2 hm)
  obtain ⟨b2, a2, h2⟩ := flatMap_segment (List.range tpb)
    (fun i => emitThunk t OS_PAGE_SIZE (pCurrentThunkAddress t OS_PAGE_SIZE B m i)
      (pCurrentDataAddress t OS_PAGE_SIZE B m i) i) i (List.mem_range.2 hi)
  refine ⟨b1 ++ b2, a2 ++ a1, ?_⟩
  unfold fillThunks
  rw [h1]
  simp only [h2, List.append_assoc]

/-- The addresses the whole fill loop writes: the union of the thunks. -/
theorem fill_writes (t : Target) (OS_PAGE_SIZE B n tpb : Nat) :
    writtenBy (fillThunks t OS_PAGE_SIZE B n tpb) =
      {a | ∃ m i, m < n ∧ i < tpb ∧
        pCurrentThunkAddress t OS_PAGE_SIZE B m i ≤ a ∧
        a < pCurrentThunkAddress t OS_PAGE_SIZE B m i + THUNK_SIZE t} := by
  ext a
  constructor
  · rintro ⟨s, hs, h1, h2⟩
    unfold fillThunks at hs
    simp only [List.mem_flatMap, List.mem_range] at hs
    obtain ⟨m, hm, i, hi, hs1⟩ := hs
    have hmem : a ∈ writtenBy (emitThunk t OS_PAGE_SIZE
        (pCurrentThunkAddress t OS_PAGE_SIZE B m i)
        (pCurrentDataAddress t OS_PAGE_SIZE B m i) i) := ⟨s, hs1, h1, h2⟩
    rw [thunk_writes] at hmem
    exact ⟨m, i, hm, hi, hmem.1, hmem.2⟩
  · rintro ⟨m, i, hm, hi, h1, h2⟩
    have hmem : a ∈ writtenBy (emitThunk t OS_PAGE_SIZE
        (pCurrentThunkAddress t OS_PAGE_SIZE B m i)
        (pCurrentDataAddress t OS_PAGE_SIZE B m i) i) := by
      rw [thunk_writes]
      exact ⟨h1, h2⟩
    obtain ⟨s, hs, h3, h4⟩ := hmem
    refine ⟨s, ?_, h3, h4⟩
    unfold fillThunks
    simp only [List.mem_flatMap, List.mem_range]
    exact ⟨m, hm, i, hi, hs⟩

/-- C15: the stores of the fill loop are confined and complete.  For each
encoder, every block `m` and every thunk `i`, the fill loop emits the stores of
thunk `(m, i)` as one segment of its stores, and the addresses written while
emitting thunk `(m, i)` are exactly the interval of offsets
`[m*page_size + i*thunk_size, m*page_size + (i+1)*thunk_size)` from the base of
the mapping; the interval lies inside the stub region `[0, mapping_size)`, is
disjoint from the data region, and is disjoint from the interval of every other
thunk; every store of the whole loop lies inside the stub region, and the
addresses the whole loop writes are exactly the union of these intervals over
all blocks and thunks. -/
theorem fill_writes_confined (t : Target) (OS_PAGE_SIZE k B n m i : Nat)
    (hpow : OS_PAGE_SIZE = 2 ^ k)
    (hn : RhpGetNumThunkBlocksPerMapping OS_PAGE_SIZE = some n) (hm : m < n)
    (hi : i < RhpGetNumThunksPerBlock t OS_PAGE_SIZE) :
    writtenBy (emitThunk t OS_PAGE_SIZE (pCurrentThunkAddress t OS_PAGE_SIZE B m i)
        (pCurrentDataAddress t OS_PAGE_SIZE B m i) i) =
      Set.Ico (B + (m * OS_PAGE_SIZE + i * RhpGetThunkSize t))
        (B + (m * OS_PAGE_SIZE + (i + 1) * RhpGetThunkSize t)) ∧
    m * OS_PAGE_SIZE + (i + 1) * RhpGetThunkSize t ≤ THUNKS_MAP_SIZE OS_PAGE_SIZE ∧
    Disjoint
      (writtenBy (emitThunk t OS_PAGE_SIZE (pCurrentThunkAddress t OS_PAGE_SIZE B m i)
        (pCurrentDataAddress t OS_PAGE_SIZE B m i) i))
      (Set.Ico (B + THUNKS_MAP_SIZE OS_PAGE_SIZE) (B + 2 * THUNKS_MAP_SIZE OS_PAGE_SIZE)) ∧
    (∀ m2 i2, m2 < n → i2 < RhpGetNumThunksPerBlock t OS_PAGE_SIZE → (m2, i2) ≠ (m, i) →
      Disjoint
        (writtenBy (emitThunk t OS_PAGE_SIZE (pCurrentThunkAddress t OS_PAGE_SIZE B m i)
          (pCurrentDataAddress t OS_PAGE_SIZE B m i) i))
        (writtenBy (emitThunk t OS_PAGE_SIZE (pCurrentThunkAddress t OS_PAGE_SIZE B m2 i2)
          (pCurrentDataAddress t OS_PAGE_SIZE B m2 i2) i2))) ∧
    (∀ s ∈ fillThunks t OS_PAGE_SIZE B n (RhpGetNumThunksPerBlock t OS_PAGE_SIZE),
      B ≤ s.addr ∧ s.addr + s.size ≤ B + THUNKS_MAP_SIZE OS_PAGE_SIZE) ∧
    (∃ before after,
      fillThunks t OS_PAGE_SIZE B n (RhpGetNumThunksPerBlock t OS_PAGE_SIZE) =
        before ++ emitThunk t OS_PAGE_SIZE (pCurrentThunkAddress t OS_PAGE_SIZE B m i)
          (pCurrentDataAddress t OS_PAGE_SIZE B m i) i ++ after) ∧
    writtenBy (fillThunks t OS_PAGE_SIZE B n (RhpGetNumThunksPerBlock t OS_PAGE_SIZE)) =
      {a | ∃ m2 i2, m2 < n ∧ i2 < RhpGetNumThunksPerBlock t OS_PAGE_SIZE ∧
        B + (m2 * OS_PAGE_SIZE + i2 * RhpGetThunkSize t) ≤ a ∧
        a < B + (m2 * OS_PAGE_SIZE + (i2 + 1) * RhpGetThunkSize t)} := by
  subst hpow
  have hin := thunk_in_stub_region t k n m i hn hm hi
  have hts := thunk_size_pos t
  have hT : ∀ m2 i2, pCurrentThunkAddress t (2 ^ k) B m2 i2 =
      B + (m2 * 2 ^ k + THUNK_SIZE t * i2) := by
    intro m2 i2
    unfold pCurrentThunkAddress pThunkBlockAddress
    omega
  have he : (i + 1) * RhpGetThunkSize t = THUNK_SIZE t * i + THUNK_SIZE t := by
    unfold RhpGetThunkSize; ring
  have he2 : i * RhpGetThunkSize t = THUNK_SIZE t * i := by
    unfold RhpGetThunkSize; ring
  refine ⟨?_, ?_, ?_, ?_, ?_, fill_emits_thunk t (2 ^ k) B n _ m i hm hi, ?_⟩
  · have e3 : B + (m * 2 ^ k + THUNK_SIZE t * i) + THUNK_SIZE t =
        B + (m * 2 ^ k + (THUNK_SIZE t * i + THUNK_SIZE t)) := by omega
    rw [thunk_writes, hT, he, he2, e3]
  · rw [he]; exact hin
  · rw [thunk_writes, hT, Set.Ico_disjoint_Ico]
    simp only [le_max_iff, min_le_iff]
    omega
  · intro m2 i2 hm2 hi2 hne
    have hin2 := thunk_in_stub_region t k n m2 i2 hn hm2 hi2
    have hth := thunk_end_le t (2 ^ k) i hi
    have hth2 := thunk_end_le t (2 ^ k) i2 hi2
    rw [thunk_writes, thunk_writes, hT, hT, Set.Ico_disjoint_Ico]
    simp only [le_max_iff, min_le_iff]
    rcases Nat.lt_trichotomy m m2 with h | h | h
    · have h1 : (m + 1) * 2 ^ k ≤ m2 * 2 ^ k := Nat.mul_le_mul_right _ h
      have h2 : (m + 1) * 2 ^ k = m * 2 ^ k + 2 ^ k := by ring
      omega
    · subst h
      have hi' : i2 ≠ i := fun h => hne (by rw [h])
      rcases Nat.lt_or_gt_of_ne hi' with h | h
      · have h1 : THUNK_SIZE t * (i2 + 1) ≤ THUNK_SIZE t * i := Nat.mul_le_mul_left _ h
        have h2 : THUNK_SIZE t * (i2 + 1) = THUNK_SIZE t * i2 + THUNK_SIZE t := by ring
        omega
      · have h1 : THUNK_SIZE t * (i + 1) ≤ THUNK_SIZE t * i2 := Nat.mul_le_mul_left _ h
        have h2 : THUNK_SIZE t * (i + 1) = THUNK_SIZE t * i + THUNK_SIZE t := by ring
        omega
    · have h1 : (m2 + 1) * 2 ^ k ≤ m * 2 ^ k := Nat.mul_le_mul_right _ h
      have h2 : (m2 + 1) * 2 ^ k = m2 * 2 ^ k + 2 ^ k := by ring
      omega
  · intro s hs
    unfold fillThunks at hs
    simp only [List.mem_flatMap, List.mem_range] at hs
    obtain ⟨m2, hm2, i2, hi2, hs2⟩ := hs
    have hb := thunk_store_bounds t (2 ^ k) _ _ i2 s hs2
    have hin2 := thunk_in_stub_region t k n m2 i2 hn hm2 hi2
    rw [hT] at hb
    omega
  · rw [fill_writes]
    ext a
    simp only [Set.mem_setOf_eq]
    have hr : ∀ m2 i2, (pCurrentThunkAddress t (2 ^ k) B m2 i2 ≤ a ∧
        a < pCurrentThunkAddress t (2 ^ k) B m2 i2 + THUNK_SIZE t) ↔
        (B + (m2 * 2 ^ k + i2 * RhpGetThunkSize t) ≤ a ∧
        a < B + (m2 * 2 ^ k + (i2 + 1) * RhpGetThunkSize t)) := by
      intro m2 i2
      have e1 : (i2 + 1) * RhpGetThunkSize t = THUNK_SIZE t * i2 + THUNK_SIZE t := by
        unfold RhpGetThunkSize; ring
      have e2 : i2 * RhpGetThunkSize t = THUNK_SIZE t * i2 := by
        unfold RhpGetThunkSize; ring
      rw [hT, e1, e2]
      omega
    simp only [hr]

theorem fill_writes_confined_witness :
    writtenBy (emitThunk .ARM 4096 (pCurrentThunkAddress .ARM 4096 0x10000 7 203)
        (pCurrentDataAddress .ARM 4096 0x10000 7 203) 203) =
      Set.Ico (0x10000 + (7 * 4096 + 203 * RhpGetThunkSize .ARM))
        (0x10000 + (7 * 4096 + (203 + 1) * RhpGetThunkSize .ARM)) ∧
    7 * 4096 + (203 + 1) * RhpGetThunkSize .ARM ≤ THUNKS_MAP_SIZE 4096 ∧
    Disjoint
      (writtenBy (emitThunk .ARM 4096 (pCurrentThunkAddress .ARM 4096 0x10000 7 203)
        (pCurrentDataAddress .ARM 4096 0x10000 7 203) 203))
      (Set.Ico (0x10000 + THUNKS_MAP_SIZE 4096) (0x10000 + 2 * THUNKS_MAP_SIZE 4096)) ∧
    (∀ m2 i2, m2 < 8 → i2 < RhpGetNumThunksPerBlock .ARM 4096 → (m2, i2) ≠ (7, 203) →
      Disjoint
        (writtenBy (emitThunk .ARM 4096 (pCurrentThunkAddress .ARM 4096 0x10000 7 203)
          (pCurrentDataAddress .ARM 4096 0x10000 7 203) 203))
        (writtenBy (emitThunk .ARM 4096 (pCurrentThunkAddress .ARM 4096 0x10000 m2 i2)
          (pCurrentDataAddress .ARM 4096 0x10000 m2 i2) i2))) ∧
    (∀ s ∈ fillThunks .ARM 4096 0x10000 8 (RhpGetNumThunksPerBlock .ARM 4096),
      0x10000 ≤ s.addr ∧ s.addr + s.size ≤ 0x10000 + THUNKS_MAP_SIZE 4096) ∧
    (∃ before after,
      fillThunks .ARM 4096 0x10000 8 (RhpGetNumThunksPerBlock .ARM 4096) =
        before ++ emitThunk .ARM 4096 (pCurrentThunkAddress .ARM 4096 0x10000 7 203)
          (pCurrentDataAddress .ARM 4096 0x10000 7 203) 203 ++ after) ∧
    writtenBy (fillThunks .ARM 4096 0x10000 8 (RhpGetNumThunksPerBlock .ARM 4096)) =
      {a | ∃ m2 i2, m2 < 8 ∧ i2 < RhpGetNumThunksPerBlock .ARM 4096 ∧
        0x10000 + (m2 * 4096 + i2 * RhpGetThunkSize .ARM) ≤ a ∧
        a < 0x10000 + (m2 * 4096 + (i2 + 1) * RhpGetThunkSize .ARM)} :=
  fill_writes_confined .ARM 4096 12 0x10000 8 7 203 (by norm_num) (by decide) (by norm_num)
    (by decide)

/-! ## Strategy A on the other hosts -/

/-- The call on the Windows path, case by case. -/
theorem rx_win32_cases (t : Target) (k : Nat) (pal : Pal) :
    (let mapSize := THUNKS_MAP_SIZE (2 ^ k)
    let base := pal.PalVirtualAlloc (mapSize * 2) .PAGE_READWRITE
    let okFinal := pal.PalVirtualProtect base mapSize .PAGE_EXECUTE_READ
    let fill := (fillThunks t (2 ^ k) base (mapSize / 2 ^ k)
      (RhpGetNumThunksPerBlock t (2 ^ k))).map Event.store
    RxThunks.RhAllocateThunksMapping .WIN32 t (2 ^ k) pal =
      if base = 0 then
        (.returned 0, [.PalVirtualAlloc (mapSize * 2) .PAGE_READWRITE base])
      else if okFinal = false then
        (.returned 0,
          [.PalVirtualAlloc (mapSize * 2) .PAGE_READWRITE base] ++ fill ++
          [.PalVirtualProtect base mapSize .PAGE_EXECUTE_READ false,
           .PalVirtualFree base (mapSize * 2)])
      else
        (.returned base,
          [.PalVirtualAlloc (mapSize * 2) .PAGE_READWRITE base] ++ fill ++
          [.PalVirtualProtect base mapSize .PAGE_EXECUTE_READ true,
           .PalFlushInstructionCache base mapSize])) := by
  have hn : RhpGetNumThunkBlocksPerMapping (2 ^ k) = some (THUNKS_MAP_SIZE (2 ^ k) / 2 ^ k) :=
    (blocks_per_mapping_exact (2 ^ k) k rfl).2.2.1
  simp only [RxThunks.RhAllocateThunksMapping, RxThunks.protectBeforeFill,
    RxThunks.finishMapping, hn, if_true]
  generalize pal.PalVirtualAlloc (THUNKS_MAP_SIZE (2 ^ k) * 2) Prot.PAGE_READWRITE = base
  generalize pal.PalVirtualProtect base (THUNKS_MAP_SIZE (2 ^ k)) Prot.PAGE_EXECUTE_READ = okFinal
  by_cases h0 : base = 0
  · simp [h0]
  · cases okFinal <;> simp [h0]

/-- The call on macOS ARM64, case by case. -/
theorem rx_osx_cases (t : Target) (k : Nat) (pal : Pal) :
    (let mapSize := THUNKS_MAP_SIZE (2 ^ k)
    let base := pal.PalVirtualAlloc (mapSize * 2) .PAGE_EXECUTE_READ
    let okData := pal.PalVirtualProtect (base + mapSize) mapSize .PAGE_READWRITE
    let okCode := pal.PalVirtualProtect base mapSize .PAGE_EXECUTE_READWRITE
    let fill := (fillThunks t (2 ^ k) base (mapSize / 2 ^ k)
      (RhpGetNumThunksPerBlock t (2 ^ k))).map Event.store
    RxThunks.RhAllocateThunksMapping .OSX_ARM64 t (2 ^ k) pal =
      if base = 0 then
        (.returned 0, [.PalVirtualAlloc (mapSize * 2) .PAGE_EXECUTE_READ base])
      else if okData = false then
        (.returned 0,
          [.PalVirtualAlloc (mapSize * 2) .PAGE_EXECUTE_READ base,
           .PalVirtualProtect (base + mapSize) mapSize .PAGE_READWRITE false,
           .PalVirtualFree base (mapSize * 2)])
      else if okCode = false then
        (.returned 0,
          [.PalVirtualAlloc (mapSize * 2) .PAGE_EXECUTE_READ base,
           .PalVirtualProtect (base + mapSize) mapSize .PAGE_READWRITE true,
           .PalVirtualProtect base mapSize .PAGE_EXECUTE_READWRITE false,
           .PalVirtualFree base (mapSize * 2)])
      else
        (.returned base,
          [.PalVirtualAlloc (mapSize * 2) .PAGE_EXECUTE_READ base,
           .PalVirtualProtect (base + mapSize) mapSize .PAGE_READWRITE true,
           .PalVirtualProtect base mapSize .PAGE_EXECUTE_READWRITE true,
           .pthread_jit_write_protect_np 0] ++ fill ++
          [.pthread_jit_write_protect_np 1,
           .PalFlushInstructionCache base mapSize])) := by
  have hn : RhpGetNumThunkBlocksPerMapping (2 ^ k) = some (THUNKS_MAP_SIZE (2 ^ k) / 2 ^ k) :=
    (blocks_per_mapping_exact (2 ^ k) k rfl).2.2.1
  simp only [RxThunks.RhAllocateThunksMapping, RxThunks.protectBeforeFill,
    RxThunks.finishMapping, hn, show (Host.OSX_ARM64 = Host.WIN32) = False from by simp,
    if_false]
  generalize pal.PalVirtualAlloc (THUNKS_MAP_SIZE (2 ^ k) * 2) Prot.PAGE_EXECUTE_READ = base
  generalize pal.PalVirtualProtect (base + THUNKS_MAP_SIZE (2 ^ k)) (THUNKS_MAP_SIZE (2 ^ k))
    Prot.PAGE_READWRITE = okData
  generalize pal.PalVirtualProtect base (THUNKS_MAP_SIZE (2 ^ k)) Prot.PAGE_EXECUTE_READWRITE = okCode
  by_cases h0 : base = 0
  · simp [h0]
  · cases okData <;> cases okCode <;> simp [h0]

/-- On the Apple mobile hosts a call never returns a mapping. -/
theorem rx_apple_mobile_never_returns (t : Target) (k : Nat) (pal : Pal) (p : Nat)
    (hret : (RxThunks.RhAllocateThunksMapping .APPLE_MOBILE_ARM64 t (2 ^ k) pal).1 = .returned p) :
    p = 0 := by
  have hn : RhpGetNumThunkBlocksPerMapping (2 ^ k) = some (THUNKS_MAP_SIZE (2 ^ k) / 2 ^ k) :=
    (blocks_per_mapping_exact (2 ^ k) k rfl).2.2.1
  simp only [RxThunks.RhAllocateThunksMapping, RxThunks.protectBeforeFill,
    RxThunks.finishMapping, hn,
    show (Host.APPLE_MOBILE_ARM64 = Host.WIN32) = False from by simp, if_false] at hret
  generalize pal.PalVirtualAlloc (THUNKS_MAP_SIZE (2 ^ k) * 2) Prot.PAGE_EXECUTE_READ = base at hret
  generalize pal.PalVirtualProtect (base + THUNKS_MAP_SIZE (2 ^ k)) (THUNKS_MAP_SIZE (2 ^ k))
    Prot.PAGE_READWRITE = okData at hret
  generalize pal.PalVirtualProtect base (THUNKS_MAP_SIZE (2 ^ k)) Prot.PAGE_EXECUTE_READWRITE =
    okCode at hret
  by_cases h0 : base = 0
  · simp [h0] at hret
    exact hret.symm
  · cases okData <;> cases okCode <;> simp [h0] at hret <;> exact hret.symm

theorem filter_isFlush_map_store (l : List Store) :
    (l.map Event.store).filter Event.isFlush = [] := by
  induction l with
  | nil => rfl
  | cons s l ih => simp [Event.isFlush]

/-- C18: Strategy A flushes before publishing.  On every host, a call that
returns a non-null address returns the reserved base, invokes
`PalFlushInstructionCache` exactly once, over the stub region
`[base, base + mapping_size)`, and that flush is the last event of the call, so
it follows every store and every protection change; no call returns a non-null
address without it. -/
theorem rx_flush_before_publish (host : Host) (t : Target) (OS_PAGE_SIZE k p : Nat) (pal : Pal)
    (hpow : OS_PAGE_SIZE = 2 ^ k)
    (hret : (RxThunks.RhAllocateThunksMapping host t OS_PAGE_SIZE pal).1 = .returned p)
    (hp : p ≠ 0) :
    p = pal.PalVirtualAlloc (THUNKS_MAP_SIZE OS_PAGE_SIZE * 2)
      (if host = .WIN32 then Prot.PAGE_READWRITE else Prot.PAGE_EXECUTE_READ) ∧
    (RxThunks.RhAllocateThunksMapping host t OS_PAGE_SIZE pal).2.filter Event.isFlush =
      [.PalFlushInstructionCache p (THUNKS_MAP_SIZE OS_PAGE_SIZE)] ∧
    ∃ before, (RxThunks.RhAllocateThunksMapping host t OS_PAGE_SIZE pal).2 =
      before ++ [.PalFlushInstructionCache p (THUNKS_MAP_SIZE OS_PAGE_SIZE)] := by
  subst hpow
  cases host
  · rw [if_pos rfl]
    have h := rx_win32_cases t k pal
    simp only at h hret ⊢
    rw [h] at hret ⊢
    clear h
    generalize pal.PalVirtualAlloc (THUNKS_MAP_SIZE (2 ^ k) * 2) Prot.PAGE_READWRITE = base at *
    generalize pal.PalVirtualProtect base (THUNKS_MAP_SIZE (2 ^ k)) Prot.PAGE_EXECUTE_READ =
      okFinal at *
    by_cases h0 : base = 0
    · simp [h0] at hret
      exact absurd hret.symm hp
    · cases okFinal <;> simp [h0] at hret
      · exact absurd hret.symm hp
      · subst hret
        refine ⟨by simp, ?_, ?_⟩
        · simp [h0, List.filter_append, filter_isFlush_map_store, Event.isFlush]
        · exact ⟨[Event.PalVirtualAlloc (THUNKS_MAP_SIZE (2 ^ k) * 2) .PAGE_READWRITE base] ++
            (fillThunks t (2 ^ k) base (THUNKS_MAP_SIZE (2 ^ k) / 2 ^ k)
              (RhpGetNumThunksPerBlock t (2 ^ k))).map Event.store ++
            [Event.PalVirtualProtect base (THUNKS_MAP_SIZE (2 ^ k)) .PAGE_EXECUTE_READ true],
            by simp [h0]⟩
  · rw [if_neg (by decide)]
    have h := rx_unix_cases t k pal
    simp only at h hret ⊢
    rw [h] at hret ⊢
    clear h
    generalize pal.PalVirtualAlloc (THUNKS_MAP_SIZE (2 ^ k) * 2) Prot.PAGE_EXECUTE_READ = base at *
    generalize pal.PalVirtualProtect (base + THUNKS_MAP_SIZE (2 ^ k)) (THUNKS_MAP_SIZE (2 ^ k))
      Prot.PAGE_READWRITE = okData at *
    generalize pal.PalVirtualProtect base (THUNKS_MAP_SIZE (2 ^ k)) Prot.PAGE_EXECUTE_READWRITE =
      okCode at *
    generalize pal.PalVirtualProtect base (THUNKS_MAP_SIZE (2 ^ k)) Prot.PAGE_EXECUTE_READ =
      okFinal at *
    by_cases h0 : base = 0
    · simp [h0] at hret
      exact absurd hret.symm hp
    · cases okData <;> cases okCode <;> cases okFinal <;> simp [h0] at hret <;>
        first
          | exact absurd hret.symm hp
          | skip
      subst hret
      refine ⟨by simp, ?_, ?_⟩
      · simp [h0, List.filter_append, filter_isFlush_map_store, Event.isFlush]
      · exact ⟨[Event.PalVirtualAlloc (THUNKS_MAP_SIZE (2 ^ k) * 2) .PAGE_EXECUTE_READ base,
            Event.PalVirtualProtect (base + THUNKS_MAP_SIZE (2 ^ k)) (THUNKS_MAP_SIZE (2 ^ k))
              .PAGE_READWRITE true,
            Event.PalVirtualProtect base (THUNKS_MAP_SIZE (2 ^ k)) .PAGE_EXECUTE_READWRITE true] ++
          (fillThunks t (2 ^ k) base (THUNKS_MAP_SIZE (2 ^ k) / 2 ^ k)
            (RhpGetNumThunksPerBlock t (2 ^ k))).map Event.store ++
          [Event.PalVirtualProtect base (THUNKS_MAP_SIZE (2 ^ k)) .PAGE_EXECUTE_READ true],
          by simp [h0]⟩
  · rw [if_neg (by decide)]
    have h := rx_osx_cases t k pal
    simp only at h hret ⊢
    rw [h] at hret ⊢
    clear h
    generalize pal.PalVirtualAlloc (THUNKS_MAP_SIZE (2 ^ k) * 2) Prot.PAGE_EXECUTE_READ = base at *
    generalize pal.PalVirtualProtect (base + THUNKS_MAP_SIZE (2 ^ k)) (THUNKS_MAP_SIZE (2 ^ k))
      Prot.PAGE_READWRITE = okData at *
    generalize pal.PalVirtualProtect base (THUNKS_MAP_SIZE (2 ^ k)) Prot.PAGE_EXECUTE_READWRITE =
      okCode at *
    by_cases h0 : base = 0
    · simp [h0] at hret
      exact absurd hret.symm hp
    · cases okData <;> cases okCode <;> simp [h0] at hret <;>
        first
          | exact absurd hret.symm hp
          | skip
      subst hret
      refine ⟨by simp, ?_, ?_⟩
      · simp [h0, List.filter_append, filter_isFlush_map_store, Event.isFlush]
      · exact ⟨[Event.PalVirtualAlloc (THUNKS_MAP_SIZE (2 ^ k) * 2) .PAGE_EXECUTE_READ base,
            Event.PalVirtualProtect (base + THUNKS_MAP_SIZE (2 ^ k)) (THUNKS_MAP_SIZE (2 ^ k))
              .PAGE_READWRITE true,
            Event.PalVirtualProtect base (THUNKS_MAP_SIZE (2 ^ k)) .PAGE_EXECUTE_READWRITE true,
            Event.pthread_jit_write_protect_np 0] ++
          (fillThunks t (2 ^ k) base (THUNKS_MAP_SIZE (2 ^ k) / 2 ^ k)
            (RhpGetNumThunksPerBlock t (2 ^ k))).map Event.store ++
          [Event.pthread_jit_write_protect_np 1],
          by simp [h0]⟩
  · exact absurd (rx_apple_mobile_never_returns t k pal p hret) hp

theorem filter_isProtect_map_store (l : List Store) :
    (l.map Event.store).filter Event.isProtect = [] := by
  induction l with
  | nil => rfl
  | cons s l ih => simp [Event.isProtect]

/-- A protection an address has after a trace was set by an allocation or by a
successful protection change of the trace that covers the address. -/
theorem protection_source (trace : List Event) (p0 : Nat → Option Prot) (a : Nat) (pr : Prot)
    (h : trace.foldl protectionStep p0 a = some pr) :
    p0 a = some pr ∨
    (∃ size r, Event.PalVirtualAlloc size pr r ∈ trace ∧ r ≤ a ∧ a < r + size) ∨
    (∃ addr size, Event.PalVirtualProtect addr size pr true ∈ trace ∧ addr ≤ a ∧
      a < addr + size) := by
  induction trace generalizing p0 with
  | nil => exact Or.inl h
  | cons e es ih =>
    rw [List.foldl_cons] at h
    rcases ih _ h with h1 | ⟨size, r, hm, hr⟩ | ⟨addr, size, hm, hr⟩
    · cases e with
      | PalVirtualAlloc size prot result =>
        simp only [protectionStep] at h1
        split_ifs at h1 with hc
        · right; left
          cases h1
          exact ⟨size, result, List.mem_cons_self _ _, hc.2⟩
        · exact Or.inl h1
      | PalVirtualProtect addr size prot result =>
        simp only [protectionStep] at h1
        split_ifs at h1 with hc
        · right; right
          cases h1
          obtain ⟨hres, hrange⟩ := hc
          subst hres
          exact ⟨addr, size, List.mem_cons_self _ _, hrange⟩
        · exact Or.inl h1
      | PalVirtualFree addr size =>
        simp only [protectionStep] at h1
        split_ifs at h1
        exact Or.inl h1
      | _ => exact Or.inl h1
    · exact Or.inr (Or.inl ⟨size, r, List.mem_cons_of_mem _ hm, hr⟩)
    · exact Or.inr (Or.inr ⟨addr, size, List.mem_cons_of_mem _ hm, hr⟩)

/-- C17: Strategy A on the Windows path never has a writable and executable
page.  The region is reserved read-write; every store is executed while the
stub half is read-write; the only protection change is the stub half to
execute+read, after the stores of the fill loop; at no step of the call is any
address read-write-execute, and no address outside the stub half (the data half
included) is ever executable. -/
theorem win32_never_writable_and_executable (t : Target) (OS_PAGE_SIZE k : Nat) (pal : Pal)
    (hpow : OS_PAGE_SIZE = 2 ^ k) :
    (let mapSize := THUNKS_MAP_SIZE OS_PAGE_SIZE
    let base := pal.PalVirtualAlloc (mapSize * 2) .PAGE_READWRITE
    let okFinal := pal.PalVirtualProtect base mapSize .PAGE_EXECUTE_READ
    let fill := (fillThunks t OS_PAGE_SIZE base (mapSize / OS_PAGE_SIZE)
      (RhpGetNumThunksPerBlock t OS_PAGE_SIZE)).map Event.store
    let trace := (RxThunks.RhAllocateThunksMapping .WIN32 t OS_PAGE_SIZE pal).2
    (base = 0 → trace = [.PalVirtualAlloc (mapSize * 2) .PAGE_READWRITE base]) ∧
    (base ≠ 0 → trace =
      [.PalVirtualAlloc (mapSize * 2) .PAGE_READWRITE base] ++ fill ++
      [.PalVirtualProtect base mapSize .PAGE_EXECUTE_READ okFinal,
       if okFinal = true then .PalFlushInstructionCache base mapSize
       else .PalVirtualFree base (mapSize * 2)]) ∧
    trace.filter Event.isProtect =
      (if base = 0 then [] else [.PalVirtualProtect base mapSize .PAGE_EXECUTE_READ okFinal]) ∧
    StoresUnder
      (fun prot => ∀ a, base ≤ a → a < base + mapSize → prot a = some .PAGE_READWRITE)
      (fun _ => none) trace ∧
    (∀ j a, protectionAfter (trace.take j) a ≠ some .PAGE_EXECUTE_READWRITE) ∧
    (∀ j a, protectionAfter (trace.take j) a = some .PAGE_EXECUTE_READ →
      base ≤ a ∧ a < base + mapSize)) := by
  subst hpow
  have h := rx_win32_cases t k pal
  simp only at h ⊢
  rw [h]
  clear h
  generalize pal.PalVirtualAlloc (THUNKS_MAP_SIZE (2 ^ k) * 2) Prot.PAGE_READWRITE = base
  generalize pal.PalVirtualProtect base (THUNKS_MAP_SIZE (2 ^ k)) Prot.PAGE_EXECUTE_READ = okFinal
  generalize THUNKS_MAP_SIZE (2 ^ k) = M
  generalize hfill : fillThunks t (2 ^ k) base (M / 2 ^ k) (RhpGetNumThunksPerBlock t (2 ^ k)) =
    stores
  -- every event of the trace that sets a protection
  have hsrc : ∀ (tr : List Event),
      (∀ e ∈ tr, e = Event.PalVirtualAlloc (M * 2) .PAGE_READWRITE base ∨
        (∃ s, e = Event.store s) ∨
        e = Event.PalVirtualProtect base M .PAGE_EXECUTE_READ okFinal ∨
        e = Event.PalFlushInstructionCache base M ∨ e = Event.PalVirtualFree base (M * 2)) →
      ∀ j a, protectionAfter (tr.take j) a ≠ some .PAGE_EXECUTE_READWRITE ∧
        (protectionAfter (tr.take j) a = some .PAGE_EXECUTE_READ → base ≤ a ∧ a < base + M) := by
    intro tr htr j a
    constructor
    · intro hx
      rcases protection_source _ _ a _ hx with h1 | ⟨size, r, hm, _⟩ | ⟨addr, size, hm, _⟩
      · simp at h1
      · rcases htr _ (List.mem_of_mem_take hm) with h2 | ⟨s, h2⟩ | h2 | h2 | h2 <;> simp at h2
      · rcases htr _ (List.mem_of_mem_take hm) with h2 | ⟨s, h2⟩ | h2 | h2 | h2 <;> simp at h2
    · intro hx
      rcases protection_source _ _ a _ hx with h1 | ⟨size, r, hm, _⟩ | ⟨addr, size, hm, hr⟩
      · simp at h1
      · rcases htr _ (List.mem_of_mem_take hm) with h2 | ⟨s, h2⟩ | h2 | h2 | h2 <;> simp at h2
      · rcases htr _ (List.mem_of_mem_take hm) with h2 | ⟨s, h2⟩ | h2 | h2 | h2 <;> simp at h2
        obtain ⟨rfl, rfl, _⟩ := h2
        exact hr
  by_cases h0 : base = 0
  · subst h0
    simp only [if_true]
    have hone : ∀ e ∈ [Event.PalVirtualAlloc (M * 2) .PAGE_READWRITE 0],
        e = Event.PalVirtualAlloc (M * 2) .PAGE_READWRITE 0 ∨
        (∃ s, e = Event.store s) ∨
        e = Event.PalVirtualProtect 0 M .PAGE_EXECUTE_READ okFinal ∨
        e = Event.PalFlushInstructionCache 0 M ∨ e = Event.PalVirtualFree 0 (M * 2) := by
      intro e he
      exact Or.inl (List.mem_singleton.1 he)
    refine ⟨by simp, by simp, by simp [Event.isProtect], by simp [StoresUnder], ?_, ?_⟩
    · intro j a
      exact (hsrc _ hone j a).1
    · intro j a hx
      exact (hsrc _ hone j a).2 hx
  · have hmem : ∀ ok2 : Bool, ∀ e ∈
        [Event.PalVirtualAlloc (M * 2) .PAGE_READWRITE base] ++ stores.map Event.store ++
        [Event.PalVirtualProtect base M .PAGE_EXECUTE_READ okFinal,
         if ok2 = true then Event.PalFlushInstructionCache base M
         else Event.PalVirtualFree base (M * 2)],
        e = Event.PalVirtualAlloc (M * 2) .PAGE_READWRITE base ∨
        (∃ s, e = Event.store s) ∨
        e = Event.PalVirtualProtect base M .PAGE_EXECUTE_READ okFinal ∨
        e = Event.PalFlushInstructionCache base M ∨ e = Event.PalVirtualFree base (M * 2) := by
      intro ok2 e he
      simp only [List.mem_append, List.mem_singleton, List.mem_map, List.mem_cons,
        List.not_mem_nil, or_false] at he
      rcases he with (he | ⟨s, _, he⟩) | he | he
      · exact Or.inl he
      · exact Or.inr (Or.inl ⟨s, he.symm⟩)
      · exact Or.inr (Or.inr (Or.inl he))
      · cases ok2
        · exact Or.inr (Or.inr (Or.inr (Or.inr (by simpa using he))))
        · exact Or.inr (Or.inr (Or.inr (Or.inl (by simpa using he))))
    have htrace : (if base = 0 then
          (Outcome.returned 0, [Event.PalVirtualAlloc (M * 2) .PAGE_READWRITE base])
        else if okFinal = false then
          (Outcome.returned 0,
            [Event.PalVirtualAlloc (M * 2) .PAGE_READWRITE base] ++ stores.map Event.store ++
            [Event.PalVirtualProtect base M .PAGE_EXECUTE_READ false,
             Event.PalVirtualFree base (M * 2)])
        else
          (Outcome.returned base,
            [Event.PalVirtualAlloc (M * 2) .PAGE_READWRITE base] ++ stores.map Event.store ++
            [Event.PalVirtualProtect base M .PAGE_EXECUTE_READ true,
             Event.PalFlushInstructionCache base M])).2 =
        [Event.PalVirtualAlloc (M * 2) .PAGE_READWRITE base] ++ stores.map Event.store ++
        [Event.PalVirtualProtect base M .PAGE_EXECUTE_READ okFinal,
         if okFinal = true then Event.PalFlushInstructionCache base M
         else Event.PalVirtualFree base (M * 2)] := by
      cases okFinal <;> simp [h0]
    rw [htrace]
    refine ⟨fun he => absurd he h0, fun _ => rfl, ?_, ?_, ?_, ?_⟩
    · cases okFinal <;>
        simp [h0, List.filter_append, filter_isProtect_map_store, Event.isProtect]
    · simp only [List.cons_append, List.nil_append, List.append_assoc, StoresUnder]
      refine ⟨by simp, ?_⟩
      apply storesUnder_stores_append
      · intro a h1 h2
        simp only [protectionStep]
        rw [if_pos ⟨h0, h1, by omega⟩]
      · cases okFinal <;> simp [StoresUnder]
    · intro j a
      exact (hsrc _ (hmem okFinal) j a).1
    · intro j a hx
      exact (hsrc _ (hmem okFinal) j a).2 hx

theorem win32_never_writable_and_executable_witness :
    (let pal : Pal := ⟨fun _ _ => 0x10000, fun _ _ _ => true⟩
    let mapSize := THUNKS_MAP_SIZE 4096
    let base := pal.PalVirtualAlloc (mapSize * 2) .PAGE_READWRITE
    let okFinal := pal.PalVirtualProtect base mapSize .PAGE_EXECUTE_READ
    let fill := (fillThunks .X86 4096 base (mapSize / 4096)
      (RhpGetNumThunksPerBlock .X86 4096)).map Event.store
    let trace := (RxThunks.RhAllocateThunksMapping .WIN32 .X86 4096 pal).2
    (base = 0 → trace = [.PalVirtualAlloc (mapSize * 2) .PAGE_READWRITE base]) ∧
    (base ≠ 0 → trace =
      [.PalVirtualAlloc (mapSize * 2) .PAGE_READWRITE base] ++ fill ++
      [.PalVirtualProtect base mapSize .PAGE_EXECUTE_READ okFinal,
       if okFinal = true then .PalFlushInstructionCache base mapSize
       else .PalVirtualFree base (mapSize * 2)]) ∧
    trace.filter Event.isProtect =
      (if base = 0 then [] else [.PalVirtualProtect base mapSize .PAGE_EXECUTE_READ okFinal]) ∧
    StoresUnder
      (fun prot => ∀ a, base ≤ a → a < base + mapSize → prot a = some .PAGE_READWRITE)
      (fun _ => none) trace ∧
    (∀ j a, protectionAfter (trace.take j) a ≠ some .PAGE_EXECUTE_READWRITE) ∧
    (∀ j a, protectionAfter (trace.take j) a = some .PAGE_EXECUTE_READ →
      base ≤ a ∧ a < base + mapSize)) :=
  win32_never_writable_and_executable .X86 4096 12 ⟨fun _ _ => 0x10000, fun _ _ _ => true⟩
    (by norm_num)

theorem rx_flush_before_publish_witness :
    0x100000000 = (⟨fun _ _ => 0x100000000, fun _ _ _ => true⟩ : Pal).PalVirtualAlloc
      (THUNKS_MAP_SIZE 16384 * 2)
      (if Host.OSX_ARM64 = .WIN32 then Prot.PAGE_READWRITE else Prot.PAGE_EXECUTE_READ) ∧
    (RxThunks.RhAllocateThunksMapping .OSX_ARM64 .ARM64 16384
        ⟨fun _ _ => 0x100000000, fun _ _ _ => true⟩).2.filter Event.isFlush =
      [.PalFlushInstructionCache 0x100000000 (THUNKS_MAP_SIZE 16384)] ∧
    ∃ before, (RxThunks.RhAllocateThunksMapping .OSX_ARM64 .ARM64 16384
        ⟨fun _ _ => 0x100000000, fun _ _ _ => true⟩).2 =
      before ++ [.PalFlushInstructionCache 0x100000000 (THUNKS_MAP_SIZE 16384)] :=
  rx_flush_before_publish .OSX_ARM64 .ARM64 16384 14 0x100000000
    ⟨fun _ _ => 0x100000000, fun _ _ _ => true⟩ (by norm_num) (by decide) (by decide)

/-! ## Strategy B: one call, case by case -/

theorem pool_call_cases (env : FixedPool.Env) (os : FixedPool.Win32) (st : FixedPool.State)
    (S count reserved d : Nat) (reserve : List Event)
    (hS : S = FixedPool.thunkDataMappingSize env)
    (hcount : count = FixedPool.thunkDataMappingCount env)
    (hreserved : reserved =
      if st.g_pThunkStubData = 0 then FixedPool.reserveResult env os else st.g_pThunkStubData)
    (hreserve : reserve =
      if st.g_pThunkStubData = 0 then
        [Event.VirtualAlloc 0 (S * count) .MEM_RESERVE .PAGE_READWRITE reserved]
      else [])
    (hd : d = reserved + st.nextThunkDataMapping * S) :
    (env.RhpGetThunkBlockCount % env.RhpGetNumThunkBlocksPerMapping ≠ 0 ∧
      FixedPool.RhAllocateThunksMapping env os st = (.assertFailed, st, [])) ∨
    (st.nextThunkDataMapping = count ∧
      FixedPool.RhAllocateThunksMapping env os st = (.returned 0, st, [])) ∨
    (st.nextThunkDataMapping ≠ count ∧ reserved = 0 ∧
      FixedPool.RhAllocateThunksMapping env os st =
        (.returned 0, ⟨st.nextThunkDataMapping, reserved⟩, reserve)) ∨
    (st.nextThunkDataMapping ≠ count ∧ reserved ≠ 0 ∧
      os.VirtualAlloc d S .MEM_COMMIT .PAGE_READWRITE = 0 ∧
      FixedPool.RhAllocateThunksMapping env os st =
        (.returned 0, ⟨st.nextThunkDataMapping, reserved⟩,
          reserve ++ [.VirtualAlloc d S .MEM_COMMIT .PAGE_READWRITE 0])) ∨
    (st.nextThunkDataMapping ≠ count ∧ reserved ≠ 0 ∧
      os.VirtualAlloc d S .MEM_COMMIT .PAGE_READWRITE ≠ 0 ∧
      FixedPool.RhAllocateThunksMapping env os st =
        (if env.RhpGetThunkDataBlockAddress (env.RhpGetThunkStubsBlockAddress d) ≠ d then
            .assertFailed
          else .returned (env.RhpGetThunkStubsBlockAddress d),
          ⟨st.nextThunkDataMapping + 1, reserved⟩,
          reserve ++ [.VirtualAlloc d S .MEM_COMMIT .PAGE_READWRITE
            (os.VirtualAlloc d S .MEM_COMMIT .PAGE_READWRITE)])) := by
  subst hS hcount hd hreserve hreserved
  unfold FixedPool.RhAllocateThunksMapping FixedPool.reserveResult
    FixedPool.thunkDataMappingSize FixedPool.thunkDataMappingCount
  by_cases h1 : env.RhpGetThunkBlockCount % env.RhpGetNumThunkBlocksPerMapping ≠ 0
  · left
    simp [h1]
  right
  push_neg at h1
  by_cases h2 : st.nextThunkDataMapping =
      env.RhpGetThunkBlockCount / env.RhpGetNumThunkBlocksPerMapping
  · left
    simp [h1, h2]
  right
  by_cases h3 : (if st.g_pThunkStubData = 0 then
      os.VirtualAlloc 0 (env.RhpGetNumThunkBlocksPerMapping * env.RhpGetThunkBlockSize *
        (env.RhpGetThunkBlockCount / env.RhpGetNumThunkBlocksPerMapping))
        .MEM_RESERVE .PAGE_READWRITE
      else st.g_pThunkStubData) = 0
  · left
    simp [h1, h2, h3]
  right
  by_cases h4 : os.VirtualAlloc ((if st.g_pThunkStubData = 0 then
      os.VirtualAlloc 0 (env.RhpGetNumThunkBlocksPerMapping * env.RhpGetThunkBlockSize *
        (env.RhpGetThunkBlockCount / env.RhpGetNumThunkBlocksPerMapping))
        .MEM_RESERVE .PAGE_READWRITE
      else st.g_pThunkStubData) + st.nextThunkDataMapping *
        (env.RhpGetNumThunkBlocksPerMapping * env.RhpGetThunkBlockSize))
      (env.RhpGetNumThunkBlocksPerMapping * env.RhpGetThunkBlockSize)
      .MEM_COMMIT .PAGE_READWRITE = 0
  · left
    simp [h1, h2, h3, h4]
  right
  refine ⟨h2, h3, h4, ?_⟩
  simp only [h1, h2, h3, h4, ne_eq, not_true_eq_false, if_false]
  split_ifs <;> rfl

/-- What one call does to the state and what its trace holds, in terms of
whether its commit succeeded. -/
theorem pool_call_summary (env : FixedPool.Env) (os : FixedPool.Win32) (st : FixedPool.State)
    (c : FixedPool.Call)
    (hc : c = ⟨st, (FixedPool.RhAllocateThunksMapping env os st).1,
      (FixedPool.RhAllocateThunksMapping env os st).2.1,
      (FixedPool.RhAllocateThunksMapping env os st).2.2⟩) :
    c.before = st ∧
    (c.committed = false → c.after.nextThunkDataMapping = st.nextThunkDataMapping ∧
      (c.outcome = .returned 0 ∨ c.outcome = .assertFailed)) ∧
    (c.committed = true →
      c.after.nextThunkDataMapping = st.nextThunkDataMapping + 1 ∧
      st.nextThunkDataMapping ≠ FixedPool.thunkDataMappingCount env ∧
      c.after.g_pThunkStubData ≠ 0 ∧
      (∃ res, res ≠ 0 ∧ c.events.filter Event.isCommit =
        [.VirtualAlloc
          (c.after.g_pThunkStubData + st.nextThunkDataMapping * FixedPool.thunkDataMappingSize env)
          (FixedPool.thunkDataMappingSize env) .MEM_COMMIT .PAGE_READWRITE res]) ∧
      c.outcome =
        if env.RhpGetThunkDataBlockAddress (env.RhpGetThunkStubsBlockAddress
            (c.after.g_pThunkStubData +
              st.nextThunkDataMapping * FixedPool.thunkDataMappingSize env)) ≠
            c.after.g_pThunkStubData +
              st.nextThunkDataMapping * FixedPool.thunkDataMappingSize env then
          .assertFailed
        else .returned (env.RhpGetThunkStubsBlockAddress
            (c.after.g_pThunkStubData +
              st.nextThunkDataMapping * FixedPool.thunkDataMappingSize env))) ∧
    (st.g_pThunkStubData ≠ 0 →
      c.after.g_pThunkStubData = st.g_pThunkStubData ∧ c.events.filter Event.isReserve = []) ∧
    (c.after.g_pThunkStubData = st.g_pThunkStubData ∨
      st.g_pThunkStubData = 0 ∧ c.after.g_pThunkStubData = FixedPool.reserveResult env os) ∧
    (c.events.filter Event.isReserved = [] ∨
      c.after.g_pThunkStubData ≠ 0 ∧ (c.events.filter Event.isReserved).length = 1) := by
  have h := pool_call_cases env os st _ _ _ _ _ rfl rfl rfl rfl rfl
  subst hc
  refine ⟨rfl, ?_⟩
  by_cases hg : st.g_pThunkStubData = 0
  · simp only [hg, if_true] at h
    rcases h with ⟨-, h⟩ | ⟨-, h⟩ | ⟨-, h0, h⟩ | ⟨hn, h0, h1, h⟩ | ⟨hn, h0, h1, h⟩
    · rw [h]
      simp [FixedPool.Call.committed, hg]
    · rw [h]
      simp [FixedPool.Call.committed, hg]
    · rw [h]
      simp [FixedPool.Call.committed, hg, h0, Event.isCommitted, Event.isReserved]
    · rw [h]
      simp [FixedPool.Call.committed, hg, h0, Event.isCommitted, Event.isReserved,
        Event.isCommit]
    · rw [h]
      simp [FixedPool.Call.committed, hg, h0, h1, hn, Event.isCommitted, Event.isReserved,
        Event.isCommit]
  · simp only [hg, if_false] at h
    rcases h with ⟨-, h⟩ | ⟨-, h⟩ | ⟨-, h0, h⟩ | ⟨hn, h0, h1, h⟩ | ⟨hn, h0, h1, h⟩
    · rw [h]
      simp [FixedPool.Call.committed, hg]
    · rw [h]
      simp [FixedPool.Call.committed, hg]
    · exact h0.elim
    · rw [h]
      simp [FixedPool.Call.committed, hg, Event.isCommitted, Event.isReserved,
        Event.isCommit, Event.isReserve]
    · rw [h]
      simp [FixedPool.Call.committed, hg, h1, hn, Event.isCommitted, Event.isReserved,
        Event.isCommit, Event.isReserve]

/-! ## Strategy B: sequences of calls, arbitrary results of the primitives -/

theorem pool_state_cons (env : FixedPool.Env) (st : FixedPool.State) (os : FixedPool.Win32)
    (rest : List FixedPool.Win32) :
    FixedPool.stateAfter env st (os :: rest) =
      FixedPool.stateAfter env (FixedPool.RhAllocateThunksMapping env os st).2.1 rest := rfl

/-- Once the base is reserved, no later call changes it. -/
theorem pool_state_base (env : FixedPool.Env) (calls : List FixedPool.Win32) :
    ∀ st : FixedPool.State, st.g_pThunkStubData ≠ 0 →
      (FixedPool.stateAfter env st calls).g_pThunkStubData = st.g_pThunkStubData := by
  induction calls with
  | nil => intro st _; rfl
  | cons os rest ih =>
    intro st hg
    rw [pool_state_cons]
    have h := (pool_call_summary env os st _ rfl).2.2.2.1 hg
    simp only at h
    rw [ih _ (by rw [h.1]; exact hg), h.1]

/-- The next index never decreases. -/
theorem pool_state_next_le (env : FixedPool.Env) (calls : List FixedPool.Win32) :
    ∀ st : FixedPool.State,
      st.nextThunkDataMapping ≤ (FixedPool.stateAfter env st calls).nextThunkDataMapping := by
  induction calls with
  | nil => intro st; exact le_refl _
  | cons os rest ih =>
    intro st
    rw [pool_state_cons]
    refine le_trans ?_ (ih _)
    have h := pool_call_summary env os st _ rfl
    simp only at h
    cases hc : FixedPool.Call.committed ⟨st, (FixedPool.RhAllocateThunksMapping env os st).1,
      (FixedPool.RhAllocateThunksMapping env os st).2.1,
      (FixedPool.RhAllocateThunksMapping env os st).2.2⟩ with
    | false => exact le_of_eq (h.2.1 hc).1.symm
    | true => rw [(h.2.2.1 hc).1]; exact Nat.le_succ _

/-- Every call of a sequence is a call of `RhAllocateThunksMapping` under one of
the behaviours, from a state whose index is in range and whose base is `NULL`,
the starting one, or what a reserve returned. -/
theorem pool_run_mem (env : FixedPool.Env) (calls : List FixedPool.Win32) :
    ∀ (st : FixedPool.State) (c : FixedPool.Call), c ∈ FixedPool.run env st calls →
      (∃ os ∈ calls, c = ⟨c.before, (FixedPool.RhAllocateThunksMapping env os c.before).1,
        (FixedPool.RhAllocateThunksMapping env os c.before).2.1,
        (FixedPool.RhAllocateThunksMapping env os c.before).2.2⟩) ∧
      (st.nextThunkDataMapping ≤ FixedPool.thunkDataMappingCount env →
        c.before.nextThunkDataMapping ≤ FixedPool.thunkDataMappingCount env) ∧
      (c.before.g_pThunkStubData = st.g_pThunkStubData ∨
        ∃ os ∈ calls, c.before.g_pThunkStubData = FixedPool.reserveResult env os) := by
  induction calls with
  | nil => intro st c hc; simp [FixedPool.run] at hc
  | cons os rest ih =>
    intro st c hc
    simp only [FixedPool.run, List.mem_cons] at hc
    have h := pool_call_summary env os st _ rfl
    simp only at h
    rcases hc with hc | hc
    · subst hc
      exact ⟨⟨os, List.mem_cons_self _ _, rfl⟩, fun hle => hle, Or.inl rfl⟩
    · obtain ⟨⟨os1, hos1, h1⟩, h2, h3⟩ := ih _ c hc
      refine ⟨⟨os1, List.mem_cons_of_mem _ hos1, h1⟩, ?_, ?_⟩
      · intro hle
        apply h2
        cases hcm : FixedPool.Call.committed ⟨st,
          (FixedPool.RhAllocateThunksMapping env os st).1,
          (FixedPool.RhAllocateThunksMapping env os st).2.1,
          (FixedPool.RhAllocateThunksMapping env os st).2.2⟩ with
        | false => rw [(h.2.1 hcm).1]; exact hle
        | true =>
          have h5 := h.2.2.1 hcm
          rw [h5.1]
          exact Nat.succ_le_of_lt (lt_of_le_of_ne hle h5.2.1)
      · rcases h3 with h3 | ⟨os2, hos2, h3⟩
        · rcases h.2.2.2.2.1 with h4 | ⟨-, h4⟩
          · exact Or.inl (h3.trans h4)
          · exact Or.inr ⟨os, List.mem_cons_self _ _, h3.trans h4⟩
        · exact Or.inr ⟨os2, List.mem_cons_of_mem _ hos2, h3⟩

/-- The calls whose commit succeeded, in call order: call number `n` among them
starts at index `n` past the starting one and leaves the final base. -/
theorem pool_run_nth_committed (env : FixedPool.Env) (calls : List FixedPool.Win32) :
    ∀ (st : FixedPool.State) (n : Nat) (c : FixedPool.Call),
      ((FixedPool.run env st calls).filter FixedPool.Call.committed)[n]? = some c →
      c.before.nextThunkDataMapping = st.nextThunkDataMapping + n ∧
      c.after.g_pThunkStubData = (FixedPool.stateAfter env st calls).g_pThunkStubData ∧
      c.after.nextThunkDataMapping ≤
        (FixedPool.stateAfter env st calls).nextThunkDataMapping := by
  induction calls with
  | nil => intro st n c hc; simp [FixedPool.run] at hc
  | cons os rest ih =>
    intro st n c hc
    have h := pool_call_summary env os st _ rfl
    simp only at h
    rw [pool_state_cons]
    simp only [FixedPool.run, List.filter_cons] at hc
    cases hcm : FixedPool.Call.committed ⟨st,
      (FixedPool.RhAllocateThunksMapping env os st).1,
      (FixedPool.RhAllocateThunksMapping env os st).2.1,
      (FixedPool.RhAllocateThunksMapping env os st).2.2⟩ with
    | false =>
      rw [hcm] at hc
      simp only [Bool.false_eq_true, if_false] at hc
      obtain ⟨h1, h2, h3⟩ := ih _ n c hc
      rw [(h.2.1 hcm).1] at h1
      exact ⟨h1, h2, h3⟩
    | true =>
      rw [hcm] at hc
      simp only [if_true] at hc
      have h5 := h.2.2.1 hcm
      cases n with
      | zero =>
        simp only [List.getElem?_cons_zero, Option.some.injEq] at hc
        subst hc
        exact ⟨rfl, (pool_state_base env rest _ h5.2.2.1).symm, pool_state_next_le env rest _⟩
      | succ n =>
        simp only [List.getElem?_cons_succ] at hc
        obtain ⟨h1, h2, h3⟩ := ih _ n c hc
        rw [h5.1] at h1
        exact ⟨by omega, h2, h3⟩

/-- With the base reserved, no call of a sequence invokes the reserve. -/
theorem pool_run_no_reserve (env : FixedPool.Env) (calls : List FixedPool.Win32) :
    ∀ (st : FixedPool.State), st.g_pThunkStubData ≠ 0 →
      ∀ c ∈ FixedPool.run env st calls, c.events.filter Event.isReserve = [] := by
  induction calls with
  | nil => intro st _ c hc; simp [FixedPool.run] at hc
  | cons os rest ih =>
    intro st hg c hc
    have h := (pool_call_summary env os st _ rfl).2.2.2.1 hg
    simp only at h
    simp only [FixedPool.run, List.mem_cons] at hc
    rcases hc with hc | hc
    · subst hc
      exact h.2
    · exact ih _ (by rw [h.1]; exact hg) c hc

theorem isReserved_isReserve (e : Event) (h : e.isReserved = true) : e.isReserve = true := by
  cases e with
  | VirtualAlloc a s ty p r => cases ty <;> simp_all [Event.isReserved, Event.isReserve]
  | _ => simp [Event.isReserved] at h

/-- At most one call of a sequence sees its reserve succeed, and no call after it
invokes the reserve. -/
theorem pool_run_reserve_once (env : FixedPool.Env) (calls : List FixedPool.Win32) :
    ∀ (st : FixedPool.State),
      ((FixedPool.run env st calls).filter
        (fun c => c.events.any Event.isReserved)).length ≤ 1 ∧
      ∀ (i j : Nat) (ci cj : FixedPool.Call), i < j →
        (FixedPool.run env st calls)[i]? = some ci →
        (FixedPool.run env st calls)[j]? = some cj →
        ci.events.any Event.isReserved = true → cj.events.filter Event.isReserve = [] := by
  induction calls with
  | nil => intro st; simp [FixedPool.run]
  | cons os rest ih =>
    intro st
    have h := (pool_call_summary env os st _ rfl).2.2.2.2.2
    simp only at h
    have hany : ∀ l : List Event, l.any Event.isReserved = true ↔
        l.filter Event.isReserved ≠ [] := by
      intro l
      simp [List.filter_eq_nil_iff]
    have hrest : (FixedPool.RhAllocateThunksMapping env os st).2.2.any Event.isReserved = true →
        ∀ c ∈ FixedPool.run env (FixedPool.RhAllocateThunksMapping env os st).2.1 rest,
          c.events.filter Event.isReserve = [] := by
      intro h1
      rcases h with h | h
      · exact absurd h ((hany _).1 h1)
      · exact pool_run_no_reserve env rest _ h.1
    constructor
    · simp only [FixedPool.run, List.filter_cons]
      split_ifs with h1
      · have h2 := hrest h1
        have h3 : (FixedPool.run env (FixedPool.RhAllocateThunksMapping env os st).2.1
            rest).filter (fun c => c.events.any Event.isReserved) = [] := by
          rw [List.filter_eq_nil_iff]
          intro c hc hc1
          obtain ⟨e, he, he1⟩ := List.any_eq_true.1 hc1
          have h4 := h2 c hc
          rw [List.filter_eq_nil_iff] at h4
          exact h4 e he (isReserved_isReserve e he1)
        rw [h3]
        simp
      · exact (ih _).1
    · intro i j ci cj hij hi hj hres
      cases j with
      | zero => omega
      | succ j =>
        simp only [FixedPool.run, List.getElem?_cons_succ] at hj
        cases i with
        | zero =>
          simp only [FixedPool.run, List.getElem?_cons_zero, Option.some.injEq] at hi
          subst hi
          exact hrest hres cj (List.getElem?_mem hj)
        | succ i =>
          simp only [FixedPool.run, List.getElem?_cons_succ] at hi
          exact (ih _).2 i j ci cj (by omega) hi hj hres

/-! ## Strategy B with the geometry queries of this file -/

theorem pool_geometry_round_trip (t : Target) (k d : Nat) (hk : k ≤ wordBits t)
    (hd : d < 2 ^ wordBits t) (hdvd : 2 ^ k ∣ d) :
    RhpGetThunkDataBlockAddress t (2 ^ k) (RhpGetThunkStubsBlockAddress t (2 ^ k) d) = d := by
  rw [data_of_stubs t k d hk, and_wordNot_of_dvd _ k d hk hd hdvd]

theorem pool_geometry_stub_ne_zero (t : Target) (k d : Nat) (hk : k ≤ wordBits t)
    (hd : d < 2 ^ wordBits t) (hdvd : 2 ^ k ∣ d)
    (hM : THUNKS_MAP_SIZE (2 ^ k) < 2 ^ wordBits t) (hne : d ≠ THUNKS_MAP_SIZE (2 ^ k)) :
    RhpGetThunkStubsBlockAddress t (2 ^ k) d ≠ 0 := by
  unfold RhpGetThunkStubsBlockAddress
  rw [and_wordNot_of_dvd _ k d hk hd hdvd]
  unfold wordSub
  rw [Nat.mod_eq_of_lt hd, Nat.mod_eq_of_lt hM]
  generalize 2 ^ wordBits t = N at hd hM
  generalize THUNKS_MAP_SIZE (2 ^ k) = M at hM hne
  rcases Nat.lt_or_gt_of_ne hne with h | h
  · rw [Nat.mod_eq_of_lt (by omega)]
    omega
  · have e : d + (N - M) = (d - M) + N := by omega
    rw [e, Nat.add_mod_right, Nat.mod_eq_of_lt (by omega)]
    omega

/-- Call number `n` among the calls whose commit succeeded, with the geometry
queries of this file, a page-aligned base and the reserved region inside the
address space. -/
theorem pool_geometry_call (t : Target) (k blockCount bpm : Nat)
    (calls : List FixedPool.Win32) (n base : Nat) (c : FixedPool.Call)
    (hk : k ≤ wordBits t)
    (hbpm : RhpGetNumThunkBlocksPerMapping (2 ^ k) = some bpm)
    (hbase : (FixedPool.stateAfter (FixedPool.geometryEnv t (2 ^ k) blockCount bpm)
      .initial calls).g_pThunkStubData = base)
    (halign : 2 ^ k ∣ base)
    (hfit : base + THUNKS_MAP_SIZE (2 ^ k) * (blockCount / bpm) ≤ 2 ^ wordBits t)
    (hc : ((FixedPool.run (FixedPool.geometryEnv t (2 ^ k) blockCount bpm) .initial
      calls).filter FixedPool.Call.committed)[n]? = some c) :
    FixedPool.thunkDataMappingSize (FixedPool.geometryEnv t (2 ^ k) blockCount bpm) =
      THUNKS_MAP_SIZE (2 ^ k) ∧
    c.before.nextThunkDataMapping = n ∧ c.after = ⟨n + 1, base⟩ ∧
    (∃ res, res ≠ 0 ∧ c.events.filter Event.isCommit =
      [.VirtualAlloc (base + n * THUNKS_MAP_SIZE (2 ^ k)) (THUNKS_MAP_SIZE (2 ^ k))
        .MEM_COMMIT .PAGE_READWRITE res]) ∧
    n < blockCount / bpm ∧
    RhpGetThunkDataBlockAddress t (2 ^ k)
      (RhpGetThunkStubsBlockAddress t (2 ^ k) (base + n * THUNKS_MAP_SIZE (2 ^ k))) =
      base + n * THUNKS_MAP_SIZE (2 ^ k) ∧
    c.outcome =
      .returned (RhpGetThunkStubsBlockAddress t (2 ^ k) (base + n * THUNKS_MAP_SIZE (2 ^ k))) ∧
    (base ≠ THUNKS_MAP_SIZE (2 ^ k) →
      RhpGetThunkStubsBlockAddress t (2 ^ k) (base + n * THUNKS_MAP_SIZE (2 ^ k)) ≠ 0) := by
  have hS : FixedPool.thunkDataMappingSize (FixedPool.geometryEnv t (2 ^ k) blockCount bpm) =
      THUNKS_MAP_SIZE (2 ^ k) := blocks_per_mapping_some k bpm hbpm
  have hC : FixedPool.thunkDataMappingCount (FixedPool.geometryEnv t (2 ^ k) blockCount bpm) =
      blockCount / bpm := rfl
  obtain ⟨h1, h2, -⟩ := pool_run_nth_committed _ calls .initial n c hc
  obtain ⟨hcr, hcm⟩ := List.mem_filter.1 (List.getElem?_mem hc)
  obtain ⟨⟨os, -, hceq⟩, hle, -⟩ := pool_run_mem _ calls .initial c hcr
  obtain ⟨hnext, hne, hg, hev, hout⟩ := (pool_call_summary _ os c.before c hceq).2.2.1 hcm
  rw [h2, hbase] at hg hev hout
  rw [hS] at hev hout
  rw [hC] at hle hne
  have hb : c.before.nextThunkDataMapping = n := by
    rw [h1]
    simp [FixedPool.State.initial]
  rw [hb] at hnext hne hev hout
  have hlt : n < blockCount / bpm :=
    lt_of_le_of_ne (by rw [← hb]; exact hle (Nat.zero_le _)) hne
  have hMpos : 0 < THUNKS_MAP_SIZE (2 ^ k) := by
    unfold THUNKS_MAP_SIZE
    exact lt_of_lt_of_le (by norm_num) (le_max_left _ _)
  have hmul : (n + 1) * THUNKS_MAP_SIZE (2 ^ k) ≤
      THUNKS_MAP_SIZE (2 ^ k) * (blockCount / bpm) := by
    rw [Nat.mul_comm (THUNKS_MAP_SIZE (2 ^ k))]
    exact Nat.mul_le_mul_right _ hlt
  have hd : base + n * THUNKS_MAP_SIZE (2 ^ k) < 2 ^ wordBits t := by
    have e : (n + 1) * THUNKS_MAP_SIZE (2 ^ k) =
        n * THUNKS_MAP_SIZE (2 ^ k) + THUNKS_MAP_SIZE (2 ^ k) := by ring
    omega
  have hdvd : 2 ^ k ∣ base + n * THUNKS_MAP_SIZE (2 ^ k) :=
    Nat.dvd_add halign (Dvd.dvd.mul_left (two_pow_dvd_map_size k) n)
  have hrt := pool_geometry_round_trip t k _ hk hd hdvd
  have hrt1 : (FixedPool.geometryEnv t (2 ^ k) blockCount bpm).RhpGetThunkDataBlockAddress
      ((FixedPool.geometryEnv t (2 ^ k) blockCount bpm).RhpGetThunkStubsBlockAddress
        (base + n * THUNKS_MAP_SIZE (2 ^ k))) = base + n * THUNKS_MAP_SIZE (2 ^ k) := hrt
  rw [if_neg (not_not.2 hrt1)] at hout
  refine ⟨hS, hb, ?_, hev, hlt, hrt, hout, ?_⟩
  · cases hca : c.after with
    | mk a b =>
      rw [hca] at hnext h2
      simp only at hnext h2
      rw [hnext, h2, hbase]
  · intro hneM
    have hM : THUNKS_MAP_SIZE (2 ^ k) < 2 ^ wordBits t := by
      have e : (n + 1) * THUNKS_MAP_SIZE (2 ^ k) =
          n * THUNKS_MAP_SIZE (2 ^ k) + THUNKS_MAP_SIZE (2 ^ k) := by ring
      have hb0 : base ≠ 0 := hg
      omega
    refine pool_geometry_stub_ne_zero t k _ hk hd hdvd hM ?_
    intro heq
    rcases Nat.eq_zero_or_pos n with h0 | hpos
    · subst h0
      simp at heq
      exact hneM heq
    · have : THUNKS_MAP_SIZE (2 ^ k) ≤ n * THUNKS_MAP_SIZE (2 ^ k) :=
        Nat.le_mul_of_pos_left _ hpos
      have hb0 : base ≠ 0 := hg
      omega

/-- C16: the fixed pool with the geometry queries of section 4.1 (one-page
blocks, `blocks_per_mapping` of them per mapping, the two block-address queries
of this file), a page-aligned reserved base and the reserved region inside the
address space.  Over any sequence of calls from the initial state, with any
results of the primitives, call number `n` (from 0) among the calls whose commit
succeeds starts at index `n`, commits exactly `[base + n*S, base + (n+1)*S)` with
`S = blocks_per_mapping * block_size`, which lies inside `[base, base + S *
mapping_count)`, returns `p = RhpGetThunkStubsBlockAddress(base + n*S)`, and the
closing assertion `RhpGetThunkDataBlockAddress(p) == base + n*S` holds.  Unless
the base is exactly `S`, `p` is non-null and the calls that return non-null are
the calls whose commit succeeds. -/
theorem pool_returned_addresses (t : Target) (k blockCount bpm : Nat)
    (calls : List FixedPool.Win32) (n base : Nat) (c : FixedPool.Call)
    (hk : k ≤ wordBits t)
    (hbpm : RhpGetNumThunkBlocksPerMapping (2 ^ k) = some bpm)
    (hbase : (FixedPool.stateAfter (FixedPool.geometryEnv t (2 ^ k) blockCount bpm)
      .initial calls).g_pThunkStubData = base)
    (halign : 2 ^ k ∣ base)
    (hfit : base +
      FixedPool.thunkDataMappingSize (FixedPool.geometryEnv t (2 ^ k) blockCount bpm) *
      FixedPool.thunkDataMappingCount (FixedPool.geometryEnv t (2 ^ k) blockCount bpm) ≤
        2 ^ wordBits t)
    (hc : ((FixedPool.run (FixedPool.geometryEnv t (2 ^ k) blockCount bpm) .initial
      calls).filter FixedPool.Call.committed)[n]? = some c) :
    (let env := FixedPool.geometryEnv t (2 ^ k) blockCount bpm
    let S := FixedPool.thunkDataMappingSize env
    let count := FixedPool.thunkDataMappingCount env
    let p := env.RhpGetThunkStubsBlockAddress (base + n * S)
    S = bpm * RhpGetThunkBlockSize (2 ^ k) ∧
    c.before.nextThunkDataMapping = n ∧ c.after = ⟨n + 1, base⟩ ∧
    (∃ res, res ≠ 0 ∧ c.events.filter Event.isCommit =
      [.VirtualAlloc (base + n * S) S .MEM_COMMIT .PAGE_READWRITE res]) ∧
    base ≤ base + n * S ∧ base + (n + 1) * S ≤ base + S * count ∧
    c.outcome = .returned p ∧
    env.RhpGetThunkDataBlockAddress p = base + n * S ∧
    (base ≠ S → p ≠ 0 ∧
      (FixedPool.run env .initial calls).filter (fun c => c.outcome.isNonNull) =
        (FixedPool.run env .initial calls).filter FixedPool.Call.committed)) := by
  intro env S count p
  have hS : S = THUNKS_MAP_SIZE (2 ^ k) := blocks_per_mapping_some k bpm hbpm
  have hfit1 : base + THUNKS_MAP_SIZE (2 ^ k) * (blockCount / bpm) ≤ 2 ^ wordBits t := by
    rw [← hS]
    exact hfit
  obtain ⟨-, h2, h3, h4, h5, h6, h7, h8⟩ :=
    pool_geometry_call t k blockCount bpm calls n base c hk hbpm hbase halign hfit1 hc
  rw [← hS] at h4 h6 h7 h8
  refine ⟨rfl, h2, h3, h4, Nat.le_add_right _ _, ?_, h7, h6, ?_⟩
  · have hmul : (n + 1) * S ≤ S * count := by
      rw [Nat.mul_comm S]
      exact Nat.mul_le_mul_right _ h5
    omega
  · intro hne
    refine ⟨h8 hne, ?_⟩
    apply List.filter_congr
    intro c1 hc1
    cases hcm : FixedPool.Call.committed c1 with
    | true =>
      have hmem : c1 ∈ (FixedPool.run env .initial calls).filter FixedPool.Call.committed :=
        List.mem_filter.2 ⟨hc1, hcm⟩
      obtain ⟨n1, hn1⟩ := List.mem_iff_getElem?.1 hmem
      obtain ⟨-, -, -, -, -, -, g7, g8⟩ :=
        pool_geometry_call t k blockCount bpm calls n1 base c1 hk hbpm hbase halign hfit1 hn1
      rw [g7]
      simpa [Outcome.isNonNull] using g8 (by rw [← hS]; exact hne)
    | false =>
      obtain ⟨⟨os, -, hceq⟩, -, -⟩ := pool_run_mem env calls .initial c1 hc1
      rcases ((pool_call_summary env os c1.before c1 hceq).2.1 hcm).2 with h | h <;>
        rw [h] <;> rfl

theorem pool_returned_addresses_witness :
    (let env := FixedPool.geometryEnv .AMD64 (2 ^ 12) 16 8
    let S := FixedPool.thunkDataMappingSize env
    let count := FixedPool.thunkDataMappingCount env
    let p := env.RhpGetThunkStubsBlockAddress (0x100000 + 1 * S)
    let os : FixedPool.Win32 := ⟨fun a _ _ _ => if a = 0 then 0x100000 else a⟩
    let c : FixedPool.Call := ⟨⟨1, 0x100000⟩, .returned 0x100000, ⟨2, 0x100000⟩,
      [.VirtualAlloc 0x108000 0x8000 .MEM_COMMIT .PAGE_READWRITE 0x108000]⟩
    S = 8 * RhpGetThunkBlockSize (2 ^ 12) ∧
    c.before.nextThunkDataMapping = 1 ∧ c.after = ⟨1 + 1, 0x100000⟩ ∧
    (∃ res, res ≠ 0 ∧ c.events.filter Event.isCommit =
      [.VirtualAlloc (0x100000 + 1 * S) S .MEM_COMMIT .PAGE_READWRITE res]) ∧
    0x100000 ≤ 0x100000 + 1 * S ∧ 0x100000 + (1 + 1) * S ≤ 0x100000 + S * count ∧
    c.outcome = .returned p ∧
    env.RhpGetThunkDataBlockAddress p = 0x100000 + 1 * S ∧
    (0x100000 ≠ S → p ≠ 0 ∧
      (FixedPool.run env .initial [os, os]).filter (fun c => c.outcome.isNonNull) =
        (FixedPool.run env .initial [os, os]).filter FixedPool.Call.committed)) :=
  pool_returned_addresses .AMD64 12 16 8
    [⟨fun a _ _ _ => if a = 0 then 0x100000 else a⟩,
      ⟨fun a _ _ _ => if a = 0 then 0x100000 else a⟩] 1 0x100000
    ⟨⟨1, 0x100000⟩, .returned 0x100000, ⟨2, 0x100000⟩,
      [.VirtualAlloc 0x108000 0x8000 .MEM_COMMIT .PAGE_READWRITE 0x108000]⟩
    (by decide) (by decide) (by rfl) (by norm_num) (by decide) (by rfl)

/-! ## Strategy B: the state over arbitrary results of the primitives -/

/-- A call whose commit succeeded, when the external block-address queries map
every sub-region of a reserved pool to a non-null stub address and back. -/
theorem pool_committed_call (env : FixedPool.Env) (calls : List FixedPool.Win32)
    (hgeo : ∀ os ∈ calls, FixedPool.reserveResult env os ≠ 0 →
      ∀ j, j < FixedPool.thunkDataMappingCount env →
        env.RhpGetThunkStubsBlockAddress
          (FixedPool.reserveResult env os + j * FixedPool.thunkDataMappingSize env) ≠ 0 ∧
        env.RhpGetThunkDataBlockAddress (env.RhpGetThunkStubsBlockAddress
          (FixedPool.reserveResult env os + j * FixedPool.thunkDataMappingSize env)) =
          FixedPool.reserveResult env os + j * FixedPool.thunkDataMappingSize env)
    (c : FixedPool.Call) (hc : c ∈ FixedPool.run env .initial calls)
    (hcm : c.committed = true) :
    c.after.nextThunkDataMapping = c.before.nextThunkDataMapping + 1 ∧
    c.before.nextThunkDataMapping < FixedPool.thunkDataMappingCount env ∧
    (∃ os ∈ calls, FixedPool.reserveResult env os ≠ 0 ∧
      c.after.g_pThunkStubData = FixedPool.reserveResult env os) ∧
    env.RhpGetThunkStubsBlockAddress (c.after.g_pThunkStubData +
      c.before.nextThunkDataMapping * FixedPool.thunkDataMappingSize env) ≠ 0 ∧
    c.outcome = .returned (env.RhpGetThunkStubsBlockAddress (c.after.g_pThunkStubData +
      c.before.nextThunkDataMapping * FixedPool.thunkDataMappingSize env)) := by
  obtain ⟨⟨os, hos, hceq⟩, hle, hbg⟩ := pool_run_mem env calls .initial c hc
  have hs := pool_call_summary env os c.before c hceq
  obtain ⟨hnext, hne, hg, -, hout⟩ := hs.2.2.1 hcm
  have hlt : c.before.nextThunkDataMapping < FixedPool.thunkDataMappingCount env :=
    lt_of_le_of_ne (hle (Nat.zero_le _)) hne
  have hres : ∃ os ∈ calls, FixedPool.reserveResult env os ≠ 0 ∧
      c.after.g_pThunkStubData = FixedPool.reserveResult env os := by
    rcases hs.2.2.2.2.1 with h | ⟨-, h⟩
    · rcases hbg with h0 | ⟨os1, hos1, h1⟩
      · rw [h, h0] at hg
        exact absurd rfl hg
      · exact ⟨os1, hos1, by rw [← h1, ← h]; exact hg, h.trans h1⟩
    · exact ⟨os, hos, by rw [← h]; exact hg, h⟩
  obtain ⟨os1, hos1, hr0, hr⟩ := hres
  obtain ⟨g1, g2⟩ := hgeo os1 hos1 hr0 _ hlt
  rw [← hr] at g1 g2
  rw [if_neg (not_not.2 g2)] at hout
  exact ⟨hnext, hlt, ⟨os1, hos1, hr0, hr⟩, g1, hout⟩

/-- Under the same assumption, the calls that return non-null are the calls
whose commit succeeded. -/
theorem pool_non_null_iff_committed (env : FixedPool.Env) (calls : List FixedPool.Win32)
    (hgeo : ∀ os ∈ calls, FixedPool.reserveResult env os ≠ 0 →
      ∀ j, j < FixedPool.thunkDataMappingCount env →
        env.RhpGetThunkStubsBlockAddress
          (FixedPool.reserveResult env os + j * FixedPool.thunkDataMappingSize env) ≠ 0 ∧
        env.RhpGetThunkDataBlockAddress (env.RhpGetThunkStubsBlockAddress
          (FixedPool.reserveResult env os + j * FixedPool.thunkDataMappingSize env)) =
          FixedPool.reserveResult env os + j * FixedPool.thunkDataMappingSize env)
    (c : FixedPool.Call) (hc : c ∈ FixedPool.run env .initial calls) :
    c.outcome.isNonNull = c.committed := by
  cases hcm : c.committed with
  | true =>
    obtain ⟨-, -, -, h1, h2⟩ := pool_committed_call env calls hgeo c hc hcm
    rw [h2]
    simpa [Outcome.isNonNull] using h1
  | false =>
    obtain ⟨⟨os, -, hceq⟩, -, -⟩ := pool_run_mem env calls .initial c hc
    rcases ((pool_call_summary env os c.before c hceq).2.1 hcm).2 with h | h <;>
      rw [h] <;> rfl

/-- C19: the state of the fixed pool over every sequence of calls from the
initial state, with any results of the reserve and the commit.  The external
block-address queries are assumed to map every sub-region of a reserved pool to
a non-null stub address and back (the closing assertion) and to lay the stub
blocks out with the stride of the data sub-regions; the block size is positive.
Then before and after every call the next index is at most `mapping_count`; a
call that returns `NULL` leaves it unchanged and a call that returns non-null
increases it by 1; at most one call sees the reserve succeed and no later call
invokes it; at most `mapping_count` calls return non-null, and the non-null
results are, in call order, the stub addresses of `base + n*S` for `n = 0, 1,
...`: pairwise distinct and `S = blocks_per_mapping * block_size` apart. -/
theorem pool_invariant_under_failures (env : FixedPool.Env) (calls : List FixedPool.Win32)
    (hbpm : 0 < env.RhpGetNumThunkBlocksPerMapping)
    (hsize : 0 < env.RhpGetThunkBlockSize)
    (hgeo : ∀ os ∈ calls, FixedPool.reserveResult env os ≠ 0 →
      ∀ j, j < FixedPool.thunkDataMappingCount env →
        env.RhpGetThunkStubsBlockAddress
          (FixedPool.reserveResult env os + j * FixedPool.thunkDataMappingSize env) ≠ 0 ∧
        env.RhpGetThunkDataBlockAddress (env.RhpGetThunkStubsBlockAddress
          (FixedPool.reserveResult env os + j * FixedPool.thunkDataMappingSize env)) =
          FixedPool.reserveResult env os + j * FixedPool.thunkDataMappingSize env)
    (htrans : ∀ os ∈ calls, FixedPool.reserveResult env os ≠ 0 →
      ∀ j, j + 1 < FixedPool.thunkDataMappingCount env →
        env.RhpGetThunkStubsBlockAddress
          (FixedPool.reserveResult env os + (j + 1) * FixedPool.thunkDataMappingSize env) =
        env.RhpGetThunkStubsBlockAddress
          (FixedPool.reserveResult env os + j * FixedPool.thunkDataMappingSize env) +
          FixedPool.thunkDataMappingSize env) :
    (let cs := FixedPool.run env .initial calls
    let succ := cs.filter (fun c => c.outcome.isNonNull)
    let S := FixedPool.thunkDataMappingSize env
    let count := FixedPool.thunkDataMappingCount env
    let base := (FixedPool.stateAfter env .initial calls).g_pThunkStubData
    (∀ c ∈ cs, c.before.nextThunkDataMapping ≤ count ∧ c.after.nextThunkDataMapping ≤ count) ∧
    (∀ c ∈ cs, c.outcome = .returned 0 →
      c.after.nextThunkDataMapping = c.before.nextThunkDataMapping) ∧
    (∀ c ∈ cs, ∀ p, p ≠ 0 → c.outcome = .returned p →
      c.after.nextThunkDataMapping = c.before.nextThunkDataMapping + 1) ∧
    (cs.filter (fun c => c.events.any Event.isReserved)).length ≤ 1 ∧
    (∀ (i j : Nat) (ci cj : FixedPool.Call), i < j → cs[i]? = some ci → cs[j]? = some cj →
      ci.events.any Event.isReserved = true → cj.events.filter Event.isReserve = []) ∧
    succ.length ≤ count ∧
    (∀ (n : Nat) (c : FixedPool.Call), succ[n]? = some c →
      c.before.nextThunkDataMapping = n ∧
      c.outcome = .returned (env.RhpGetThunkStubsBlockAddress (base + n * S))) ∧
    (∀ (m n : Nat) (cm cn : FixedPool.Call), m < n → succ[m]? = some cm → succ[n]? = some cn →
      cm.outcome ≠ cn.outcome) ∧
    (∀ (n : Nat) (c d : FixedPool.Call), succ[n]? = some c → succ[n + 1]? = some d →
      ∃ p, c.outcome = .returned p ∧ d.outcome = .returned (p + S))) := by
  intro cs succ S count base
  have hsucc : succ = cs.filter FixedPool.Call.committed :=
    List.filter_congr (fun c hc => pool_non_null_iff_committed env calls hgeo c hc)
  have hSpos : 0 < S := Nat.mul_pos hbpm hsize
  -- call number `n` among the successful ones
  have hnth : ∀ (n : Nat) (c : FixedPool.Call), succ[n]? = some c →
      c.before.nextThunkDataMapping = n ∧ n < count ∧
      (∃ os ∈ calls, FixedPool.reserveResult env os ≠ 0 ∧
        base = FixedPool.reserveResult env os) ∧
      c.outcome = .returned (env.RhpGetThunkStubsBlockAddress (base + n * S)) := by
    intro n c hc
    rw [hsucc] at hc
    obtain ⟨h1, h2, -⟩ := pool_run_nth_committed env calls .initial n c hc
    obtain ⟨hcr, hcm⟩ := List.mem_filter.1 (List.getElem?_mem hc)
    obtain ⟨-, g2, g3, -, g5⟩ := pool_committed_call env calls hgeo c hcr hcm
    have hb : c.before.nextThunkDataMapping = n := by
      rw [h1]
      simp [FixedPool.State.initial]
    rw [hb] at g2 g5
    rw [h2] at g3 g5
    exact ⟨hb, g2, g3, g5⟩
  refine ⟨?_, ?_, ?_, (pool_run_reserve_once env calls .initial).1,
    (pool_run_reserve_once env calls .initial).2, ?_, ?_, ?_, ?_⟩
  · intro c hc
    obtain ⟨⟨os, -, hceq⟩, hle, -⟩ := pool_run_mem env calls .initial c hc
    have hb := hle (Nat.zero_le _)
    refine ⟨hb, ?_⟩
    have hs := pool_call_summary env os c.before c hceq
    cases hcm : c.committed with
    | false => rw [(hs.2.1 hcm).1]; exact hb
    | true =>
      obtain ⟨h1, h2, -⟩ := hs.2.2.1 hcm
      rw [h1]
      exact Nat.succ_le_of_lt (lt_of_le_of_ne hb h2)
  · intro c hc hout
    obtain ⟨⟨os, -, hceq⟩, -, -⟩ := pool_run_mem env calls .initial c hc
    cases hcm : c.committed with
    | false => exact ((pool_call_summary env os c.before c hceq).2.1 hcm).1
    | true =>
      have h := pool_non_null_iff_committed env calls hgeo c hc
      rw [hcm, hout] at h
      simp [Outcome.isNonNull] at h
  · intro c hc p hp hout
    have h := pool_non_null_iff_committed env calls hgeo c hc
    have hcm : c.committed = true := by
      rw [← h, hout]
      simpa [Outcome.isNonNull] using hp
    exact (pool_committed_call env calls hgeo c hc hcm).1
  · by_contra hlt
    push_neg at hlt
    have h := (hnth count (succ.get ⟨count, hlt⟩) (List.getElem?_eq_getElem hlt)).2.1
    exact lt_irrefl _ h
  · intro n c hc
    exact ⟨(hnth n c hc).1, (hnth n c hc).2.2.2⟩
  · intro m n cm cn hmn hm hn heq
    obtain ⟨-, hm1, -, hm2⟩ := hnth m cm hm
    obtain ⟨-, hn1, ⟨os, hos, hr0, hr⟩, hn2⟩ := hnth n cn hn
    rw [hm2, hn2] at heq
    have e : env.RhpGetThunkStubsBlockAddress (base + m * S) =
        env.RhpGetThunkStubsBlockAddress (base + n * S) := by
      simpa using heq
    have gm := (hgeo os hos hr0 m hm1).2
    have gn := (hgeo os hos hr0 n hn1).2
    rw [← hr] at gm gn
    have e2 : base + m * S = base + n * S := by
      rw [← gm, ← gn]
      exact congrArg _ e
    have e3 : m * S = n * S := Nat.add_left_cancel e2
    have e4 : m = n := Nat.eq_of_mul_eq_mul_right hSpos e3
    omega
  · intro n c d hc hd
    obtain ⟨-, -, -, h1⟩ := hnth n c hc
    obtain ⟨-, h2, ⟨os, hos, hr0, hr⟩, h3⟩ := hnth (n + 1) d hd
    refine ⟨_, h1, ?_⟩
    rw [h3]
    have g := htrans os hos hr0 n h2
    rw [← hr] at g
    rw [g]

theorem pool_invariant_under_failures_witness :
    (let env : FixedPool.Env := ⟨6, 2, 4096, fun a => a - 0x1000000, fun a => a + 0x1000000⟩
    let failReserve : FixedPool.Win32 := ⟨fun _ _ _ _ => 0⟩
    let failCommit : FixedPool.Win32 := ⟨fun a _ _ _ => if a = 0 then 0x100000 else 0⟩
    let ok : FixedPool.Win32 := ⟨fun a _ _ _ => if a = 0 then 0x100000 else a⟩
    let calls := [failReserve, ok, failCommit, ok]
    let cs := FixedPool.run env .initial calls
    let succ := cs.filter (fun c => c.outcome.isNonNull)
    let S := FixedPool.thunkDataMappingSize env
    let count := FixedPool.thunkDataMappingCount env
    let base := (FixedPool.stateAfter env .initial calls).g_pThunkStubData
    (∀ c ∈ cs, c.before.nextThunkDataMapping ≤ count ∧ c.after.nextThunkDataMapping ≤ count) ∧
    (∀ c ∈ cs, c.outcome = .returned 0 →
      c.after.nextThunkDataMapping = c.before.nextThunkDataMapping) ∧
    (∀ c ∈ cs, ∀ p, p ≠ 0 → c.outcome = .returned p →
      c.after.nextThunkDataMapping = c.before.nextThunkDataMapping + 1) ∧
    (cs.filter (fun c => c.events.any Event.isReserved)).length ≤ 1 ∧
    (∀ (i j : Nat) (ci cj : FixedPool.Call), i < j → cs[i]? = some ci → cs[j]? = some cj →
      ci.events.any Event.isReserved = true → cj.events.filter Event.isReserve = []) ∧
    succ.length ≤ count ∧
    (∀ (n : Nat) (c : FixedPool.Call), succ[n]? = some c →
      c.before.nextThunkDataMapping = n ∧
      c.outcome = .returned (env.RhpGetThunkStubsBlockAddress (base + n * S))) ∧
    (∀ (m n : Nat) (cm cn : FixedPool.Call), m < n → succ[m]? = some cm → succ[n]? = some cn →
      cm.outcome ≠ cn.outcome) ∧
    (∀ (n : Nat) (c d : FixedPool.Call), succ[n]? = some c → succ[n + 1]? = some d →
      ∃ p, c.outcome = .returned p ∧ d.outcome = .returned (p + S))) := by
  intro env failReserve failCommit ok calls
  exact pool_invariant_under_failures env calls (by decide) (by decide)
    (by
      intro os _ _ j _
      constructor
      · show _ + 0x1000000 ≠ 0
        omega
      · show _ + 0x1000000 - 0x1000000 = _
        omega)
    (by
      intro os _ _ j _
      show _ + (j + 1) * (2 * 4096) + 0x1000000 = _ + j * (2 * 4096) + 0x1000000 + 2 * 4096
      ring)


/-! ## Strategy A: the protection state machine on every non-Windows host -/

end ThunksMapping
